import Mathlib

/-! Zero-knowledge proof of the key-generation round (`kgcenter/zerokproof.go`).

A shallow embedding of `Zkp.Initialization`, `Zkp.Verify` and the four check
routines `checkU1`, `checkU2`, `checkU3`, `checkE`.

* `*big.Int` values are `Int`; `Mod` and `Exp` follow `math/big` (Euclidean
  remainder, `Mod` by zero panics, `Exp` with modulus zero is the plain power).
* A panic is `none` in `Option`.
* The helpers of package `kgcenter` that the file calls but that are declared
  elsewhere (`ModPowInsecure`, `PointMul`, `pointAdd`, `Sha256Hash`, `GetBytes`,
  `Get2Bytes`, `RandomFromZn`) and the curve `secp256k1.S256()` are either
  modelled from the specification or taken as parameters (`Env`).
* The four goroutines of `Verify` and its `select` loop over the package-level
  channels `finishedU1 .. finishedE` are a transition system (`VState`, `step`).
-/

namespace kgcenter

/-! ## `math/big` -/

/-- The method `(*big.Int).Mod`: Euclidean modulus, a run-time panic (`none`)
when the modulus is zero. -/
def bigMod (x m : Int) : Option Int :=
  if m = 0 then none else some (x % m)

/-- The method `(*big.Int).Exp` for a non-negative exponent: `x ^ y mod |m|`, and
the plain power `x ^ y` when `m = 0`. -/
def bigExp (x : Int) (y : Nat) (m : Int) : Int :=
  x ^ y % m

/-- Extended Euclid with explicit fuel: `xgcd fuel a b = (d, x, y)` satisfies
`a * x + b * y = d`, and `d` is the gcd once the fuel exceeds `b`. -/
def xgcd : Nat → Int → Int → Int × Int × Int
  | 0, a, _ => (a, 1, 0)
  | fuel + 1, a, b =>
    if b = 0 then (a, 1, 0)
    else
      let t := xgcd fuel b (a % b)
      (t.1, t.2.2, t.2.1 - a / b * t.2.2)

/-- The method `(*big.Int).ModInverse`: the inverse of `g` in `ℤ/nℤ`, reduced to
`[0, |n|)`; `nil` (`none`) when `g` and `n` are not relatively prime (or `n = 0`). -/
def ModInverse (g n : Int) : Option Int :=
  if n = 0 then none
  else
    let t := xgcd (n.natAbs + 1) (g % n) (|n|)
    if t.1 = 1 then some (t.2.1 % n) else none

/-- Modelled from the spec: `ModPowInsecure(base, exponent, modulus)`, declared
outside the available sources. It is the modular power `base ^ exponent mod
modulus`; a negative exponent denotes the power of the modular inverse of `base`.
For a negative exponent and a `base` without inverse neither the sources nor the
spec say what the function does: there the model gives it no value (`none`), and no
theorem states what the code does in that case. -/
def ModPowInsecure (base exponent modulus : Int) : Option Int :=
  if 0 ≤ exponent then some (bigExp base exponent.toNat modulus)
  else
    match ModInverse base modulus with
    | none => none
    | some inv => some (bigExp inv (-exponent).toNat modulus)

/-- The method `(*big.Int).SetBytes`: the bytes read as a big-endian unsigned
integer. A byte is a natural number taken modulo `2 ^ 8`. -/
def SetBytes (digest : List Nat) : Int :=
  ((digest.foldl (fun acc b => acc * 256 + b % 256) 0 : Nat) : Int)

/-! ## Data -/

/-- The type `Point` (`[2]*big.Int`): the two affine coordinates, read in the
source as `u1[0]` and `u1[1]`. -/
abbrev Point := Int × Int

/-- The type `ECPoint` with the fields `X` and `Y` used by `Verify` and `checkE`. -/
structure ECPoint where
  X : Int
  Y : Int

/-- The Paillier public key: `Initialization` and `Verify` read only its modulus `N`. -/
structure PaillierPubKey where
  N : Int

/-- The type `PublicParameters`, with the fields read by the source. -/
structure PublicParameters where
  paillierPubKey : PaillierPubKey
  nTilde : Int
  h1 : Int
  h2 : Int

/-- The type `Zkp`: the transmitted tuple `(z, u1, u2, u3, e, s1, s2, s3)`. -/
structure Zkp where
  z : Int
  u1 : Point
  u2 : Int
  u3 : Int
  e : Int
  s1 : Int
  s2 : Int
  s3 : Int
  deriving DecidableEq

/-- The primitives that `zerokproof.go` uses and that are declared outside the
available sources, taken as parameters:

* `S256_P`, `S256_N`, `S256_Gx`, `S256_Gy`: the field prime, the group order and the
  base point of `secp256k1.S256()`;
* `PointMul`, `pointAdd`: scalar multiplication and point addition;
* `Sha256Hash g y w z u1 u2 u3`: the digest
  `Sha256Hash(GetBytes(g), Get2Bytes(y), GetBytes(w), GetBytes(z), Get2Bytes(u1),
  GetBytes(u2), GetBytes(u3))`, a list of bytes. -/
structure Env where
  S256_P : Int
  S256_N : Int
  S256_Gx : Int
  S256_Gy : Int
  PointMul : Int → Point → Point
  pointAdd : Point → Point → Point
  Sha256Hash : Int → Point → Int → Int → Point → Int → Int → List Nat

/-- The base point `(Gx, Gy)` of the curve. -/
def Env.G (E : Env) : Point := (E.S256_Gx, E.S256_Gy)

/-- The challenge as an integer: `new(big.Int).SetBytes(Sha256Hash(...))`. -/
def Env.challenge (E : Env) (g : Int) (y : Point) (w z : Int) (u1 : Point) (u2 u3 : Int) : Int :=
  SetBytes (E.Sha256Hash g y w z u1 u2 u3)

/-! ## `Zkp.Initialization` -/

/-- The method `Zkp.Initialization`. The values drawn by `RandomFromZn` (`alpha`,
`beta`, `rho`, `gamma`) are arguments; the argument `rand` of the source is unused.
The result is the populated receiver, or `none` when the call panics. -/
def Initialization (E : Env) (params : PublicParameters) (eta cx cy w r : Int)
    (alpha0 beta rho gamma : Int) : Option Zkp := do
  let N := params.paillierPubKey.N
  let nSquared := N * N
  let nTilde := params.nTilde
  let h1 := params.h1
  let h2 := params.h2
  let g := N + 1
  -- z = h1^eta * h2^rho mod nTilde
  let mx1 ← ModPowInsecure h1 eta nTilde
  let mx2 ← ModPowInsecure h2 rho nTilde
  let mx12 := mx1 * mx2
  let z ← bigMod mx12 nTilde
  -- `alpha.Add(alpha, P)` updates `alpha` in place
  let alpha := if alpha0 < 0 then alpha0 + E.S256_P else alpha0
  let u1 := E.PointMul alpha (cx, cy)
  -- u2 = g^alpha * beta^N mod N^2
  let my1 ← ModPowInsecure g alpha nSquared
  let my2 ← ModPowInsecure beta N nSquared
  let my12 := my1 * my2
  let u2 ← bigMod my12 nSquared
  -- u3 = h1^alpha * h2^gamma mod nTilde
  let mz1 ← ModPowInsecure h1 alpha nTilde
  let mz2 ← ModPowInsecure h2 gamma nTilde
  let mz12 := mz1 * mz2
  let u3 ← bigMod mz12 nTilde
  let digest := E.Sha256Hash g (cx, cy) w z u1 u2 u3
  if digest.length = 0 then none
  else do
    let e := SetBytes digest
    let ee := e * eta
    let s1 := ee + alpha
    let re ← ModPowInsecure r e N
    let rb := re * beta
    let s2 ← bigMod rb N
    let er := e * rho
    let s3 := er + gamma
    some { z := z, u1 := u1, u2 := u2, u3 := u3, e := e, s1 := s1, s2 := s2, s3 := s3 }

/-! ## The four checks -/

/-- The method `Zkp.checkU1`: the value it sends on `finishedU1`. The modulus of
`Mod` is the group order of the curve, a non-zero constant, so that this `Mod` does
not panic. -/
def checkU1 (E : Env) (zkp : Zkp) (bx by_ rx ry _nTilde : Int) : Bool :=
  let g : Point := (bx, by_)
  let y : Point := (rx, ry)
  let minuse := zkp.e * (-1)
  let minuse := minuse % E.S256_N
  let u1 := E.pointAdd (E.PointMul zkp.s1 g) (E.PointMul minuse y)
  if u1.1 = zkp.u1.1 ∧ u1.2 = zkp.u1.2 then true else false

/-- The method `Zkp.checkU2`: the value it sends on `finishedU2`, `none` when it
panics. -/
def checkU2 (zkp : Zkp) (g nSquared N w : Int) : Option Bool := do
  let x ← ModPowInsecure g zkp.s1 nSquared
  let y ← ModPowInsecure zkp.s2 N nSquared
  let mulxy := x * y
  let c3neg := -zkp.e
  let z ← ModPowInsecure w c3neg nSquared
  let mulxyz := mulxy * z
  let result ← bigMod mulxyz nSquared
  if zkp.u2 = result then some true else some false

/-- The method `Zkp.checkU3`: the value it sends on `finishedU3`, `none` when it
panics. -/
def checkU3 (zkp : Zkp) (h1 nTilde h2 : Int) : Option Bool := do
  let x ← ModPowInsecure h1 zkp.s1 nTilde
  let y ← ModPowInsecure h2 zkp.s3 nTilde
  let mulxy := x * y
  let eneg := -zkp.e
  let z ← ModPowInsecure zkp.z eneg nTilde
  let mulxyz := mulxy * z
  let result ← bigMod mulxyz nTilde
  if zkp.u3 = result then some true else some false

/-- The method `Zkp.checkE`: the value it sends on `finishedE`. -/
def checkE (E : Env) (zkp : Zkp) (bitC : ECPoint) (w g : Int) : Bool :=
  let result := E.Sha256Hash g (bitC.X, bitC.Y) w zkp.z zkp.u1 zkp.u2 zkp.u3
  if zkp.e = SetBytes result then true else false

/-! ## `Zkp.Verify`: four goroutines and a `select` loop -/

/-- The four package-level result channels `finishedU1`, `finishedU2`,
`finishedU3`, `finishedE`. -/
inductive Chan where
  | U1
  | U2
  | U3
  | E
  deriving DecidableEq

/-- The state of one `Verify` call.

* `chans c`: the content of the channel `c` (`make(chan bool, 1)`: at most one
  buffered value);
* `gor c`: the goroutine started by `go zkp.checkX(...)`, as long as it has not
  finished, with the outcome of its computation (`none`: it panics; `some b`: it
  sends `b`);
* `valueCheckPassed`: the local counter;
* `ret`: the value returned by `Verify`, once it has returned;
* `crashed`: a goroutine has panicked, which ends the process. -/
structure VState where
  chans : Chan → Option Bool
  gor : Chan → Option (Option Bool)
  valueCheckPassed : Int
  ret : Option Bool
  crashed : Bool

/-- The atomic steps: `run c` lets the goroutine of channel `c` finish (send its
result, or panic); `recv c` is the `select` loop taking the case `<-finishedC`. -/
inductive Event where
  | run (c : Chan)
  | recv (c : Chan)

/-- One step; `none` when the event is not enabled (the goroutine has finished
already, its send blocks on a full channel, the channel is empty, `Verify` has
returned, or the process has crashed). -/
def step (s : VState) : Event → Option VState
  | Event.run c =>
    if s.crashed then none
    else
      match s.gor c with
      | none => none
      | some none => some { s with gor := Function.update s.gor c none, crashed := true }
      | some (some b) =>
        match s.chans c with
        | some _ => none
        | none =>
          some { s with gor := Function.update s.gor c none,
                        chans := Function.update s.chans c (some b) }
  | Event.recv c =>
    if s.crashed then none
    else
      match s.ret with
      | some _ => none
      | none =>
        match s.chans c with
        | none => none
        | some b =>
          if b = false then
            some { s with chans := Function.update s.chans c none, ret := some false }
          else
            let v := s.valueCheckPassed - 1
            if v = 0 then
              some { s with chans := Function.update s.chans c none, valueCheckPassed := v,
                            ret := some true }
            else
              some { s with chans := Function.update s.chans c none, valueCheckPassed := v }

/-- Run a schedule: `none` as soon as one of its events is not enabled. -/
def exec : VState → List Event → Option VState
  | s, [] => some s
  | s, ev :: rest => (step s ev).bind (fun s1 => exec s1 rest)

/-- The outcomes of the four goroutines that `Verify` starts, computed from the
arguments exactly as the four `go` statements pass them. -/
def Verify.checks (E : Env) (zkp : Zkp) (params : PublicParameters) (rx ry w : Int) :
    Chan → Option Bool :=
  let h1 := params.h1
  let h2 := params.h2
  let N := params.paillierPubKey.N
  let nTilde := params.nTilde
  let nSquared := N * N
  let g := N + 1
  let bitC : ECPoint := { X := E.S256_Gx, Y := E.S256_Gy }
  fun c =>
    match c with
    | Chan.U1 => some (checkU1 E zkp bitC.X bitC.Y rx ry nTilde)
    | Chan.U2 => checkU2 zkp g nSquared N w
    | Chan.U3 => checkU3 zkp h1 nTilde h2
    | Chan.E => some (checkE E zkp bitC w g)

/-- The state of a `Verify` call right after its four `go` statements, the
channels holding `chans`. -/
def Verify.start (E : Env) (zkp : Zkp) (params : PublicParameters) (rx ry w : Int)
    (chans : Chan → Option Bool) : VState :=
  { chans := chans
    gor := fun c => some (Verify.checks E zkp params rx ry w c)
    valueCheckPassed := 4
    ret := none
    crashed := false }

/-- The method `Zkp.Verify` under a schedule of its goroutines and its `select`
loop: the state reached, whose field `ret` is the returned value. -/
def Verify (E : Env) (zkp : Zkp) (params : PublicParameters) (rx ry w : Int)
    (chans : Chan → Option Bool) (sched : List Event) : Option VState :=
  exec (Verify.start E zkp params rx ry w chans) sched

/-- All four channels empty. -/
def emptyChans : Chan → Option Bool := fun _ => none

/-- From `s0` the call returns `b` under every interleaving: every run has at most
eight steps, and every state a run reaches either has returned `b` or has not
returned and can take a further step. -/
def Returns (s0 : VState) (b : Bool) : Prop :=
  ∀ sched s, exec s0 sched = some s →
    sched.length ≤ 8 ∧ (s.ret = some b ∨ (s.ret = none ∧ ∃ ev, (step s ev).isSome = true))

/-- The call `Verify`, made with the result channels empty, returns `b`. -/
def VerifyReturns (E : Env) (zkp : Zkp) (params : PublicParameters) (rx ry w : Int)
    (b : Bool) : Prop :=
  Returns (Verify.start E zkp params rx ry w emptyChans) b

/-! ## The curve: its group semantics, and two instances -/

/-- The standard semantics of the curve primitives of `E`: `enc` embeds an abelian
group `A` into the points; `pointAdd` is its addition, `PointMul` with a
non-negative scalar its scalar multiplication, `E.G` a non-zero element, and
every element is annihilated by the group order `S256_N`. -/
structure CurveGroup (E : Env) (A : Type) [AddCommGroup A] where
  enc : A → Point
  enc_injective : Function.Injective enc
  gen : A
  enc_gen : enc gen = E.G
  gen_ne_zero : gen ≠ 0
  order_pos : 0 < E.S256_N
  order_nsmul : ∀ a : A, E.S256_N.toNat • a = 0
  pointAdd_enc : ∀ a b : A, E.pointAdd (enc a) (enc b) = enc (a + b)
  PointMul_enc : ∀ (k : Int) (a : A), 0 ≤ k → E.PointMul k (enc a) = enc (k.toNat • a)

/-- The point `p` is an element of the curve group. -/
def CurveGroup.Mem {E : Env} {A : Type} [AddCommGroup A] (cg : CurveGroup E A) (p : Point) :
    Prop :=
  ∃ a : A, cg.enc a = p

namespace S256

/-- The field prime of secp256k1. -/
def P : Nat := 0xFFFFFFFFFFFFFFFFFFFFFFFFFFFFFFFFFFFFFFFFFFFFFFFFFFFFFFFEFFFFFC2F

/-- The order of the base point of secp256k1. -/
def N : Nat := 0xFFFFFFFFFFFFFFFFFFFFFFFFFFFFFFFEBAAEDCE6AF48A03BBFD25E8CD0364141

/-- The abscissa of the base point. -/
def Gx : Nat := 0x79BE667EF9DCBBAC55A06295CE870B07029BFCDB2DCE28D959F2815B16F81798

/-- The ordinate of the base point. -/
def Gy : Nat := 0x483ADA7726A3C4655DA4FBFC0E1108A8FD17B448A68554199C47D08FFB10D4B8

/-- Square-and-multiply modulo `P`; the fuel bounds the bit length of `k`. -/
def powMod : Nat → Nat → Nat → Nat
  | 0, _, _ => 1
  | fuel + 1, a, k =>
    if k = 0 then 1
    else
      let h := powMod fuel a (k / 2)
      if k % 2 = 1 then h * h % P * a % P else h * h % P

/-- Inverse modulo the prime `P` (Fermat). -/
def inv (a : Nat) : Nat := powMod 256 a (P - 2)

/-- Subtraction modulo `P`. -/
def sub (a b : Nat) : Nat := (a + (P - b % P)) % P

/-- Doubling in affine coordinates on `y^2 = x^3 + 7`; `(0, 0)` is the point at
infinity. -/
def double (p : Nat × Nat) : Nat × Nat :=
  if p.2 % P = 0 then (0, 0)
  else
    let l := 3 * p.1 * p.1 % P * inv (2 * p.2 % P) % P
    let x := sub (l * l) (2 * p.1)
    (x, sub (l * sub p.1 x) p.2)

/-- Addition in affine coordinates. -/
def addNat (p q : Nat × Nat) : Nat × Nat :=
  if p = (0, 0) then q
  else if q = (0, 0) then p
  else if p.1 % P = q.1 % P then
    (if p.2 % P = q.2 % P then double p else (0, 0))
  else
    let l := sub q.2 p.2 * inv (sub q.1 p.1) % P
    let x := sub (sub (l * l) p.1) q.1
    (x, sub (l * sub p.1 x) p.2)

/-- Double-and-add; the fuel bounds the bit length of `k`. -/
def mulNat : Nat → Nat → Nat × Nat → Nat × Nat
  | 0, _, _ => (0, 0)
  | fuel + 1, k, p =>
    if k = 0 then (0, 0)
    else
      let h := mulNat fuel (k / 2) p
      if k % 2 = 1 then addNat (double h) p else double h

/-- Coordinates reduced modulo `P`. -/
def toNat (p : Point) : Nat × Nat := ((p.1 % (P : Int)).toNat, (p.2 % (P : Int)).toNat)

/-- The coordinates as integers. -/
def ofNat (p : Nat × Nat) : Point := ((p.1 : Int), (p.2 : Int))

/-- Modelled from the spec: `pointAdd`, the point addition of the curve group
(standard semantics), on secp256k1. -/
def add (p q : Point) : Point := ofNat (addNat (toNat p) (toNat q))

/-- Modelled from the spec: `PointMul`, the scalar multiplication of the curve
group (standard semantics), on secp256k1. The scalar enters through its
magnitude. -/
def mul (k : Int) (p : Point) : Point := ofNat (mulNat k.natAbs k.natAbs (toNat p))

/-- The environment of the program: secp256k1 with the digest function `H`. -/
def env (H : Int → Point → Int → Int → Point → Int → Int → List Nat) : Env :=
  { S256_P := (P : Int)
    S256_N := (N : Int)
    S256_Gx := (Gx : Int)
    S256_Gy := (Gy : Int)
    PointMul := mul
    pointAdd := add
    Sha256Hash := H }

end S256

/-- A stand-in digest function with 32-byte digests, to run the model on
concrete inputs: thirty-one zero bytes and one byte mixing the seven inputs. -/
def sampleHash (g : Int) (y : Point) (w z : Int) (u1 : Point) (u2 u3 : Int) : List Nat :=
  List.replicate 31 0 ++
    [(g + 3 * y.1 + 5 * y.2 + 7 * w + 11 * z + 13 * u1.1 + 17 * u1.2 + 19 * u2 + 23 * u3).natAbs
      % 251]

/-- An injective code of the integers. -/
def intCode (i : Int) : Nat := if 0 ≤ i then 2 * i.toNat else 2 * (-i).toNat - 1

/-- Big-endian bytes of a natural number; the fuel bounds their number. -/
def natBytes : Nat → Nat → List Nat
  | 0, _ => []
  | fuel + 1, n => if n = 0 then [] else natBytes fuel (n / 256) ++ [n % 256]

/-- A collision-free digest function (digests of unbounded length): the bytes of
the iterated Cantor pairing of the inputs. -/
def pairHash (g : Int) (y : Point) (w z : Int) (u1 : Point) (u2 u3 : Int) : List Nat :=
  let n := Nat.pair (intCode g) (Nat.pair (intCode y.1) (Nat.pair (intCode y.2)
    (Nat.pair (intCode w) (Nat.pair (intCode z) (Nat.pair (intCode u1.1)
    (Nat.pair (intCode u1.2) (Nat.pair (intCode u2) (intCode u3))))))))
  natBytes (n + 1) (n + 1)

/-- The tuple that `Initialization` computes for well-formed inputs, in closed form
(`Initialization_eq` proves that it is the result): the products are reduced once,
the exponents are natural numbers, `alpha` is used as sampled. -/
def closedForm (E : Env) (params : PublicParameters) (eta cx cy w r : Int)
    (alpha beta rho gamma : Int) : Zkp :=
  let N := params.paillierPubKey.N
  let nTilde := params.nTilde
  let z := (params.h1 ^ eta.toNat * params.h2 ^ rho.toNat) % nTilde
  let u1 := E.PointMul alpha (cx, cy)
  let u2 := ((N + 1) ^ alpha.toNat * beta ^ N.toNat) % (N * N)
  let u3 := (params.h1 ^ alpha.toNat * params.h2 ^ gamma.toNat) % nTilde
  let e := E.challenge (N + 1) (cx, cy) w z u1 u2 u3
  { z := z, u1 := u1, u2 := u2, u3 := u3, e := e
    s1 := e * eta + alpha
    s2 := (r ^ e.toNat * beta) % N
    s3 := e * rho + gamma }

/-- The point that `checkU1` compares with `u1`: `s1 * g + ((-e) mod q) * y`. -/
def recomputeU1 (E : Env) (s1 e : Int) (g y : Point) : Point :=
  E.pointAdd (E.PointMul s1 g) (E.PointMul (e * (-1) % E.S256_N) y)

/-- The value that `checkU2` compares with `u2` (`result` in the source); `none`
when the computation panics. -/
def recomputeU2 (s1 s2 e g nSquared N w : Int) : Option Int := do
  let x ← ModPowInsecure g s1 nSquared
  let y ← ModPowInsecure s2 N nSquared
  let z ← ModPowInsecure w (-e) nSquared
  bigMod (x * y * z) nSquared

/-- The value that `checkU3` compares with `u3` (`result` in the source); `none`
when the computation panics. -/
def recomputeU3 (s1 s3 e z h1 nTilde h2 : Int) : Option Int := do
  let x ← ModPowInsecure h1 s1 nTilde
  let y ← ModPowInsecure h2 s3 nTilde
  let zz ← ModPowInsecure z (-e) nTilde
  bigMod (x * y * zz) nTilde

/-- The hash over the canonical encodings is collision-free: the challenge, as a
function of its seven inputs, is injective. -/
def CollisionFree (E : Env) : Prop :=
  ∀ (g : Int) (y : Point) (w z : Int) (u1 : Point) (u2 u3 : Int)
    (g1 : Int) (y1 : Point) (w1 z1 : Int) (v1 : Point) (v2 v3 : Int),
    E.challenge g y w z u1 u2 u3 = E.challenge g1 y1 w1 z1 v1 v2 v3 →
      g = g1 ∧ y = y1 ∧ w = w1 ∧ z = z1 ∧ u1 = v1 ∧ u2 = v2 ∧ u3 = v3

namespace Sample

/-- Public parameters with `N = 35`, `nTilde = 33`, `h1 = 2`, `h2 = 5`. -/
def params : PublicParameters :=
  { paillierPubKey := { N := 35 }, nTilde := 33, h1 := 2, h2 := 5 }

/-- The Paillier ciphertext of `eta = 2` with randomness `r = 2`:
`(N + 1) ^ 2 * 2 ^ N mod N ^ 2`. -/
def w : Int := ((35 + 1) ^ 2 * 2 ^ 35) % (35 * 35)

/-- The point `2 * G` of secp256k1. -/
def G2 : Point :=
  (0xC6047F9441ED7D6D3045406E95C07CD85C778E4B8CEF3CA7ABAC09B95C709EE5,
   0x1AE168FEA63DC339A3C58419466CEAEEF7F632653266D0E1236431A950CFE52A)

/-- The point `3 * G` of secp256k1. -/
def G3 : Point :=
  (0xF9308A019258C31049344F85F89D5229B531C845836F99B08601F113BCE036F9,
   0x388F7B0F632DE8140FE337E62A37F3566500A99934C2231B6CB9FD7584B8E672)

/-- The proof that `Initialization` builds on secp256k1 with the digest function
`sampleHash` for `eta = 2`, `r = 2`, the base point `(cx, cy) = G`, the ciphertext
`w` and the sampled values `alpha = 3`, `beta = 4`, `rho = 5`, `gamma = 6`. -/
def zkp : Zkp :=
  { z := 26, u1 := G3, u2 := 44, u3 := 29, e := 166, s1 := 335, s2 := 1, s3 := 836 }

/-- The proof that `Initialization` builds in the environment `Toy.env sampleHash`
for `eta = 2`, `r = 2`, the base point `(1, 0)`, the ciphertext `w` and the sampled
values `alpha = 3`, `beta = 4`, `rho = 5`, `gamma = 6`. -/
def toyZkp : Zkp :=
  { z := 26, u1 := (3, 0), u2 := 44, u3 := 29, e := 230, s1 := 463, s2 := 16, s3 := 1156 }

end Sample

/-- A tuple on secp256k1 whose `e` is the challenge computed with the collision-free
digest function `pairHash`. -/
def Sample.pairZkp : Zkp :=
  { z := 26, u1 := Sample.G3, u2 := 44, u3 := 29
    e := (S256.env pairHash).challenge (Sample.params.paillierPubKey.N + 1)
      (S256.env pairHash).G Sample.w 26 Sample.G3 44 29
    s1 := 335, s2 := 1, s3 := 836 }

namespace Toy

/-- Addition of the seven-element cyclic group on the points `(k, 0)`. -/
def add (p q : Point) : Point := ((p.1 + q.1) % 7, 0)

/-- Scalar multiplication of the seven-element cyclic group on the points `(k, 0)`. -/
def mul (k : Int) (p : Point) : Point := (k * p.1 % 7, 0)

/-- An environment whose curve is replaced by the cyclic group of order seven with
generator `(1, 0)`: the smallest instance of the group semantics `CurveGroup`. -/
def env (H : Int → Point → Int → Int → Point → Int → Int → List Nat) : Env :=
  { S256_P := 7
    S256_N := 7
    S256_Gx := 1
    S256_Gy := 0
    PointMul := mul
    pointAdd := add
    Sha256Hash := H }

/-- The group semantics of `Toy.env`. -/
def group (H : Int → Point → Int → Int → Point → Int → Int → List Nat) :
    CurveGroup (env H) (ZMod 7) where
  enc := fun a => ((a.val : Int), 0)
  enc_injective := by
    intro a b h
    have h1 : ((a.val : Int)) = (b.val : Int) := congrArg Prod.fst h
    exact ZMod.val_injective 7 (by exact_mod_cast h1)
  gen := 1
  enc_gen := rfl
  gen_ne_zero := by decide
  order_pos := by show (0 : Int) < 7; decide
  order_nsmul := by
    intro a
    have : (env H).S256_N.toNat = 7 := rfl
    rw [this]
    revert a; decide
  pointAdd_enc := by
    intro a b
    show (((a.val : Int) + (b.val : Int)) % 7, (0 : Int)) = (((a + b).val : Int), 0)
    rw [ZMod.val_add]; push_cast; rfl
  PointMul_enc := by
    intro k a hk
    show (k * (a.val : Int) % 7, (0 : Int)) = (((k.toNat • a).val : Int), 0)
    rw [nsmul_eq_mul, ZMod.val_mul, ZMod.val_natCast]
    push_cast
    rw [Int.toNat_of_nonneg hk, Int.mul_emod (k % 7), Int.emod_emod_of_dvd _ (dvd_refl _),
      ← Int.mul_emod]

end Toy

/-! ## Invariant of the `select` loop -/

/-- The goroutine of `i` has finished and its value has been received. -/
def taken (s : VState) (i : Chan) : Prop := s.gor i = none ∧ s.chans i = none

instance (s : VState) (i : Chan) : Decidable (taken s i) := by
  unfold taken; infer_instance

/-- Number of received results. -/
def cnt (s : VState) : Int :=
  (if taken s Chan.U1 then 1 else 0) + (if taken s Chan.U2 then 1 else 0)
    + (if taken s Chan.U3 then 1 else 0) + (if taken s Chan.E then 1 else 0)

/-- Work left: two units per unfinished goroutine, one per buffered value. -/
def work (s : VState) : Nat :=
  let f : Chan → Nat := fun i =>
    (if s.gor i = none then 0 else 2) + (if s.chans i = none then 0 else 1)
  f Chan.U1 + f Chan.U2 + f Chan.U3 + f Chan.E

/-- The invariant of a call whose four checks report the values `c`. -/
def Inv (c : Chan → Bool) (s : VState) : Prop :=
  s.crashed = false ∧
  (∀ i, (s.gor i = some (some (c i)) ∧ s.chans i = none) ∨
        (s.gor i = none ∧ (s.chans i = some (c i) ∨ s.chans i = none))) ∧
  (s.ret = none → s.valueCheckPassed ≠ 0 ∧ s.valueCheckPassed + cnt s = 4 ∧
      ∀ i, taken s i → c i = true) ∧
  (s.ret = some true → ∀ i, c i = true) ∧
  (s.ret = some false → ∃ i, c i = false)

/-- The proof that `Initialization` builds on secp256k1 with `sampleHash` for the
inputs of `Sample.zkp`, the ciphertext being `Sample.w + 35 * 35`, a representative
outside `[0, N ^ 2)`. -/
def Sample.zkpShifted : Zkp :=
  { z := 26, u1 := Sample.G3, u2 := 44, u3 := 29, e := 207, s1 := 417, s2 := 32, s3 := 1041 }

/-! ## Concurrent calls of `Verify` on the shared channels -/

/-- One `Verify` call among several: the outcomes `checks` of its four checks
(determined by its arguments), whether it has executed its four `go` statements
(`started`), and its part of the state of `VState`. -/
structure Call where
  checks : Chan → Option Bool
  started : Bool
  gor : Chan → Option (Option Bool)
  valueCheckPassed : Int
  ret : Option Bool

/-- The state of several `Verify` calls: they share the package-level channels. -/
structure MState where
  chans : Chan → Option Bool
  calls : List Call
  crashed : Bool

/-- The atomic steps of several calls: `call k` lets call `k` set
`valueCheckPassed := 4` and start its four goroutines; `act k ev` is the step `ev`
of call `k` (one of its goroutines finishing, or its `select` loop receiving). -/
inductive MEvent where
  | call (k : Nat)
  | act (k : Nat) (ev : Event)

/-- The call after its four `go` statements. -/
def Call.begin (c : Call) : Call :=
  { c with started := true, gor := fun i => some (c.checks i), valueCheckPassed := 4 }

/-- The call after one of its steps has led to the single-call state `s`. -/
def Call.after (c : Call) (s : VState) : Call :=
  { c with gor := s.gor, valueCheckPassed := s.valueCheckPassed, ret := s.ret }

/-- One step of several calls; `act k ev` is the step `ev` of `step` taken by call
`k` on the shared channels. -/
def mstep (st : MState) : MEvent → Option MState
  | MEvent.call k =>
    match st.calls[k]? with
    | none => none
    | some c =>
      if st.crashed || c.started then none
      else
        some { st with calls := st.calls.set k c.begin }
  | MEvent.act k ev =>
    match st.calls[k]? with
    | none => none
    | some c =>
      if c.started then
        match step ⟨st.chans, c.gor, c.valueCheckPassed, c.ret, st.crashed⟩ ev with
        | none => none
        | some s =>
          some { chans := s.chans, calls := st.calls.set k (c.after s), crashed := s.crashed }
      else none

/-- Run a schedule of several calls. -/
def mexec : MState → List MEvent → Option MState
  | s, [] => some s
  | s, ev :: rest => (mstep s ev).bind (fun s1 => mexec s1 rest)

/-- The arguments of one `Verify` call. -/
structure VerifyArgs where
  zkp : Zkp
  params : PublicParameters
  rx : Int
  ry : Int
  w : Int

/-- The calls `Verify(args)` issued concurrently, none of them started yet, the
channels empty. -/
def concurrentStart (E : Env) (args : List VerifyArgs) : MState :=
  { chans := emptyChans
    calls := args.map (fun a =>
      { checks := Verify.checks E a.zkp a.params a.rx a.ry a.w
        started := false
        gor := fun _ => none
        valueCheckPassed := 0
        ret := none })
    crashed := false }

/-- From `s0` every call returns `b` under every interleaving: every run has at
most nine steps per call, no call ever returns another value, and every state a
run reaches either has all calls returned or can take a further step. -/
def AllReturn (s0 : MState) (b : Bool) : Prop :=
  ∀ sched s, mexec s0 sched = some s →
    sched.length ≤ 9 * s0.calls.length ∧
    (∀ c ∈ s.calls, c.ret = none ∨ c.ret = some b) ∧
    ((∀ c ∈ s.calls, c.ret = some b) ∨ ∃ ev, (mstep s ev).isSome = true)

/-- Number of goroutines of a call that have not finished. -/
def pend (c : Call) : Nat :=
  (if c.gor Chan.U1 = none then 0 else 1) + (if c.gor Chan.U2 = none then 0 else 1)
    + (if c.gor Chan.U3 = none then 0 else 1) + (if c.gor Chan.E = none then 0 else 1)

/-- Number of buffered values. -/
def buffered (ch : Chan → Option Bool) : Nat :=
  (if ch Chan.U1 = none then 0 else 1) + (if ch Chan.U2 = none then 0 else 1)
    + (if ch Chan.U3 = none then 0 else 1) + (if ch Chan.E = none then 0 else 1)

/-- Number of values a started call still has to receive. -/
def demand (c : Call) : Nat := if c.started then c.valueCheckPassed.toNat else 0

/-- Work left in a call: nine units before it starts, two per unfinished goroutine. -/
def weight (c : Call) : Nat := if c.started then 2 * pend c else 9

/-- The invariant of a call all of whose checks succeed. -/
def CallInv (c : Call) : Prop :=
  (∀ i, c.checks i = some true) ∧
  (∀ i, c.gor i = none ∨ c.gor i = some (some true)) ∧
  (c.started = false → (∀ i, c.gor i = none) ∧ c.ret = none) ∧
  (c.started = true →
    (c.ret = none ∧ 0 < c.valueCheckPassed) ∨ (c.ret = some true ∧ c.valueCheckPassed = 0))

/-- The invariant of concurrent calls all of whose checks succeed: only `true` is
buffered, and the values buffered or still to be sent are as many as the values
still to be received. -/
def MInv (s : MState) : Prop :=
  s.crashed = false ∧
  (∀ i, s.chans i = none ∨ s.chans i = some true) ∧
  (∀ c ∈ s.calls, CallInv c) ∧
  buffered s.chans + (s.calls.map pend).sum = (s.calls.map demand).sum

/-! ## The prover record of `prover.go` -/

/-- The type `MultiTrapdoorCommitment`, declared outside the available sources: a value
is represented by a code. -/
abbrev MultiTrapdoorCommitment := Nat

/-- The type `Open` (the opening of a commitment), declared outside the available
sources: a value is represented by a code. -/
abbrev Open := Nat

/-- The type `Commitment`, declared outside the available sources: a value is
represented by a code. -/
abbrev Commitment := Nat

/-- The type `Zkpi1`, declared outside the available sources: a value is represented by
a code. -/
abbrev Zkpi1 := Nat

/-- The type `Zkpi2`, declared outside the available sources: a value is represented by
a code. -/
abbrev Zkpi2 := Nat

/-- The type `ProverInfo`. Every field is a pointer: `none` is `nil`. -/
structure ProverInfo where
  xShare : Option Int
  xShareRnd : Option Int
  encXShare : Option Int
  yShare_x : Option Int
  yShare_y : Option Int
  mpkEncXiYi : Option MultiTrapdoorCommitment
  openEncXiYi : Option Open
  cmtEncXiYi : Option Commitment
  zkpKG : Option Zkp
  encX : Option Int
  pk_x : Option Int
  pk_y : Option Int
  rhoI : Option Int
  rhoIRnd : Option Int
  uI : Option Int
  vI : Option Int
  mpkUiVi : Option MultiTrapdoorCommitment
  openUiVi : Option Open
  cmtUiVi : Option Commitment
  zkp1 : Option Zkpi1
  kI : Option Int
  cI : Option Int
  cIRnd : Option Int
  rI_x : Option Int
  rI_y : Option Int
  mask : Option Int
  wI : Option Int
  mpkRiWi : Option MultiTrapdoorCommitment
  openRiWi : Option Open
  cmtRiWi : Option Commitment
  zkp_i2 : Option Zkpi2
  deriving DecidableEq

/-- The empty record `ProverInfo{}`: every field is `nil`. -/
def ProverInfo.empty : ProverInfo :=
  { xShare := none, xShareRnd := none, encXShare := none, yShare_x := none,
    yShare_y := none, mpkEncXiYi := none, openEncXiYi := none, cmtEncXiYi := none,
    zkpKG := none, encX := none, pk_x := none, pk_y := none,
    rhoI := none, rhoIRnd := none, uI := none, vI := none,
    mpkUiVi := none, openUiVi := none, cmtUiVi := none, zkp1 := none,
    kI := none, cI := none, cIRnd := none, rI_x := none,
    rI_y := none, mask := none, wI := none, mpkRiWi := none,
    openRiWi := none, cmtRiWi := none, zkp_i2 := none }

/-- `setxShare`: assigns the field `xShare`. -/
def ProverInfo.setxShare (pi : ProverInfo) (xShare : Option Int) : ProverInfo :=
  { pi with xShare := xShare }

/-- `setxShareRnd`: assigns the field `xShareRnd`. -/
def ProverInfo.setxShareRnd (pi : ProverInfo) (xShareRnd : Option Int) : ProverInfo :=
  { pi with xShareRnd := xShareRnd }

/-- `setEncXShare`: assigns the field `encXShare`. -/
def ProverInfo.setEncXShare (pi : ProverInfo) (encXShare : Option Int) : ProverInfo :=
  { pi with encXShare := encXShare }

/-- `setyShare_x`: assigns the field `yShare_x`. -/
def ProverInfo.setyShare_x (pi : ProverInfo) (yShare_x : Option Int) : ProverInfo :=
  { pi with yShare_x := yShare_x }

/-- `setyShare_y`: assigns the field `yShare_y`. -/
def ProverInfo.setyShare_y (pi : ProverInfo) (yShare_y : Option Int) : ProverInfo :=
  { pi with yShare_y := yShare_y }

/-- `setMpkEncXiYi`: assigns the field `mpkEncXiYi`. -/
def ProverInfo.setMpkEncXiYi (pi : ProverInfo) (mpkEncXiYi : Option MultiTrapdoorCommitment) : ProverInfo :=
  { pi with mpkEncXiYi := mpkEncXiYi }

/-- `setOpenEncXiYi`: assigns the field `openEncXiYi`. -/
def ProverInfo.setOpenEncXiYi (pi : ProverInfo) (openEncXiYi : Option Open) : ProverInfo :=
  { pi with openEncXiYi := openEncXiYi }

/-- `setCmtEncXiYi`: assigns the field `cmtEncXiYi`. -/
def ProverInfo.setCmtEncXiYi (pi : ProverInfo) (cmtEncXiYi : Option Commitment) : ProverInfo :=
  { pi with cmtEncXiYi := cmtEncXiYi }

/-- `setZkpKG`: assigns the field `zkpKG`. -/
def ProverInfo.setZkpKG (pi : ProverInfo) (zkpKG : Option Zkp) : ProverInfo :=
  { pi with zkpKG := zkpKG }

/-- `setEncX`: assigns the field `encX`. -/
def ProverInfo.setEncX (pi : ProverInfo) (encX : Option Int) : ProverInfo :=
  { pi with encX := encX }

/-- `setPk_x`: assigns the field `pk_x`. -/
def ProverInfo.setPk_x (pi : ProverInfo) (pk_x : Option Int) : ProverInfo :=
  { pi with pk_x := pk_x }

/-- `setPk_y`: assigns the field `pk_y`. -/
def ProverInfo.setPk_y (pi : ProverInfo) (pk_y : Option Int) : ProverInfo :=
  { pi with pk_y := pk_y }

/-- `setRhoI`: assigns the field `rhoI`. -/
def ProverInfo.setRhoI (pi : ProverInfo) (rhoI : Option Int) : ProverInfo :=
  { pi with rhoI := rhoI }

/-- `setRhoIRnd`: assigns the field `rhoIRnd`. -/
def ProverInfo.setRhoIRnd (pi : ProverInfo) (rhoIRnd : Option Int) : ProverInfo :=
  { pi with rhoIRnd := rhoIRnd }

/-- `setuI`: assigns the field `uI`. -/
def ProverInfo.setuI (pi : ProverInfo) (uI : Option Int) : ProverInfo :=
  { pi with uI := uI }

/-- `setvI`: assigns the field `vI`. -/
def ProverInfo.setvI (pi : ProverInfo) (vI : Option Int) : ProverInfo :=
  { pi with vI := vI }

/-- `setMpkUiVi`: assigns the field `mpkUiVi`. -/
def ProverInfo.setMpkUiVi (pi : ProverInfo) (mpkUiVi : Option MultiTrapdoorCommitment) : ProverInfo :=
  { pi with mpkUiVi := mpkUiVi }

/-- `setOpenUiVi`: assigns the field `openUiVi`. -/
def ProverInfo.setOpenUiVi (pi : ProverInfo) (openUiVi : Option Open) : ProverInfo :=
  { pi with openUiVi := openUiVi }

/-- `setCmtUiVi`: assigns the field `cmtUiVi`. -/
def ProverInfo.setCmtUiVi (pi : ProverInfo) (cmtUiVi : Option Commitment) : ProverInfo :=
  { pi with cmtUiVi := cmtUiVi }

/-- `setZkp1`: assigns the field `zkp1`. -/
def ProverInfo.setZkp1 (pi : ProverInfo) (zkp1 : Option Zkpi1) : ProverInfo :=
  { pi with zkp1 := zkp1 }

/-- `setkI`: assigns the field `kI`. -/
def ProverInfo.setkI (pi : ProverInfo) (kI : Option Int) : ProverInfo :=
  { pi with kI := kI }

/-- `setcI`: assigns the field `cI`. -/
def ProverInfo.setcI (pi : ProverInfo) (cI : Option Int) : ProverInfo :=
  { pi with cI := cI }

/-- `setcIRnd`: assigns the field `cIRnd`. -/
def ProverInfo.setcIRnd (pi : ProverInfo) (cIRnd : Option Int) : ProverInfo :=
  { pi with cIRnd := cIRnd }

/-- `setrI_x`: assigns the field `rI_x`. -/
def ProverInfo.setrI_x (pi : ProverInfo) (rI_x : Option Int) : ProverInfo :=
  { pi with rI_x := rI_x }

/-- `setrI_y`: assigns the field `rI_y`. -/
def ProverInfo.setrI_y (pi : ProverInfo) (rI_y : Option Int) : ProverInfo :=
  { pi with rI_y := rI_y }

/-- `setMask`: assigns the field `mask`. -/
def ProverInfo.setMask (pi : ProverInfo) (mask : Option Int) : ProverInfo :=
  { pi with mask := mask }

/-- `setwI`: assigns the field `wI`. -/
def ProverInfo.setwI (pi : ProverInfo) (wI : Option Int) : ProverInfo :=
  { pi with wI := wI }

/-- `setMpkRiWi`: assigns the field `mpkRiWi`. -/
def ProverInfo.setMpkRiWi (pi : ProverInfo) (mpkRiWi : Option MultiTrapdoorCommitment) : ProverInfo :=
  { pi with mpkRiWi := mpkRiWi }

/-- `setOpenRiWi`: assigns the field `openRiWi`. -/
def ProverInfo.setOpenRiWi (pi : ProverInfo) (openRiWi : Option Open) : ProverInfo :=
  { pi with openRiWi := openRiWi }

/-- `setCmtRiWi`: assigns the field `cmtRiWi`. -/
def ProverInfo.setCmtRiWi (pi : ProverInfo) (cmtRiWi : Option Commitment) : ProverInfo :=
  { pi with cmtRiWi := cmtRiWi }

/-- `setZkp_i2`: assigns the field `zkp_i2`. -/
def ProverInfo.setZkp_i2 (pi : ProverInfo) (zkp_i2 : Option Zkpi2) : ProverInfo :=
  { pi with zkp_i2 := zkp_i2 }

/-- A call of one of the setters of `ProverInfo`, with its argument. -/
inductive SetterCall where
  | setxShare (v : Option Int)
  | setxShareRnd (v : Option Int)
  | setEncXShare (v : Option Int)
  | setyShare_x (v : Option Int)
  | setyShare_y (v : Option Int)
  | setMpkEncXiYi (v : Option MultiTrapdoorCommitment)
  | setOpenEncXiYi (v : Option Open)
  | setCmtEncXiYi (v : Option Commitment)
  | setZkpKG (v : Option Zkp)
  | setEncX (v : Option Int)
  | setPk_x (v : Option Int)
  | setPk_y (v : Option Int)
  | setRhoI (v : Option Int)
  | setRhoIRnd (v : Option Int)
  | setuI (v : Option Int)
  | setvI (v : Option Int)
  | setMpkUiVi (v : Option MultiTrapdoorCommitment)
  | setOpenUiVi (v : Option Open)
  | setCmtUiVi (v : Option Commitment)
  | setZkp1 (v : Option Zkpi1)
  | setkI (v : Option Int)
  | setcI (v : Option Int)
  | setcIRnd (v : Option Int)
  | setrI_x (v : Option Int)
  | setrI_y (v : Option Int)
  | setMask (v : Option Int)
  | setwI (v : Option Int)
  | setMpkRiWi (v : Option MultiTrapdoorCommitment)
  | setOpenRiWi (v : Option Open)
  | setCmtRiWi (v : Option Commitment)
  | setZkp_i2 (v : Option Zkpi2)
  deriving DecidableEq

/-- The record after one setter call. -/
def ProverInfo.call (pi : ProverInfo) : SetterCall → ProverInfo
  | SetterCall.setxShare v => pi.setxShare v
  | SetterCall.setxShareRnd v => pi.setxShareRnd v
  | SetterCall.setEncXShare v => pi.setEncXShare v
  | SetterCall.setyShare_x v => pi.setyShare_x v
  | SetterCall.setyShare_y v => pi.setyShare_y v
  | SetterCall.setMpkEncXiYi v => pi.setMpkEncXiYi v
  | SetterCall.setOpenEncXiYi v => pi.setOpenEncXiYi v
  | SetterCall.setCmtEncXiYi v => pi.setCmtEncXiYi v
  | SetterCall.setZkpKG v => pi.setZkpKG v
  | SetterCall.setEncX v => pi.setEncX v
  | SetterCall.setPk_x v => pi.setPk_x v
  | SetterCall.setPk_y v => pi.setPk_y v
  | SetterCall.setRhoI v => pi.setRhoI v
  | SetterCall.setRhoIRnd v => pi.setRhoIRnd v
  | SetterCall.setuI v => pi.setuI v
  | SetterCall.setvI v => pi.setvI v
  | SetterCall.setMpkUiVi v => pi.setMpkUiVi v
  | SetterCall.setOpenUiVi v => pi.setOpenUiVi v
  | SetterCall.setCmtUiVi v => pi.setCmtUiVi v
  | SetterCall.setZkp1 v => pi.setZkp1 v
  | SetterCall.setkI v => pi.setkI v
  | SetterCall.setcI v => pi.setcI v
  | SetterCall.setcIRnd v => pi.setcIRnd v
  | SetterCall.setrI_x v => pi.setrI_x v
  | SetterCall.setrI_y v => pi.setrI_y v
  | SetterCall.setMask v => pi.setMask v
  | SetterCall.setwI v => pi.setwI v
  | SetterCall.setMpkRiWi v => pi.setMpkRiWi v
  | SetterCall.setOpenRiWi v => pi.setOpenRiWi v
  | SetterCall.setCmtRiWi v => pi.setCmtRiWi v
  | SetterCall.setZkp_i2 v => pi.setZkp_i2 v

/-- The record after a sequence of setter calls, made in the order of the list. -/
def ProverInfo.calls (pi : ProverInfo) (cs : List SetterCall) : ProverInfo :=
  cs.foldl ProverInfo.call pi

/-- Commit-then-reveal as a property of one record: in each of the three phases, a set
opening comes with a set commitment. -/
def CommitThenReveal (pi : ProverInfo) : Prop :=
  (pi.openEncXiYi.isSome = true → pi.cmtEncXiYi.isSome = true) ∧
  (pi.openUiVi.isSome = true → pi.cmtUiVi.isSome = true) ∧
  (pi.openRiWi.isSome = true → pi.cmtRiWi.isSome = true)

instance (pi : ProverInfo) : Decidable (CommitThenReveal pi) := by
  unfold CommitThenReveal
  infer_instance

/-- A setter call that respects the order on the record `pi`: an opening is set to a
value only when the commitment of its phase is set, and a commitment is reset to `nil`
only when the opening of its phase is not set. Every other call respects the order. -/
def SetterCall.Ordered (pi : ProverInfo) : SetterCall → Prop
  | SetterCall.setOpenEncXiYi v => v.isSome = true → pi.cmtEncXiYi.isSome = true
  | SetterCall.setOpenUiVi v => v.isSome = true → pi.cmtUiVi.isSome = true
  | SetterCall.setOpenRiWi v => v.isSome = true → pi.cmtRiWi.isSome = true
  | SetterCall.setCmtEncXiYi v => pi.openEncXiYi.isSome = true → v.isSome = true
  | SetterCall.setCmtUiVi v => pi.openUiVi.isSome = true → v.isSome = true
  | SetterCall.setCmtRiWi v => pi.openRiWi.isSome = true → v.isSome = true
  | _ => True

/-- A sequence of setter calls, started on `pi`, each of which respects the order on the
record it is made on. -/
def OrderedCalls : ProverInfo → List SetterCall → Prop
  | _, [] => True
  | pi, c :: cs => c.Ordered pi ∧ OrderedCalls (pi.call c) cs

end kgcenter

/-! # Contract events: shallow embedding of `blockchain/events.go`

A `common.Hash` and a `common.Address` are fixed-length byte arrays, represented by
their big-endian value; for two arrays of the same length `bytes.Compare(a, b) < 0` is
`a < b` on these values. A `*big.Int` is an `Option Int` (`none` is `nil`). A `uint64`
is a natural number, an `int64` an integer; the conversions wrap. An index out of range
is a panic, modelled as `none`. -/

namespace blockchain

/-- The type `common.Hash`. -/
abbrev Hash := Nat

/-- The type `common.Address`. -/
abbrev Address := Nat

/-- The conversion of an integer to `int64` (two's complement wrap-around). -/
def wrapInt64 (x : Int) : Int :=
  (x + 2 ^ 63) % 2 ^ 64 - 2 ^ 63

/-- The conversion `int64(n)` of a `uint64`. -/
def toInt64 (n : Nat) : Int :=
  wrapInt64 (n : Int)

/-- The fields of `types.Log` that `events.go` reads, and the payload `Data` read by the
decoders. -/
structure Log where
  Topics : List Hash
  Data : List Nat
  BlockNumber : Nat
  TxHash : Hash
  deriving DecidableEq

/-- The ten event names `nameChannelOpenedAndDeposit`, ..., `nameSecretRevealed`. The
string constants are declared outside the available sources; as the cases of one
`switch` they are pairwise different. -/
inductive EventName where
  | nameChannelOpenedAndDeposit
  | nameChannelNewDeposit
  | nameChannelClosed
  | nameChannelUnlocked
  | nameBalanceProofUpdated
  | nameChannelPunished
  | nameChannelSettled
  | nameChannelCooperativeSettled
  | nameChannelWithdraw
  | nameSecretRevealed
  deriving DecidableEq

/-- The event `contracts.TokenNetworkChannelOpenedAndDeposit`. -/
structure TokenNetworkChannelOpenedAndDeposit where
  Token : Address
  Participant : Address
  Partner : Address
  SettleTimeout : Nat
  Participant1Deposit : Option Int
  Raw : Log
  deriving DecidableEq

/-- The event `contracts.TokenNetworkChannelNewDeposit`. -/
structure TokenNetworkChannelNewDeposit where
  ChannelIdentifier : Hash
  Participant : Address
  TotalDeposit : Option Int
  Raw : Log
  deriving DecidableEq

/-- The event `contracts.TokenNetworkChannelClosed`. -/
structure TokenNetworkChannelClosed where
  ChannelIdentifier : Hash
  ClosingParticipant : Address
  Locksroot : Hash
  TransferredAmount : Option Int
  Raw : Log
  deriving DecidableEq

/-- The event `contracts.TokenNetworkChannelUnlocked`. -/
structure TokenNetworkChannelUnlocked where
  ChannelIdentifier : Hash
  PayerParticipant : Address
  Lockhash : Hash
  TransferredAmount : Option Int
  Raw : Log
  deriving DecidableEq

/-- The event `contracts.TokenNetworkBalanceProofUpdated`. -/
structure TokenNetworkBalanceProofUpdated where
  ChannelIdentifier : Hash
  Participant : Address
  Locksroot : Hash
  TransferredAmount : Option Int
  Raw : Log
  deriving DecidableEq

/-- The event `contracts.TokenNetworkChannelPunished`. -/
structure TokenNetworkChannelPunished where
  ChannelIdentifier : Hash
  Beneficiary : Address
  Raw : Log
  deriving DecidableEq

/-- The event `contracts.TokenNetworkChannelSettled`. -/
structure TokenNetworkChannelSettled where
  ChannelIdentifier : Hash
  Participant1Amount : Option Int
  Participant2Amount : Option Int
  Raw : Log
  deriving DecidableEq

/-- The event `contracts.TokenNetworkChannelCooperativeSettled`. -/
structure TokenNetworkChannelCooperativeSettled where
  ChannelIdentifier : Hash
  Participant1Amount : Option Int
  Participant2Amount : Option Int
  Raw : Log
  deriving DecidableEq

/-- The event `contracts.TokenNetworkChannelWithdraw`. -/
structure TokenNetworkChannelWithdraw where
  ChannelIdentifier : Hash
  Participant1 : Address
  Participant1Balance : Option Int
  Participant2 : Address
  Participant2Balance : Option Int
  Raw : Log
  deriving DecidableEq

/-- The event `contracts.SecretRegistrySecretRevealed`. -/
structure SecretRegistrySecretRevealed where
  Secret : Hash
  Raw : Log
  deriving DecidableEq

/-- The type `contracts.ChannelUniqueID`. -/
structure ChannelUniqueID where
  ChannelIdentifier : Hash
  OpenBlockNumber : Int
  deriving DecidableEq

/-- The state change `mediatedtransfer.ContractNewChannelStateChange`. -/
structure ContractNewChannelStateChange where
  ChannelIdentifier : ChannelUniqueID
  TokenAddress : Address
  Participant1 : Address
  Participant2 : Address
  SettleTimeout : Int
  BlockNumber : Int
  deriving DecidableEq

/-- The state change `mediatedtransfer.ContractBalanceStateChange`. -/
structure ContractBalanceStateChange where
  ChannelIdentifier : Hash
  ParticipantAddress : Address
  Balance : Option Int
  BlockNumber : Int
  deriving DecidableEq

/-- The state change `mediatedtransfer.ContractClosedStateChange`. -/
structure ContractClosedStateChange where
  ChannelIdentifier : Hash
  ClosingAddress : Address
  LocksRoot : Hash
  TransferredAmount : Option Int
  ClosedBlock : Int
  deriving DecidableEq

/-- The state change `mediatedtransfer.ContractUnlockStateChange`. -/
structure ContractUnlockStateChange where
  ChannelIdentifier : Hash
  Participant : Address
  LockHash : Hash
  TransferAmount : Option Int
  BlockNumber : Int
  deriving DecidableEq

/-- The state change `mediatedtransfer.ContractBalanceProofUpdatedStateChange`. -/
structure ContractBalanceProofUpdatedStateChange where
  ChannelIdentifier : Hash
  Participant : Address
  LocksRoot : Hash
  TransferAmount : Option Int
  BlockNumber : Int
  deriving DecidableEq

/-- The state change `mediatedtransfer.ContractPunishedStateChange`. -/
structure ContractPunishedStateChange where
  ChannelIdentifier : Hash
  Beneficiary : Address
  BlockNumber : Int
  deriving DecidableEq

/-- The state change `mediatedtransfer.ContractSettledStateChange`. -/
structure ContractSettledStateChange where
  ChannelIdentifier : Hash
  Participant1Amount : Option Int
  Participant2Amount : Option Int
  SettledBlock : Int
  deriving DecidableEq

/-- The state change `mediatedtransfer.ContractCooperativeSettledStateChange`. -/
structure ContractCooperativeSettledStateChange where
  ChannelIdentifier : Hash
  Participant1Amount : Option Int
  Participant2Amount : Option Int
  SettledBlock : Int
  deriving DecidableEq

/-- The state change `mediatedtransfer.ContractChannelWithdrawStateChange`. -/
structure ContractChannelWithdrawStateChange where
  ChannelIdentifier : ChannelUniqueID
  Participant1 : Address
  Participant1Balance : Option Int
  Participant2 : Address
  Participant2Balance : Option Int
  BlockNumber : Int
  deriving DecidableEq

/-- The state change `mediatedtransfer.ContractSecretRevealOnChainStateChange`. -/
structure ContractSecretRevealOnChainStateChange where
  Secret : Hash
  LockSecretHash : Hash
  BlockNumber : Int
  deriving DecidableEq

/-- The interface `mediatedtransfer.ContractStateChange`, as the sum of the state
changes that `parseLogsToEvents` produces. -/
inductive ContractStateChange where
  | newChannel (c : ContractNewChannelStateChange)
  | balance (c : ContractBalanceStateChange)
  | closed (c : ContractClosedStateChange)
  | unlock (c : ContractUnlockStateChange)
  | balanceProofUpdated (c : ContractBalanceProofUpdatedStateChange)
  | punished (c : ContractPunishedStateChange)
  | settled (c : ContractSettledStateChange)
  | cooperativeSettled (c : ContractCooperativeSettledStateChange)
  | channelWithdraw (c : ContractChannelWithdrawStateChange)
  | secretRevealOnChain (c : ContractSecretRevealOnChainStateChange)
  deriving DecidableEq

/-- What `events.go` uses and the available sources do not declare, taken as
parameters: the table `topicToEventName` (filled by `init` from the contract ABIs; a
topic that is not in the table has no event name), the log decoders `newEvent...`
(each returns an event or an error), and the hash functions `utils.Sha3` (of three
byte strings) and `utils.ShaSecret`. -/
structure Env where
  topicToEventName : Hash → Option EventName
  newEventChannelOpenAndDeposit : Log → Except String TokenNetworkChannelOpenedAndDeposit
  newEventChannelNewDeposit : Log → Except String TokenNetworkChannelNewDeposit
  newEventChannelClosed : Log → Except String TokenNetworkChannelClosed
  newEventChannelUnlocked : Log → Except String TokenNetworkChannelUnlocked
  newEventBalanceProofUpdated : Log → Except String TokenNetworkBalanceProofUpdated
  newEventChannelPunished : Log → Except String TokenNetworkChannelPunished
  newEventChannelSettled : Log → Except String TokenNetworkChannelSettled
  newEventChannelCooperativeSettled :
    Log → Except String TokenNetworkChannelCooperativeSettled
  newEventChannelWithdraw : Log → Except String TokenNetworkChannelWithdraw
  newEventSecretRevealed : Log → Except String SecretRegistrySecretRevealed
  Sha3 : Address → Address → Address → Hash
  ShaSecret : Hash → Hash

/-- The fields of the type `config` that `parseLogsToEvents` reads. -/
structure config where
  EnableForkConfirm : Bool
  ForkConfirmNumber : Int

/-- The fields of the type `Events` that `parseLogsToEvents` reads and writes. The map
`txDone` is a function: `none` is an absent key. -/
structure Events where
  Config : config
  lastBlockNumber : Int
  txDone : Hash → Option Nat

/-- The function `needConfirm`; the argument is `none` for a string that is none of the
ten event names. -/
def needConfirm (eventName : Option EventName) : Bool :=
  if eventName = some EventName.nameChannelOpenedAndDeposit ∨
      eventName = some EventName.nameChannelNewDeposit ∨
      eventName = some EventName.nameChannelWithdraw then
    true
  else
    false

/-- The function `calcChannelID`. -/
def calcChannelID (X : Env) (token p1 p2 : Address) : Hash :=
  if p1 < p2 then X.Sha3 p1 p2 token else X.Sha3 p2 p1 token

/-- The function `eventChannelOpenAndDeposit2StateChange`. -/
def eventChannelOpenAndDeposit2StateChange (X : Env)
    (ev : TokenNetworkChannelOpenedAndDeposit) :
    ContractNewChannelStateChange × ContractBalanceStateChange :=
  let channelIdentifier := calcChannelID X ev.Token ev.Participant ev.Partner
  ({ ChannelIdentifier :=
       { ChannelIdentifier := channelIdentifier,
         OpenBlockNumber := toInt64 ev.Raw.BlockNumber },
     TokenAddress := ev.Token,
     Participant1 := ev.Participant,
     Participant2 := ev.Partner,
     SettleTimeout := toInt64 ev.SettleTimeout,
     BlockNumber := toInt64 ev.Raw.BlockNumber },
   { ChannelIdentifier := channelIdentifier,
     ParticipantAddress := ev.Participant,
     Balance := ev.Participant1Deposit,
     BlockNumber := toInt64 ev.Raw.BlockNumber })

/-- The function `eventChannelNewDeposit2StateChange`. -/
def eventChannelNewDeposit2StateChange (ev : TokenNetworkChannelNewDeposit) :
    ContractBalanceStateChange :=
  { ChannelIdentifier := ev.ChannelIdentifier,
    ParticipantAddress := ev.Participant,
    Balance := ev.TotalDeposit,
    BlockNumber := toInt64 ev.Raw.BlockNumber }

/-- The replacement of a `nil` amount by a fresh zero, `new(big.Int)`. -/
def orZero (a : Option Int) : Option Int :=
  if a = none then some 0 else a

/-- The function `eventChannelClosed2StateChange`. -/
def eventChannelClosed2StateChange (ev : TokenNetworkChannelClosed) :
    ContractClosedStateChange :=
  { ChannelIdentifier := ev.ChannelIdentifier,
    ClosingAddress := ev.ClosingParticipant,
    LocksRoot := ev.Locksroot,
    TransferredAmount := orZero ev.TransferredAmount,
    ClosedBlock := toInt64 ev.Raw.BlockNumber }

/-- The function `eventChannelUnlocked2StateChange`. -/
def eventChannelUnlocked2StateChange (ev : TokenNetworkChannelUnlocked) :
    ContractUnlockStateChange :=
  { ChannelIdentifier := ev.ChannelIdentifier,
    Participant := ev.PayerParticipant,
    LockHash := ev.Lockhash,
    TransferAmount := orZero ev.TransferredAmount,
    BlockNumber := toInt64 ev.Raw.BlockNumber }

/-- The function `eventBalanceProofUpdated2StateChange`. -/
def eventBalanceProofUpdated2StateChange (ev : TokenNetworkBalanceProofUpdated) :
    ContractBalanceProofUpdatedStateChange :=
  { ChannelIdentifier := ev.ChannelIdentifier,
    Participant := ev.Participant,
    LocksRoot := ev.Locksroot,
    TransferAmount := orZero ev.TransferredAmount,
    BlockNumber := toInt64 ev.Raw.BlockNumber }

/-- The function `eventChannelPunished2StateChange`. -/
def eventChannelPunished2StateChange (ev : TokenNetworkChannelPunished) :
    ContractPunishedStateChange :=
  { ChannelIdentifier := ev.ChannelIdentifier,
    Beneficiary := ev.Beneficiary,
    BlockNumber := toInt64 ev.Raw.BlockNumber }

/-- The function `eventChannelSettled2StateChange`. -/
def eventChannelSettled2StateChange (ev : TokenNetworkChannelSettled) :
    ContractSettledStateChange :=
  { ChannelIdentifier := ev.ChannelIdentifier,
    Participant1Amount := ev.Participant1Amount,
    Participant2Amount := ev.Participant2Amount,
    SettledBlock := toInt64 ev.Raw.BlockNumber }

/-- The function `eventChannelCooperativeSettled2StateChange`. -/
def eventChannelCooperativeSettled2StateChange
    (ev : TokenNetworkChannelCooperativeSettled) :
    ContractCooperativeSettledStateChange :=
  { ChannelIdentifier := ev.ChannelIdentifier,
    Participant1Amount := ev.Participant1Amount,
    Participant2Amount := ev.Participant2Amount,
    SettledBlock := toInt64 ev.Raw.BlockNumber }

/-- The function `eventChannelWithdraw2StateChange`. -/
def eventChannelWithdraw2StateChange (ev : TokenNetworkChannelWithdraw) :
    ContractChannelWithdrawStateChange :=
  { ChannelIdentifier :=
      { ChannelIdentifier := ev.ChannelIdentifier,
        OpenBlockNumber := toInt64 ev.Raw.BlockNumber },
    Participant1 := ev.Participant1,
    Participant1Balance := orZero ev.Participant1Balance,
    Participant2 := ev.Participant2,
    Participant2Balance := orZero ev.Participant2Balance,
    BlockNumber := toInt64 ev.Raw.BlockNumber }

/-- The function `eventSecretRevealed2StateChange`. -/
def eventSecretRevealed2StateChange (X : Env) (ev : SecretRegistrySecretRevealed) :
    ContractSecretRevealOnChainStateChange :=
  { Secret := ev.Secret,
    LockSecretHash := X.ShaSecret ev.Secret,
    BlockNumber := toInt64 ev.Raw.BlockNumber }

/-- The `switch eventName` of `parseLogsToEvents`: the state changes that one log
appends, or the error of its decoder. The `default` case appends nothing. -/
def decodeLog (X : Env) (eventName : Option EventName) (l : Log) :
    Except String (List ContractStateChange) :=
  match eventName with
  | some EventName.nameChannelOpenedAndDeposit =>
    match X.newEventChannelOpenAndDeposit l with
    | Except.error err => Except.error err
    | Except.ok e =>
      Except.ok [ContractStateChange.newChannel (eventChannelOpenAndDeposit2StateChange X e).1,
        ContractStateChange.balance (eventChannelOpenAndDeposit2StateChange X e).2]
  | some EventName.nameChannelNewDeposit =>
    match X.newEventChannelNewDeposit l with
    | Except.error err => Except.error err
    | Except.ok e => Except.ok [ContractStateChange.balance (eventChannelNewDeposit2StateChange e)]
  | some EventName.nameChannelClosed =>
    match X.newEventChannelClosed l with
    | Except.error err => Except.error err
    | Except.ok e => Except.ok [ContractStateChange.closed (eventChannelClosed2StateChange e)]
  | some EventName.nameChannelUnlocked =>
    match X.newEventChannelUnlocked l with
    | Except.error err => Except.error err
    | Except.ok e => Except.ok [ContractStateChange.unlock (eventChannelUnlocked2StateChange e)]
  | some EventName.nameBalanceProofUpdated =>
    match X.newEventBalanceProofUpdated l with
    | Except.error err => Except.error err
    | Except.ok e =>
      Except.ok [ContractStateChange.balanceProofUpdated (eventBalanceProofUpdated2StateChange e)]
  | some EventName.nameChannelPunished =>
    match X.newEventChannelPunished l with
    | Except.error err => Except.error err
    | Except.ok e => Except.ok [ContractStateChange.punished (eventChannelPunished2StateChange e)]
  | some EventName.nameChannelSettled =>
    match X.newEventChannelSettled l with
    | Except.error err => Except.error err
    | Except.ok e => Except.ok [ContractStateChange.settled (eventChannelSettled2StateChange e)]
  | some EventName.nameChannelCooperativeSettled =>
    match X.newEventChannelCooperativeSettled l with
    | Except.error err => Except.error err
    | Except.ok e =>
      Except.ok [ContractStateChange.cooperativeSettled
        (eventChannelCooperativeSettled2StateChange e)]
  | some EventName.nameChannelWithdraw =>
    match X.newEventChannelWithdraw l with
    | Except.error err => Except.error err
    | Except.ok e =>
      Except.ok [ContractStateChange.channelWithdraw (eventChannelWithdraw2StateChange e)]
  | some EventName.nameSecretRevealed =>
    match X.newEventSecretRevealed l with
    | Except.error err => Except.error err
    | Except.ok e =>
      Except.ok [ContractStateChange.secretRevealOnChain (eventSecretRevealed2StateChange X e)]
  | none => Except.ok []

/-- The test `be.lastBlockNumber-int64(l.BlockNumber) < be.Config.ForkConfirmNumber`. -/
def lacksConfirmations (cfg : config) (lastBlockNumber : Int) (l : Log) : Bool :=
  decide (wrapInt64 (lastBlockNumber - toInt64 l.BlockNumber) < cfg.ForkConfirmNumber)

/-- The two fork-confirmation tests of the loop body: the log is skipped (`continue`)
without being recorded. -/
def delayed (cfg : config) (lastBlockNumber : Int) (eventName : Option EventName)
    (l : Log) : Bool :=
  (cfg.EnableForkConfirm && needConfirm eventName && lacksConfirmations cfg lastBlockNumber l)
    || (decide (eventName = some EventName.nameSecretRevealed)
      && lacksConfirmations cfg lastBlockNumber l)

/-- What a call of `parseLogsToEvents` leaves: the returned `stateChanges` and `err`, and
the map `txDone` of the receiver. -/
structure ParseResult where
  stateChanges : List ContractStateChange
  err : Option String
  txDone : Hash → Option Nat

/-- The loop of `parseLogsToEvents` over the remaining logs, from the map `txDone` and
the state changes appended so far. `none` is the panic of `l.Topics[0]` on a log
without topics. -/
def parseLoop (X : Env) (cfg : config) (lastBlockNumber : Int) :
    List Log → (Hash → Option Nat) → List ContractStateChange → Option ParseResult
  | [], txDone, stateChanges =>
    some { stateChanges := stateChanges, err := none, txDone := txDone }
  | l :: logs, txDone, stateChanges =>
    match l.Topics with
    | [] => none
    | topic :: _ =>
      let eventName := X.topicToEventName topic
      if txDone l.TxHash = some l.BlockNumber then
        parseLoop X cfg lastBlockNumber logs txDone stateChanges
      else if delayed cfg lastBlockNumber eventName l then
        parseLoop X cfg lastBlockNumber logs txDone stateChanges
      else
        match decodeLog X eventName l with
        | Except.error err =>
          some { stateChanges := stateChanges, err := some err, txDone := txDone }
        | Except.ok scs =>
          parseLoop X cfg lastBlockNumber logs
            (Function.update txDone l.TxHash (some l.BlockNumber)) (stateChanges ++ scs)

/-- The method `Events.parseLogsToEvents`. -/
def parseLogsToEvents (X : Env) (be : Events) (logs : List Log) : Option ParseResult :=
  parseLoop X be.Config be.lastBlockNumber logs be.txDone []

/-- The receiver after a call of `parseLogsToEvents`: only `txDone` is written. -/
def Events.after (be : Events) (r : ParseResult) : Events :=
  { be with txDone := r.txDone }

/-- Logs of the list that carry the same transaction hash carry the same block number
(each transaction of the list is seen in one block). -/
def OneBlockPerTx (logs : List Log) : Prop :=
  ∀ a ∈ logs, ∀ b ∈ logs, a.TxHash = b.TxHash → a.BlockNumber = b.BlockNumber

/-! ## A concrete environment

Topic `k` (for `k` from 1 to 10) names the `k`-th event; a decoder reads the fields of
its event from `Data` in order and fails on a log with too few words. The hash functions
are injective codes. -/

/-- The event-name table of the sample environment. -/
def Sample.topicToEventName (t : Hash) : Option EventName :=
  if t = 1 then some EventName.nameChannelOpenedAndDeposit
  else if t = 2 then some EventName.nameChannelNewDeposit
  else if t = 3 then some EventName.nameChannelClosed
  else if t = 4 then some EventName.nameChannelUnlocked
  else if t = 5 then some EventName.nameBalanceProofUpdated
  else if t = 6 then some EventName.nameChannelPunished
  else if t = 7 then some EventName.nameChannelSettled
  else if t = 8 then some EventName.nameChannelCooperativeSettled
  else if t = 9 then some EventName.nameChannelWithdraw
  else if t = 10 then some EventName.nameSecretRevealed
  else none

/-- The sample environment. -/
def Sample.env : Env where
  topicToEventName := Sample.topicToEventName
  newEventChannelOpenAndDeposit := fun l =>
    match l.Data with
    | [t, p1, p2, s, d] =>
      Except.ok { Token := t, Participant := p1, Partner := p2, SettleTimeout := s,
                  Participant1Deposit := some (d : Int), Raw := l }
    | _ => Except.error "decode"
  newEventChannelNewDeposit := fun l =>
    match l.Data with
    | [c, p, d] =>
      Except.ok { ChannelIdentifier := c, Participant := p, TotalDeposit := some (d : Int),
                  Raw := l }
    | _ => Except.error "decode"
  newEventChannelClosed := fun l =>
    match l.Data with
    | [c, p, r, a] =>
      Except.ok { ChannelIdentifier := c, ClosingParticipant := p, Locksroot := r,
                  TransferredAmount := some (a : Int), Raw := l }
    | _ => Except.error "decode"
  newEventChannelUnlocked := fun l =>
    match l.Data with
    | [c, p, h, a] =>
      Except.ok { ChannelIdentifier := c, PayerParticipant := p, Lockhash := h,
                  TransferredAmount := some (a : Int), Raw := l }
    | _ => Except.error "decode"
  newEventBalanceProofUpdated := fun l =>
    match l.Data with
    | [c, p, r, a] =>
      Except.ok { ChannelIdentifier := c, Participant := p, Locksroot := r,
                  TransferredAmount := some (a : Int), Raw := l }
    | _ => Except.error "decode"
  newEventChannelPunished := fun l =>
    match l.Data with
    | [c, b] => Except.ok { ChannelIdentifier := c, Beneficiary := b, Raw := l }
    | _ => Except.error "decode"
  newEventChannelSettled := fun l =>
    match l.Data with
    | [c, a1, a2] =>
      Except.ok { ChannelIdentifier := c, Participant1Amount := some (a1 : Int),
                  Participant2Amount := some (a2 : Int), Raw := l }
    | _ => Except.error "decode"
  newEventChannelCooperativeSettled := fun l =>
    match l.Data with
    | [c, a1, a2] =>
      Except.ok { ChannelIdentifier := c, Participant1Amount := some (a1 : Int),
                  Participant2Amount := some (a2 : Int), Raw := l }
    | _ => Except.error "decode"
  newEventChannelWithdraw := fun l =>
    match l.Data with
    | [c, p1, b1, p2, b2] =>
      Except.ok { ChannelIdentifier := c, Participant1 := p1,
                  Participant1Balance := some (b1 : Int), Participant2 := p2,
                  Participant2Balance := some (b2 : Int), Raw := l }
    | _ => Except.error "decode"
  newEventSecretRevealed := fun l =>
    match l.Data with
    | [s] => Except.ok { Secret := s, Raw := l }
    | _ => Except.error "decode"
  Sha3 := fun a b c => 2 ^ a * 3 ^ b * 5 ^ c
  ShaSecret := fun s => s + 1

/-- A receiver with an empty `txDone` map, fork confirmation switched off, at block
100. -/
def Sample.events : Events :=
  { Config := { EnableForkConfirm := false, ForkConfirmNumber := 17 },
    lastBlockNumber := 100,
    txDone := fun _ => none }

/-- Two logs of one transaction (hash 7) in block 90: the closing of channel 11 and the
unlocking of a lock on it. -/
def Sample.closedLog : Log :=
  { Topics := [3], Data := [11, 21, 31, 5], BlockNumber := 90, TxHash := 7 }

/-- The second log of transaction 7. -/
def Sample.unlockedLog : Log :=
  { Topics := [4], Data := [11, 21, 41, 5], BlockNumber := 90, TxHash := 7 }

/-- A log of transaction 7 seen in block 91 (the transaction was included again after a
reorganisation of the chain). -/
def Sample.closedLogMoved : Log :=
  { Topics := [3], Data := [11, 21, 31, 5], BlockNumber := 91, TxHash := 7 }

end blockchain

/-! ## Byte strings and sample logs for the contract events -/

namespace blockchain

/-- The function `bytes.Compare` of the Go standard library: the lexicographic comparison
of two byte strings, with result `-1`, `0` or `1`. -/
def bytesCompare : List Nat → List Nat → Int
  | [], [] => 0
  | [], _ :: _ => -1
  | _ :: _, [] => 1
  | a :: as, b :: bs => if a < b then -1 else if b < a then 1 else bytesCompare as bs

/-- The big-endian value of a byte string, by which a `common.Address` and a
`common.Hash` are represented. -/
def bigEndian : List Nat → Nat
  | [] => 0
  | a :: as => a * 256 ^ as.length + bigEndian as

/-- A secret-reveal log of transaction 9 in block 80: at block 100 it has twenty
confirmations. -/
def Sample.secretLog : Log :=
  { Topics := [10], Data := [55], BlockNumber := 80, TxHash := 9 }

/-- A secret-reveal log of transaction 12 in block 90: at block 100 it has ten
confirmations, fewer than the seventeen required. -/
def Sample.lateSecretLog : Log :=
  { Topics := [10], Data := [66], BlockNumber := 90, TxHash := 12 }

/-- A log of transaction 13 in block 95: the opening of a channel of token 1 between the
participants 3 and 2, with settle timeout 40 and deposit 500. -/
def Sample.openedLog : Log :=
  { Topics := [1], Data := [1, 3, 2, 40, 500], BlockNumber := 95, TxHash := 13 }

end blockchain

namespace kgcenter

/-! # Theorems -/

/-! ## The `select` loop -/

theorem work_step (s s1 : VState) (ev : Event) (h : step s ev = some s1) :
    work s1 + 1 ≤ work s := by
  cases ev with
  | run j =>
    simp only [step] at h
    split at h
    · exact absurd h (by simp)
    · split at h
      · exact absurd h (by simp)
      · injection h with h; subst h
        rename_i hg
        cases j <;> simp [work, Function.update_apply, hg] <;> omega
      · split at h
        · exact absurd h (by simp)
        · injection h with h; subst h
          rename_i hg _ hc
          cases j <;> simp [work, Function.update_apply, hg, hc] <;> omega
  | recv j =>
    simp only [step] at h
    split at h
    · exact absurd h (by simp)
    · split at h
      · exact absurd h (by simp)
      · split at h
        · exact absurd h (by simp)
        · rename_i hc
          split at h
          · injection h with h; subst h
            cases j <;> simp [work, Function.update_apply, hc] <;> omega
          · split at h <;>
            · injection h with h; subst h
              cases j <;> simp [work, Function.update_apply, hc] <;> omega

theorem work_exec (sched : List Event) : ∀ (s0 s : VState), exec s0 sched = some s →
    work s + sched.length ≤ work s0 := by
  induction sched with
  | nil => intro s0 s h; simp [exec] at h; subst h; simp
  | cons ev rest ih =>
    intro s0 s h
    simp only [exec] at h
    cases hs : step s0 ev with
    | none => simp [hs] at h
    | some s1 =>
      simp [hs] at h
      have h1 := work_step s0 s1 ev hs
      have h2 := ih s1 s h
      simp only [List.length_cons]; omega

theorem taken_send (ch : Chan → Option Bool) (g : Chan → Option (Option Bool)) (v : Int)
    (r : Option Bool) (cr : Bool) (j : Chan) (b : Bool) (hg : g j ≠ none) (i : Chan) :
    taken ⟨Function.update ch j (some b), Function.update g j none, v, r, cr⟩ i ↔
      taken ⟨ch, g, v, r, cr⟩ i := by
  by_cases hij : i = j
  · subst hij; simp [taken, hg]
  · simp [taken, Function.update_apply, hij]

theorem taken_recv (ch : Chan → Option Bool) (g : Chan → Option (Option Bool)) (v v1 : Int)
    (r r1 : Option Bool) (cr : Bool) (j : Chan) (hg : g j = none) (i : Chan) :
    taken ⟨Function.update ch j none, g, v1, r1, cr⟩ i ↔ (i = j ∨ taken ⟨ch, g, v, r, cr⟩ i) := by
  by_cases hij : i = j
  · subst hij; simp [taken, hg]
  · simp [taken, Function.update_apply, hij]

theorem cnt_recv (ch : Chan → Option Bool) (g : Chan → Option (Option Bool)) (v v1 : Int)
    (r r1 : Option Bool) (cr : Bool) (j : Chan) (hg : g j = none) (hc : ch j ≠ none) :
    cnt ⟨Function.update ch j none, g, v1, r1, cr⟩ = cnt ⟨ch, g, v, r, cr⟩ + 1 := by
  have hntk : ¬ taken ⟨ch, g, v, r, cr⟩ j := by simp [taken, hc]
  simp only [cnt, taken_recv ch g v v1 r r1 cr j hg]
  cases j <;> simp [hntk] <;> omega

theorem cnt_le_two (s : VState) (i j : Chan) (hij : i ≠ j) (hi : ¬ taken s i)
    (hj : ¬ taken s j) : cnt s ≤ 2 := by
  simp only [cnt]
  cases i <;> cases j <;> simp_all <;> (repeat' split) <;> omega

theorem inv_step (c : Chan → Bool) (s s1 : VState) (ev : Event) (hI : Inv c s)
    (h : step s ev = some s1) : Inv c s1 := by
  obtain ⟨ch, g, v, r, cr⟩ := s
  obtain ⟨hcr, hB, hN, hT, hF⟩ := hI
  simp only at hcr hB hN hT hF
  subst hcr
  cases ev with
  | run j =>
    simp only [step] at h
    rcases hB j with ⟨hg, hc⟩ | ⟨hg, _⟩
    · simp [hg, hc] at h
      subst h
      have hg1 : g j ≠ none := by simp [hg]
      refine ⟨rfl, ?_, ?_, hT, hF⟩
      · intro i
        by_cases hij : i = j
        · subst hij; right; simp
        · simpa [Function.update_apply, hij] using hB i
      · intro hr
        obtain ⟨h1, h2, h3⟩ := hN hr
        refine ⟨h1, ?_, fun i hi => h3 i ((taken_send ch g v r false j (c j) hg1 i).1 hi)⟩
        have : cnt ⟨Function.update ch j (some (c j)), Function.update g j none, v, r, false⟩
            = cnt ⟨ch, g, v, r, false⟩ := by
          simp only [cnt, taken_send ch g v r false j (c j) hg1]
        simpa [this] using h2
    · simp [hg] at h
  | recv j =>
    simp only [step] at h
    cases r with
    | some b => simp at h
    | none =>
      obtain ⟨h1, h2, h3⟩ := hN rfl
      rcases hB j with ⟨hg, hc⟩ | ⟨hg, hc | hc⟩
      · simp [hc] at h
      · have hc1 : ch j ≠ none := by simp [hc]
        have hB1 : ∀ i, (g i = some (some (c i)) ∧ Function.update ch j none i = none) ∨
            (g i = none ∧ (Function.update ch j none i = some (c i) ∨
              Function.update ch j none i = none)) := by
          intro i
          by_cases hij : i = j
          · subst hij; right; simp [hg]
          · simpa [Function.update_apply, hij] using hB i
        simp only [hc] at h
        by_cases hcj : c j = false
        · simp [hcj] at h
          subst h
          exact ⟨rfl, hB1, by simp, by simp, fun _ => ⟨j, hcj⟩⟩
        · have hcj1 : c j = true := by simpa using hcj
          simp only [hcj1] at h
          by_cases hv : v - 1 = 0
          · simp [hv] at h
            subst h
            refine ⟨rfl, hB1, by simp, ?_, by simp⟩
            intro _ i
            by_cases hij : i = j
            · subst hij; exact hcj1
            · apply h3 i
              by_contra hnt
              have hntj : ¬ taken ⟨ch, g, v, none, false⟩ j := by simp [taken, hc]
              have := cnt_le_two _ i j hij hnt hntj
              omega
          · simp [hv] at h
            subst h
            refine ⟨rfl, hB1, ?_, by simp, by simp⟩
            intro _
            refine ⟨hv, ?_, ?_⟩
            · have := cnt_recv ch g v (v - 1) none none false j hg hc1
              simp only [this]; omega
            · intro i hi
              rcases (taken_recv ch g v (v - 1) none none false j hg i).1 hi with hij | hi
              · subst hij; exact hcj1
              · exact h3 i hi
      · simp [hc] at h

theorem inv_exec (c : Chan → Bool) (sched : List Event) : ∀ (s0 s : VState), Inv c s0 →
    exec s0 sched = some s → Inv c s := by
  induction sched with
  | nil => intro s0 s hI h; simp [exec] at h; subst h; exact hI
  | cons ev rest ih =>
    intro s0 s hI h
    simp only [exec] at h
    cases hs : step s0 ev with
    | none => simp [hs] at h
    | some s1 =>
      simp [hs] at h
      exact ih s1 s (inv_step c s0 s1 ev hI hs) h

theorem inv_progress (c : Chan → Bool) (s : VState) (hI : Inv c s) (hr : s.ret = none) :
    ∃ ev, (step s ev).isSome = true := by
  obtain ⟨hcr, hB, hN, _, _⟩ := hI
  obtain ⟨h1, h2, _⟩ := hN hr
  by_cases hall : ∀ i, taken s i
  · exfalso
    have : cnt s = 4 := by simp [cnt, hall]
    omega
  · push_neg at hall
    obtain ⟨i, hi⟩ := hall
    rcases hB i with ⟨hg, hc⟩ | ⟨hg, hc | hc⟩
    · exact ⟨Event.run i, by simp [step, hcr, hg, hc]⟩
    · refine ⟨Event.recv i, ?_⟩
      simp only [step, hcr, hr, hc]
      by_cases h3 : c i = false
      · simp [h3]
      · by_cases h4 : s.valueCheckPassed - 1 = 0 <;> simp [h3, h4]
    · exact absurd ⟨hg, hc⟩ hi

theorem inv_ret (c : Chan → Bool) (s : VState) (hI : Inv c s) (b : Bool)
    (hr : s.ret = some b) : b = (c Chan.U1 && c Chan.U2 && c Chan.U3 && c Chan.E) := by
  obtain ⟨_, _, _, hT, hF⟩ := hI
  cases b with
  | true => simp [hT hr]
  | false =>
    obtain ⟨i, hi⟩ := hF hr
    cases i <;> simp [hi]

/-- A call whose four goroutines report the values `c`, started with the channels
empty, returns their conjunction under every interleaving. -/
theorem returns_of_reports (c : Chan → Bool) :
    Returns ⟨emptyChans, fun i => some (some (c i)), 4, none, false⟩
      (c Chan.U1 && c Chan.U2 && c Chan.U3 && c Chan.E) := by
  intro sched s h
  have hI0 : Inv c ⟨emptyChans, fun i => some (some (c i)), 4, none, false⟩ := by
    refine ⟨rfl, fun i => Or.inl ⟨rfl, rfl⟩, ?_, by simp, by simp⟩
    intro _
    refine ⟨by simp, ?_, ?_⟩
    · simp [cnt, taken]
    · intro i hi; simp [taken] at hi
  have hI := inv_exec c sched _ s hI0 h
  have hw := work_exec sched _ s h
  refine ⟨?_, ?_⟩
  · have : work ⟨emptyChans, fun i => some (some (c i)), 4, none, false⟩ = 8 := by
      simp [work, emptyChans]
    omega
  · cases hr : s.ret with
    | none => exact Or.inr ⟨rfl, inv_progress c s hI hr⟩
    | some b => left; rw [inv_ret c s hI b hr]

/-! ## Modular arithmetic -/

theorem xgcd_bezout (fuel : Nat) : ∀ a b : Int,
    a * (xgcd fuel a b).2.1 + b * (xgcd fuel a b).2.2 = (xgcd fuel a b).1 := by
  induction fuel with
  | zero => intro a b; simp [xgcd]
  | succ n ih =>
    intro a b
    by_cases hb : b = 0
    · simp [xgcd, hb]
    · simp only [xgcd, hb, if_false]
      have h := ih b (a % b)
      have hd : a % b = a - b * (a / b) := Int.emod_def a b
      rw [hd] at h
      rw [hd]
      linear_combination h

theorem xgcd_gcd (fuel : Nat) : ∀ a b : Nat, b < fuel →
    (xgcd fuel (a : Int) (b : Int)).1 = ((Nat.gcd a b : Nat) : Int) := by
  induction fuel with
  | zero => intro a b h; omega
  | succ n ih =>
    intro a b hlt
    by_cases hb : b = 0
    · subst hb; simp [xgcd]
    · have hb1 : (b : Int) ≠ 0 := by exact_mod_cast hb
      simp only [xgcd, hb1, if_false]
      have hmod : ((a : Int) % (b : Int)) = ((a % b : Nat) : Int) := by norm_cast
      rw [hmod, ih b (a % b) (by have := Nat.mod_lt a (Nat.pos_of_ne_zero hb); omega)]
      congr 1
      rw [Nat.gcd_comm a b, Nat.gcd_rec b a, Nat.gcd_comm]

theorem ModInverse_sound (g n x : Int) (h : ModInverse g n = some x) :
    (g * x) % n = 1 % n := by
  unfold ModInverse at h
  by_cases hn : n = 0
  · simp [hn] at h
  · simp only [hn, if_false] at h
    by_cases ht : (xgcd (n.natAbs + 1) (g % n) |n|).1 = 1
    · simp only [ht, if_true] at h
      injection h with h
      have hb := xgcd_bezout (n.natAbs + 1) (g % n) |n|
      rw [ht] at hb
      subst h
      have e1 : g * ((xgcd (n.natAbs + 1) (g % n) |n|).2.1 % n) ≡
          g % n * (xgcd (n.natAbs + 1) (g % n) |n|).2.1 [ZMOD n] :=
        Int.ModEq.mul (Int.mod_modEq g n).symm (Int.mod_modEq _ n)
      have e2 : g % n * (xgcd (n.natAbs + 1) (g % n) |n|).2.1 ≡ 1 [ZMOD n] := by
        have hdvd : n ∣ |n| * (xgcd (n.natAbs + 1) (g % n) |n|).2.2 :=
          Dvd.dvd.mul_right ((dvd_abs n n).2 (dvd_refl n)) _
        have : g % n * (xgcd (n.natAbs + 1) (g % n) |n|).2.1
            = 1 - |n| * (xgcd (n.natAbs + 1) (g % n) |n|).2.2 := by linear_combination hb
        rw [this]
        exact (Int.modEq_iff_dvd.2 (by simpa using hdvd)).symm
      exact e1.trans e2
    · simp [ht] at h

theorem ModInverse_complete (g n : Int) (hn : n ≠ 0) (hg : Int.gcd g n = 1) :
    ∃ x, ModInverse g n = some x := by
  unfold ModInverse
  simp only [hn, if_false]
  have hnonneg : 0 ≤ g % n := Int.emod_nonneg g hn
  have h1 : (g % n) = (((g % n).toNat : Nat) : Int) := (Int.toNat_of_nonneg hnonneg).symm
  have h2 : |n| = ((n.natAbs : Nat) : Int) := Int.abs_eq_natAbs n
  have hco : IsCoprime (g % n) n := by
    have h0 : IsCoprime g n := Int.gcd_eq_one_iff_coprime.1 hg
    have : g % n = g + n * (-(g / n)) := by rw [Int.emod_def]; ring
    rw [this]
    exact (IsCoprime.add_mul_left_left_iff).2 h0
  have ht : (xgcd (n.natAbs + 1) (g % n) |n|).1 = 1 := by
    rw [h1, h2, xgcd_gcd _ _ _ (Nat.lt_succ_self _)]
    have h3 := Int.gcd_eq_one_iff_coprime.2 hco
    rw [Int.gcd_eq_natAbs] at h3
    have h4 : (g % n).natAbs = (g % n).toNat := by omega
    rw [h4] at h3
    exact_mod_cast h3
  simp [ht]

/-- A non-negative exponent: the plain modular power. -/
theorem ModPowInsecure_nonneg (b k m : Int) (hk : 0 ≤ k) :
    ModPowInsecure b k m = some (b ^ k.toNat % m) := by
  simp [ModPowInsecure, hk, bigExp]

/-- The power `w ^ (-e)` for `e ≥ 0` and `w` invertible: an inverse of `w ^ e`. -/
theorem ModPowInsecure_neg_spec (w e m : Int) (he : 0 ≤ e) (hm : m ≠ 0)
    (hg : Int.gcd w m = 1) :
    ∃ v, ModPowInsecure w (-e) m = some v ∧ v * w ^ e.toNat ≡ 1 [ZMOD m] := by
  by_cases h0 : e = 0
  · subst h0
    refine ⟨1 % m, by simp [ModPowInsecure, bigExp], ?_⟩
    simpa using Int.mod_modEq 1 m
  · have hneg : ¬ (0 ≤ -e) := by omega
    obtain ⟨x, hx⟩ := ModInverse_complete w m hm hg
    refine ⟨x ^ e.toNat % m, by simp [ModPowInsecure, hneg, hx, bigExp], ?_⟩
    have h1 : w * x ≡ 1 [ZMOD m] := ModInverse_sound w m x hx
    have h2 : x ^ e.toNat % m * w ^ e.toNat ≡ x ^ e.toNat * w ^ e.toNat [ZMOD m] :=
      Int.ModEq.mul (Int.mod_modEq _ m) (Int.ModEq.refl _)
    refine h2.trans ?_
    rw [← mul_pow, mul_comm x w]
    simpa using h1.pow e.toNat

/-- Congruent bases modulo `N` have congruent `N`-th powers modulo `N * N`. -/
theorem pow_modEq_sq (N a b : Int) (hN : 0 ≤ N) (h : a ≡ b [ZMOD N]) :
    a ^ N.toNat ≡ b ^ N.toNat [ZMOD (N * N)] := by
  have hN1 : ((N.toNat : Nat) : Int) = N := Int.toNat_of_nonneg hN
  have hd : ((N.toNat : Nat) : Int) ∣ a - b := by
    rw [hN1]; exact (Int.modEq_iff_dvd.1 h.symm)
  have h2 := dvd_sub_pow_of_dvd_sub hd 1
  simp only [pow_one] at h2
  rw [hN1] at h2
  have h3 : N * N ∣ a ^ N.toNat - b ^ N.toNat := by
    have : (N : Int) ^ (1 + 1) = N * N := by ring
    rw [this] at h2; exact h2
  exact (Int.modEq_iff_dvd.2 h3).symm

theorem isCoprime_succ_sq (N : Int) : IsCoprime (N + 1) (N * N) := by
  have h : IsCoprime (N + 1) N := ⟨1, -1, by ring⟩
  exact IsCoprime.mul_right h h

/-- The Paillier equation holds for the values that `Initialization` computes. -/
theorem checkU2_complete (N eta r alpha beta e z : Int) (u1 : Point) (u3 s3 : Int)
    (hN : 0 < N) (heta : 0 ≤ eta) (halpha : 0 ≤ alpha) (he : 0 ≤ e)
    (hr : Int.gcd r N = 1) :
    checkU2
      { z := z, u1 := u1
        u2 := ((N + 1) ^ alpha.toNat * beta ^ N.toNat) % (N * N)
        u3 := u3, e := e, s1 := e * eta + alpha
        s2 := (r ^ e.toNat * beta) % N, s3 := s3 }
      (N + 1) (N * N) N (((N + 1) ^ eta.toNat * r ^ N.toNat) % (N * N)) = some true := by
  have hM : N * N ≠ 0 := by positivity
  have hs1 : 0 ≤ e * eta + alpha := by positivity
  have hco : Int.gcd (((N + 1) ^ eta.toNat * r ^ N.toNat) % (N * N)) (N * N) = 1 := by
    rw [Int.gcd_eq_one_iff_coprime]
    have hr1 : IsCoprime r N := Int.gcd_eq_one_iff_coprime.1 hr
    have h1 : IsCoprime ((N + 1) ^ eta.toNat * r ^ N.toNat) (N * N) :=
      IsCoprime.mul_left ((isCoprime_succ_sq N).pow_left)
        ((IsCoprime.mul_right hr1 hr1).pow_left)
    have : ((N + 1) ^ eta.toNat * r ^ N.toNat) % (N * N)
        = (N + 1) ^ eta.toNat * r ^ N.toNat
          + (N * N) * (-(((N + 1) ^ eta.toNat * r ^ N.toNat) / (N * N))) := by
      rw [Int.emod_def]; ring
    rw [this]
    exact (IsCoprime.add_mul_left_left_iff).2 h1
  obtain ⟨v, hv, hv1⟩ := ModPowInsecure_neg_spec _ e (N * N) he hM hco
  simp only [checkU2, ModPowInsecure_nonneg _ _ _ hs1, ModPowInsecure_nonneg _ _ _ hN.le, hv,
    bigMod, hM, if_false, Option.bind_eq_bind, Option.some_bind, Option.pure_def]
  have key : (N + 1) ^ alpha.toNat * beta ^ N.toNat ≡
      (N + 1) ^ (e * eta + alpha).toNat % (N * N) *
        (((r ^ e.toNat * beta) % N) ^ N.toNat % (N * N)) * v [ZMOD (N * N)] := by
    have hexp : (e * eta + alpha).toNat = e.toNat * eta.toNat + alpha.toNat := by
      have h1 : ((e.toNat : Nat) : Int) = e := Int.toNat_of_nonneg he
      have h2 : ((eta.toNat : Nat) : Int) = eta := Int.toNat_of_nonneg heta
      have h3 : ((alpha.toNat : Nat) : Int) = alpha := Int.toNat_of_nonneg halpha
      have : ((e.toNat * eta.toNat + alpha.toNat : Nat) : Int) = e * eta + alpha := by
        push_cast; rw [h1, h2, h3]
      rw [← this]; exact Int.toNat_natCast _
    have hs2 : (r ^ e.toNat * beta) % N ≡ r ^ e.toNat * beta [ZMOD N] := Int.mod_modEq _ N
    have hy : ((r ^ e.toNat * beta) % N) ^ N.toNat % (N * N) ≡
        (r ^ e.toNat * beta) ^ N.toNat [ZMOD (N * N)] :=
      (Int.mod_modEq _ _).trans (pow_modEq_sq N _ _ hN.le hs2)
    have hx : (N + 1) ^ (e * eta + alpha).toNat % (N * N) ≡
        (N + 1) ^ (e.toNat * eta.toNat + alpha.toNat) [ZMOD (N * N)] := by
      rw [hexp]; exact Int.mod_modEq _ _
    have hw : ((N + 1) ^ eta.toNat * r ^ N.toNat) % (N * N) ≡
        (N + 1) ^ eta.toNat * r ^ N.toNat [ZMOD (N * N)] := Int.mod_modEq _ _
    have hv2 : v * ((N + 1) ^ eta.toNat * r ^ N.toNat) ^ e.toNat ≡ 1 [ZMOD (N * N)] :=
      (Int.ModEq.mul (Int.ModEq.refl v) (hw.pow e.toNat).symm).trans hv1
    have hr2 : (N + 1) ^ (e * eta + alpha).toNat % (N * N) *
        (((r ^ e.toNat * beta) % N) ^ N.toNat % (N * N)) * v ≡
        (N + 1) ^ (e.toNat * eta.toNat + alpha.toNat) * (r ^ e.toNat * beta) ^ N.toNat * v
          [ZMOD (N * N)] :=
      Int.ModEq.mul (Int.ModEq.mul hx hy) (Int.ModEq.refl v)
    have hid : (N + 1) ^ (e.toNat * eta.toNat + alpha.toNat) * (r ^ e.toNat * beta) ^ N.toNat * v
        = (N + 1) ^ alpha.toNat * beta ^ N.toNat *
            (v * ((N + 1) ^ eta.toNat * r ^ N.toNat) ^ e.toNat) := by
      ring
    refine Int.ModEq.symm (hr2.trans ?_)
    rw [hid]
    simpa using Int.ModEq.mul (Int.ModEq.refl ((N + 1) ^ alpha.toNat * beta ^ N.toNat)) hv2
  have key2 : (N + 1) ^ alpha.toNat * beta ^ N.toNat % (N * N) =
      (N + 1) ^ (e * eta + alpha).toNat % (N * N) *
        (((r ^ e.toNat * beta) % N) ^ N.toNat % (N * N)) * v % (N * N) := key
  simp [key2]

theorem toNat_mul_add (e a b : Int) (he : 0 ≤ e) (ha : 0 ≤ a) (hb : 0 ≤ b) :
    (e * a + b).toNat = e.toNat * a.toNat + b.toNat := by
  have h1 : ((e.toNat : Nat) : Int) = e := Int.toNat_of_nonneg he
  have h2 : ((a.toNat : Nat) : Int) = a := Int.toNat_of_nonneg ha
  have h3 : ((b.toNat : Nat) : Int) = b := Int.toNat_of_nonneg hb
  have : ((e.toNat * a.toNat + b.toNat : Nat) : Int) = e * a + b := by
    push_cast; rw [h1, h2, h3]
  rw [← this]; exact Int.toNat_natCast _

theorem isCoprime_emod (a m : Int) (h : IsCoprime a m) : IsCoprime (a % m) m := by
  have : a % m = a + m * (-(a / m)) := by rw [Int.emod_def]; ring
  rw [this]
  exact (IsCoprime.add_mul_left_left_iff).2 h

/-- The equation modulo `nTilde` holds for the values that `Initialization` computes. -/
theorem checkU3_complete (nTilde h1 h2 eta rho alpha gamma e : Int) (u1 : Point)
    (u2 s2 : Int) (hT : nTilde ≠ 0) (heta : 0 ≤ eta) (hrho : 0 ≤ rho) (halpha : 0 ≤ alpha)
    (hgamma : 0 ≤ gamma) (he : 0 ≤ e) (hh1 : Int.gcd h1 nTilde = 1)
    (hh2 : Int.gcd h2 nTilde = 1) :
    checkU3
      { z := (h1 ^ eta.toNat * h2 ^ rho.toNat) % nTilde
        u1 := u1, u2 := u2
        u3 := (h1 ^ alpha.toNat * h2 ^ gamma.toNat) % nTilde
        e := e, s1 := e * eta + alpha, s2 := s2, s3 := e * rho + gamma }
      h1 nTilde h2 = some true := by
  have hs1 : 0 ≤ e * eta + alpha := by positivity
  have hs3 : 0 ≤ e * rho + gamma := by positivity
  have c1 : IsCoprime h1 nTilde := Int.gcd_eq_one_iff_coprime.1 hh1
  have c2 : IsCoprime h2 nTilde := Int.gcd_eq_one_iff_coprime.1 hh2
  have hco : Int.gcd ((h1 ^ eta.toNat * h2 ^ rho.toNat) % nTilde) nTilde = 1 := by
    rw [Int.gcd_eq_one_iff_coprime]
    exact isCoprime_emod _ _ (IsCoprime.mul_left c1.pow_left c2.pow_left)
  obtain ⟨v, hv, hv1⟩ := ModPowInsecure_neg_spec _ e nTilde he hT hco
  simp only [checkU3, ModPowInsecure_nonneg _ _ _ hs1, ModPowInsecure_nonneg _ _ _ hs3, hv,
    bigMod, hT, if_false, Option.bind_eq_bind, Option.some_bind, Option.pure_def]
  have key : h1 ^ alpha.toNat * h2 ^ gamma.toNat ≡
      h1 ^ (e * eta + alpha).toNat % nTilde * (h2 ^ (e * rho + gamma).toNat % nTilde) * v
        [ZMOD nTilde] := by
    rw [toNat_mul_add e eta alpha he heta halpha, toNat_mul_add e rho gamma he hrho hgamma]
    have hz : (h1 ^ eta.toNat * h2 ^ rho.toNat) % nTilde ≡
        h1 ^ eta.toNat * h2 ^ rho.toNat [ZMOD nTilde] := Int.mod_modEq _ _
    have hv2 : v * (h1 ^ eta.toNat * h2 ^ rho.toNat) ^ e.toNat ≡ 1 [ZMOD nTilde] :=
      (Int.ModEq.mul (Int.ModEq.refl v) (hz.pow e.toNat).symm).trans hv1
    have hr2 : h1 ^ (e.toNat * eta.toNat + alpha.toNat) % nTilde *
        (h2 ^ (e.toNat * rho.toNat + gamma.toNat) % nTilde) * v ≡
        h1 ^ (e.toNat * eta.toNat + alpha.toNat) * h2 ^ (e.toNat * rho.toNat + gamma.toNat) * v
          [ZMOD nTilde] :=
      Int.ModEq.mul (Int.ModEq.mul (Int.mod_modEq _ _) (Int.mod_modEq _ _)) (Int.ModEq.refl v)
    have hid : h1 ^ (e.toNat * eta.toNat + alpha.toNat) *
        h2 ^ (e.toNat * rho.toNat + gamma.toNat) * v
        = h1 ^ alpha.toNat * h2 ^ gamma.toNat *
            (v * (h1 ^ eta.toNat * h2 ^ rho.toNat) ^ e.toNat) := by
      ring
    refine Int.ModEq.symm (hr2.trans ?_)
    rw [hid]
    simpa using Int.ModEq.mul (Int.ModEq.refl (h1 ^ alpha.toNat * h2 ^ gamma.toNat)) hv2
  have key2 : h1 ^ alpha.toNat * h2 ^ gamma.toNat % nTilde =
      h1 ^ (e * eta + alpha).toNat % nTilde * (h2 ^ (e * rho + gamma).toNat % nTilde) * v
        % nTilde := key
  simp [key2]

theorem SetBytes_nonneg (digest : List Nat) : 0 ≤ SetBytes digest := by
  unfold SetBytes; exact Int.natCast_nonneg _

/-- For well-formed inputs (moduli `N > 0` and `nTilde ≠ 0`, non-negative
exponents, non-empty digests) `Initialization` does not panic and builds the tuple
`closedForm`. -/
theorem Initialization_eq (E : Env) (params : PublicParameters)
    (eta cx cy w r alpha beta rho gamma : Int)
    (hN : 0 < params.paillierPubKey.N) (hT : params.nTilde ≠ 0) (heta : 0 ≤ eta)
    (halpha : 0 ≤ alpha) (hrho : 0 ≤ rho) (hgamma : 0 ≤ gamma)
    (hdig : ∀ g y w z u1 u2 u3, (E.Sha256Hash g y w z u1 u2 u3).length ≠ 0) :
    Initialization E params eta cx cy w r alpha beta rho gamma =
      some (closedForm E params eta cx cy w r alpha beta rho gamma) := by
  have hM : params.paillierPubKey.N * params.paillierPubKey.N ≠ 0 := by positivity
  have hN0 : params.paillierPubKey.N ≠ 0 := hN.ne'
  have hna : ¬ alpha < 0 := by omega
  have hs2 : ∀ a b m : Int, a % m * b % m = a * b % m := fun a b m => by
    rw [Int.mul_emod, Int.emod_emod_of_dvd _ (dvd_refl _), ← Int.mul_emod]
  have hs3 : ∀ a b m : Int, a * (b % m) % m = a * b % m := fun a b m => by
    rw [Int.mul_emod, Int.emod_emod_of_dvd _ (dvd_refl _), ← Int.mul_emod]
  simp only [Initialization, ModPowInsecure_nonneg _ _ _ heta, ModPowInsecure_nonneg _ _ _ hrho,
    ModPowInsecure_nonneg _ _ _ halpha, ModPowInsecure_nonneg _ _ _ hgamma,
    ModPowInsecure_nonneg _ _ _ hN.le, ModPowInsecure_nonneg _ _ _ (SetBytes_nonneg _),
    bigMod, hM, hT, hN0, hna, hdig, if_false, Option.bind_eq_bind, Option.some_bind,
    Option.pure_def, Env.challenge, closedForm, hs2, hs3]

theorem closedForm_e_nonneg (E : Env) (params : PublicParameters)
    (eta cx cy w r alpha beta rho gamma : Int) :
    0 ≤ (closedForm E params eta cx cy w r alpha beta rho gamma).e :=
  SetBytes_nonneg _

/-! ## The curve group -/

theorem CurveGroup.PointMul_zsmul {E : Env} {A : Type} [AddCommGroup A] (cg : CurveGroup E A)
    (k : Int) (a : A) (hk : 0 ≤ k) : E.PointMul k (cg.enc a) = cg.enc (k • a) := by
  rw [cg.PointMul_enc k a hk]
  congr 1
  conv_rhs => rw [← Int.toNat_of_nonneg hk]
  exact (natCast_zsmul a k.toNat).symm

theorem CurveGroup.order_zsmul {E : Env} {A : Type} [AddCommGroup A] (cg : CurveGroup E A)
    (a : A) : E.S256_N • a = 0 := by
  have h := cg.order_nsmul a
  rw [← natCast_zsmul, Int.toNat_of_nonneg cg.order_pos.le] at h
  exact h

/-- Multiplying by the scalar `(-e) mod q` is multiplying by `-e`: the point
subtraction of `checkU1`. -/
theorem CurveGroup.PointMul_neg {E : Env} {A : Type} [AddCommGroup A] (cg : CurveGroup E A)
    (e : Int) (a : A) : E.PointMul (e * (-1) % E.S256_N) (cg.enc a) = cg.enc (-(e • a)) := by
  have hq : E.S256_N ≠ 0 := cg.order_pos.ne'
  rw [cg.PointMul_zsmul _ a (Int.emod_nonneg _ hq)]
  congr 1
  have h1 : e * (-1) % E.S256_N = -e - E.S256_N * (e * (-1) / E.S256_N) := by
    rw [Int.emod_def]; ring
  rw [h1, sub_smul, neg_smul, mul_comm, mul_smul, cg.order_zsmul, smul_zero, sub_zero]

/-! ## `Verify` and its four checks -/

theorem exec_append (l1 : List Event) : ∀ (s0 : VState) (l2 : List Event),
    exec s0 (l1 ++ l2) = (exec s0 l1).bind (fun s => exec s l2) := by
  induction l1 with
  | nil => intro s0 l2; simp [exec]
  | cons ev rest ih =>
    intro s0 l2
    simp only [List.cons_append, exec]
    cases step s0 ev with
    | none => simp
    | some s1 => simp [ih]

/-- A call that returns `b` under every interleaving has a run that returns `b`. -/
theorem Returns.exists_run {s0 : VState} {b : Bool} (h : Returns s0 b) :
    ∃ sched s, exec s0 sched = some s ∧ s.ret = some b := by
  have aux : ∀ k : Nat, ∀ sched s, exec s0 sched = some s → sched.length + k = 9 →
      ∃ sched1 s1, exec s0 sched1 = some s1 ∧ s1.ret = some b := by
    intro k
    induction k with
    | zero =>
      intro sched s hs hl
      have := (h sched s hs).1
      omega
    | succ k ih =>
      intro sched s hs hl
      rcases (h sched s hs).2 with hr | ⟨_, ev, hev⟩
      · exact ⟨sched, s, hs, hr⟩
      · obtain ⟨s2, hs2⟩ := Option.isSome_iff_exists.1 hev
        apply ih (sched ++ [ev]) s2
        · rw [exec_append, hs]; simp [exec, hs2]
        · simp only [List.length_append, List.length_singleton]; omega
  exact aux 9 [] s0 rfl rfl

theorem Returns.unique {s0 : VState} {b1 b2 : Bool} (h1 : Returns s0 b1)
    (h2 : Returns s0 b2) : b1 = b2 := by
  obtain ⟨sched, s, hs, hr⟩ := h1.exists_run
  rcases (h2 sched s hs).2 with hr2 | ⟨hr2, _⟩
  · rw [hr] at hr2; exact Option.some.inj hr2
  · rw [hr] at hr2; exact absurd hr2 (by simp)

/-- A call one of whose goroutines panics does not return under every interleaving. -/
theorem not_returns_of_panic (ch : Chan → Option Bool) (g : Chan → Option (Option Bool))
    (v : Int) (i : Chan) (b : Bool) (hi : g i = some none) :
    ¬ Returns ⟨ch, g, v, none, false⟩ b := by
  intro h
  have hs : exec ⟨ch, g, v, none, false⟩ [Event.run i]
      = some ⟨ch, Function.update g i none, v, none, true⟩ := by
    simp [exec, step, hi]
  rcases (h _ _ hs).2 with hr | ⟨_, ev, hev⟩
  · simp at hr
  · cases ev <;> simp [step] at hev

/-- If the four goroutines report the values `c`, `Verify` returns their conjunction. -/
theorem verifyReturns_of_checks (E : Env) (zkp : Zkp) (params : PublicParameters)
    (rx ry w : Int) (c : Chan → Bool)
    (h : ∀ i, Verify.checks E zkp params rx ry w i = some (c i)) :
    VerifyReturns E zkp params rx ry w (c Chan.U1 && c Chan.U2 && c Chan.U3 && c Chan.E) := by
  have : Verify.start E zkp params rx ry w emptyChans
      = ⟨emptyChans, fun i => some (some (c i)), 4, none, false⟩ := by
    simp only [Verify.start, VState.mk.injEq, and_true, true_and]
    funext i; rw [h i]
  unfold VerifyReturns
  rw [this]
  exact returns_of_reports c

/-- The call `Verify` returns true exactly when each of the four checks reports success. -/
theorem verifyReturns_true_iff (E : Env) (zkp : Zkp) (params : PublicParameters)
    (rx ry w : Int) :
    VerifyReturns E zkp params rx ry w true ↔
      ∀ i, Verify.checks E zkp params rx ry w i = some true := by
  constructor
  · intro h i
    by_cases hp : ∃ j, Verify.checks E zkp params rx ry w j = none
    · obtain ⟨j, hj⟩ := hp
      exact absurd h (not_returns_of_panic _ _ _ j true (by simp [hj]))
    · push_neg at hp
      have hc : ∀ j, Verify.checks E zkp params rx ry w j
          = some ((Verify.checks E zkp params rx ry w j).getD false) := by
        intro j
        cases hj : Verify.checks E zkp params rx ry w j with
        | none => exact absurd hj (hp j)
        | some b => rfl
      have h2 := verifyReturns_of_checks E zkp params rx ry w _ hc
      have h3 := Returns.unique h h2
      rw [hc i]
      have h4 : ∀ j, (Verify.checks E zkp params rx ry w j).getD false = true := by
        intro j
        simp only [Bool.true_eq, Bool.and_eq_true] at h3
        cases j
        · exact h3.1.1.1
        · exact h3.1.1.2
        · exact h3.1.2
        · exact h3.2
      rw [h4 i]
  · intro h
    have := verifyReturns_of_checks E zkp params rx ry w (fun _ => true) h
    simpa using this

/-- If no check panics and one of them reports failure, `Verify` returns false. -/
theorem verifyReturns_false_of (E : Env) (zkp : Zkp) (params : PublicParameters)
    (rx ry w : Int) (hrep : ∀ i, (Verify.checks E zkp params rx ry w i).isSome = true)
    (hfail : ∃ i, Verify.checks E zkp params rx ry w i = some false) :
    VerifyReturns E zkp params rx ry w false := by
  have hc : ∀ j, Verify.checks E zkp params rx ry w j
      = some ((Verify.checks E zkp params rx ry w j).getD false) := by
    intro j
    cases hj : Verify.checks E zkp params rx ry w j with
    | none => have := hrep j; simp [hj] at this
    | some b => rfl
  have h2 := verifyReturns_of_checks E zkp params rx ry w _ hc
  obtain ⟨i, hi⟩ := hfail
  have : ((Verify.checks E zkp params rx ry w Chan.U1).getD false &&
      (Verify.checks E zkp params rx ry w Chan.U2).getD false &&
      (Verify.checks E zkp params rx ry w Chan.U3).getD false &&
      (Verify.checks E zkp params rx ry w Chan.E).getD false) = false := by
    cases i <;> simp [hi]
  rw [this] at h2
  exact h2

/-- C2. A `Verify` call that starts with the four result channels empty returns true,
under every interleaving of its goroutines, if and only if each of the four checks
`checkU1`, `checkU2`, `checkU3`, `checkE` reports success; if any one of them
reports failure the call never returns true, and it returns false under every
interleaving as soon as all four checks report. -/
theorem verify_accepts_iff_all_checks (E : Env) (zkp : Zkp) (params : PublicParameters)
    (rx ry w : Int) :
    (VerifyReturns E zkp params rx ry w true ↔
      ∀ i, Verify.checks E zkp params rx ry w i = some true) ∧
    ((∃ i, Verify.checks E zkp params rx ry w i = some false) →
      ¬ VerifyReturns E zkp params rx ry w true ∧
      ((∀ i, (Verify.checks E zkp params rx ry w i).isSome = true) →
        VerifyReturns E zkp params rx ry w false)) := by
  refine ⟨verifyReturns_true_iff E zkp params rx ry w, ?_⟩
  rintro ⟨i, hi⟩
  refine ⟨?_, fun hrep => verifyReturns_false_of E zkp params rx ry w hrep ⟨i, hi⟩⟩
  intro h
  have := (verifyReturns_true_iff E zkp params rx ry w).1 h i
  rw [hi] at this
  simp at this

/-- C2, at a concrete input: the accepted proof `Sample.toyZkp` with its `e` changed
from `230` to `231`; the challenge check reports failure, the other checks report. -/
theorem verify_accepts_iff_all_checks_witness :
    ¬ VerifyReturns (Toy.env sampleHash) { Sample.toyZkp with e := 231 } Sample.params 2 0
      Sample.w true ∧
    VerifyReturns (Toy.env sampleHash) { Sample.toyZkp with e := 231 } Sample.params 2 0
      Sample.w false :=
  have h := (verify_accepts_iff_all_checks (Toy.env sampleHash)
    { Sample.toyZkp with e := 231 } Sample.params 2 0 Sample.w).2 ⟨Chan.E, by decide!⟩
  ⟨h.1, h.2 (fun i => by cases i <;> decide!)⟩

/-! ## The checks as comparisons with recomputed values -/

theorem point_cmp (p u : Point) :
    (if p.1 = u.1 ∧ p.2 = u.2 then true else false) = decide (u = p) := by
  by_cases h : u = p
  · subst h; simp
  · have : ¬ (p.1 = u.1 ∧ p.2 = u.2) := by
      rintro ⟨h1, h2⟩
      exact h (Prod.ext h1.symm h2.symm)
    simp [h, this]

theorem checkU1_eq (E : Env) (zkp : Zkp) (bx by_ rx ry nTilde : Int) :
    checkU1 E zkp bx by_ rx ry nTilde
      = decide (zkp.u1 = recomputeU1 E zkp.s1 zkp.e (bx, by_) (rx, ry)) := by
  simp only [checkU1, recomputeU1]
  exact point_cmp _ _

theorem checkU2_eq (zkp : Zkp) (g nSquared N w : Int) :
    checkU2 zkp g nSquared N w
      = (recomputeU2 zkp.s1 zkp.s2 zkp.e g nSquared N w).map (fun r => decide (zkp.u2 = r)) := by
  simp only [checkU2, recomputeU2, Option.bind_eq_bind, Option.pure_def]
  cases ModPowInsecure g zkp.s1 nSquared with
  | none => rfl
  | some x =>
    cases ModPowInsecure zkp.s2 N nSquared with
    | none => rfl
    | some y =>
      cases ModPowInsecure w (-zkp.e) nSquared with
      | none => rfl
      | some z =>
        cases hr : bigMod (x * y * z) nSquared with
        | none => simp [hr]
        | some r => by_cases h : zkp.u2 = r <;> simp [hr, h]

theorem checkU3_eq (zkp : Zkp) (h1 nTilde h2 : Int) :
    checkU3 zkp h1 nTilde h2
      = (recomputeU3 zkp.s1 zkp.s3 zkp.e zkp.z h1 nTilde h2).map
          (fun r => decide (zkp.u3 = r)) := by
  simp only [checkU3, recomputeU3, Option.bind_eq_bind, Option.pure_def]
  cases ModPowInsecure h1 zkp.s1 nTilde with
  | none => rfl
  | some x =>
    cases ModPowInsecure h2 zkp.s3 nTilde with
    | none => rfl
    | some y =>
      cases ModPowInsecure zkp.z (-zkp.e) nTilde with
      | none => rfl
      | some z =>
        cases hr : bigMod (x * y * z) nTilde with
        | none => simp [hr]
        | some r => by_cases h : zkp.u3 = r <;> simp [hr, h]

theorem checkE_eq (E : Env) (zkp : Zkp) (bitC : ECPoint) (w g : Int) :
    checkE E zkp bitC w g
      = decide (zkp.e = E.challenge g (bitC.X, bitC.Y) w zkp.z zkp.u1 zkp.u2 zkp.u3) := by
  simp only [checkE, Env.challenge]
  by_cases h : zkp.e = SetBytes (E.Sha256Hash g (bitC.X, bitC.Y) w zkp.z zkp.u1 zkp.u2 zkp.u3)
    <;> simp [h]

theorem checks_U1 (E : Env) (zkp : Zkp) (params : PublicParameters) (rx ry w : Int) :
    Verify.checks E zkp params rx ry w Chan.U1
      = some (decide (zkp.u1 = recomputeU1 E zkp.s1 zkp.e E.G (rx, ry))) := by
  simp only [Verify.checks, checkU1_eq, Env.G]

theorem checks_U2 (E : Env) (zkp : Zkp) (params : PublicParameters) (rx ry w : Int) :
    Verify.checks E zkp params rx ry w Chan.U2
      = (recomputeU2 zkp.s1 zkp.s2 zkp.e (params.paillierPubKey.N + 1)
          (params.paillierPubKey.N * params.paillierPubKey.N) params.paillierPubKey.N w).map
          (fun r => decide (zkp.u2 = r)) := by
  simp only [Verify.checks, checkU2_eq]

theorem checks_U3 (E : Env) (zkp : Zkp) (params : PublicParameters) (rx ry w : Int) :
    Verify.checks E zkp params rx ry w Chan.U3
      = (recomputeU3 zkp.s1 zkp.s3 zkp.e zkp.z params.h1 params.nTilde params.h2).map
          (fun r => decide (zkp.u3 = r)) := by
  simp only [Verify.checks, checkU3_eq]

theorem checks_E (E : Env) (zkp : Zkp) (params : PublicParameters) (rx ry w : Int) :
    Verify.checks E zkp params rx ry w Chan.E
      = some (decide (zkp.e = E.challenge (params.paillierPubKey.N + 1) E.G w zkp.z zkp.u1
          zkp.u2 zkp.u3)) := by
  simp only [Verify.checks, checkE_eq, Env.G]

/-- What an accepted proof satisfies. -/
theorem accepted_iff (E : Env) (zkp : Zkp) (params : PublicParameters) (rx ry w : Int) :
    VerifyReturns E zkp params rx ry w true ↔
      zkp.u1 = recomputeU1 E zkp.s1 zkp.e E.G (rx, ry) ∧
      recomputeU2 zkp.s1 zkp.s2 zkp.e (params.paillierPubKey.N + 1)
          (params.paillierPubKey.N * params.paillierPubKey.N) params.paillierPubKey.N w
        = some zkp.u2 ∧
      recomputeU3 zkp.s1 zkp.s3 zkp.e zkp.z params.h1 params.nTilde params.h2 = some zkp.u3 ∧
      zkp.e = E.challenge (params.paillierPubKey.N + 1) E.G w zkp.z zkp.u1 zkp.u2 zkp.u3 := by
  rw [verifyReturns_true_iff]
  constructor
  · intro h
    have h1 := h Chan.U1
    have h2 := h Chan.U2
    have h3 := h Chan.U3
    have h4 := h Chan.E
    rw [checks_U1] at h1
    rw [checks_U2] at h2
    rw [checks_U3] at h3
    rw [checks_E] at h4
    refine ⟨by simpa using h1, ?_, ?_, by simpa using h4⟩
    · cases hr : recomputeU2 zkp.s1 zkp.s2 zkp.e (params.paillierPubKey.N + 1)
          (params.paillierPubKey.N * params.paillierPubKey.N) params.paillierPubKey.N w with
      | none => simp [hr] at h2
      | some r => simp [hr] at h2; rw [h2]
    · cases hr : recomputeU3 zkp.s1 zkp.s3 zkp.e zkp.z params.h1 params.nTilde params.h2 with
      | none => simp [hr] at h3
      | some r => simp [hr] at h3; rw [h3]
  · rintro ⟨h1, h2, h3, h4⟩ i
    cases i
    · rw [checks_U1]; simp [← h1]
    · rw [checks_U2, h2]; simp
    · rw [checks_U3, h3]; simp
    · rw [checks_E]; simp [← h4]

/-- The point recomputed by `checkU1`, in the group: `s1 • G - e • Y`. -/
theorem recomputeU1_group {E : Env} {A : Type} [AddCommGroup A] (cg : CurveGroup E A)
    (s1 e : Int) (y : A) (hs1 : 0 ≤ s1) :
    recomputeU1 E s1 e (cg.enc cg.gen) (cg.enc y) = cg.enc (s1 • cg.gen - e • y) := by
  simp only [recomputeU1, cg.PointMul_zsmul _ _ hs1, cg.PointMul_neg,
    cg.pointAdd_enc, ← sub_eq_add_neg]

theorem sampleHash_length (g : Int) (y : Point) (w z : Int) (u1 : Point) (u2 u3 : Int) :
    (sampleHash g y w z u1 u2 u3).length ≠ 0 := by
  simp [sampleHash]

/-- Completeness under the calling convention of the code: the proof built for the
base point `(cx, cy) = G` is accepted for the point `(rx, ry) = eta * G`. -/
theorem completeness_core (E : Env) (A : Type) [AddCommGroup A] (cg : CurveGroup E A)
    (params : PublicParameters) (eta r alpha beta rho gamma w rx ry : Int)
    (hN : 0 < params.paillierPubKey.N) (hT : params.nTilde ≠ 0)
    (hh1 : Int.gcd params.h1 params.nTilde = 1) (hh2 : Int.gcd params.h2 params.nTilde = 1)
    (hr : Int.gcd r params.paillierPubKey.N = 1)
    (heta : 0 ≤ eta) (halpha : 0 ≤ alpha) (hrho : 0 ≤ rho) (hgamma : 0 ≤ gamma)
    (hdig : ∀ g y w z u1 u2 u3, (E.Sha256Hash g y w z u1 u2 u3).length ≠ 0)
    (hpt : (rx, ry) = E.PointMul eta E.G)
    (hw : w = ((params.paillierPubKey.N + 1) ^ eta.toNat * r ^ params.paillierPubKey.N.toNat)
      % (params.paillierPubKey.N * params.paillierPubKey.N)) :
    ∃ zkp, Initialization E params eta E.S256_Gx E.S256_Gy w r alpha beta rho gamma = some zkp ∧
      VerifyReturns E zkp params rx ry w true := by
  refine ⟨_, Initialization_eq E params eta _ _ w r alpha beta rho gamma hN hT heta halpha hrho
    hgamma hdig, ?_⟩
  rw [verifyReturns_true_iff]
  have he := closedForm_e_nonneg E params eta E.S256_Gx E.S256_Gy w r alpha beta rho gamma
  intro i
  cases i
  · rw [checks_U1, hpt, ← cg.enc_gen, cg.PointMul_zsmul _ _ heta,
      recomputeU1_group cg _ _ _ (by simp only [closedForm]; exact add_nonneg (mul_nonneg he heta) halpha)]
    have : (closedForm E params eta E.S256_Gx E.S256_Gy w r alpha beta rho gamma).u1
        = cg.enc (alpha • cg.gen) := by
      simp only [closedForm]
      rw [← cg.PointMul_zsmul _ _ halpha, cg.enc_gen]; rfl
    rw [this]
    simp only [closedForm, add_smul, mul_smul, add_sub_cancel_left, decide_True]
  · have := checkU2_complete params.paillierPubKey.N eta r alpha beta
      (closedForm E params eta E.S256_Gx E.S256_Gy w r alpha beta rho gamma).e
      (closedForm E params eta E.S256_Gx E.S256_Gy w r alpha beta rho gamma).z
      (closedForm E params eta E.S256_Gx E.S256_Gy w r alpha beta rho gamma).u1
      (closedForm E params eta E.S256_Gx E.S256_Gy w r alpha beta rho gamma).u3
      (closedForm E params eta E.S256_Gx E.S256_Gy w r alpha beta rho gamma).s3
      hN heta halpha he hr
    rw [← hw] at this
    exact this
  · exact checkU3_complete params.nTilde params.h1 params.h2 eta rho alpha gamma
      (closedForm E params eta E.S256_Gx E.S256_Gy w r alpha beta rho gamma).e
      (closedForm E params eta E.S256_Gx E.S256_Gy w r alpha beta rho gamma).u1
      (closedForm E params eta E.S256_Gx E.S256_Gy w r alpha beta rho gamma).u2
      (closedForm E params eta E.S256_Gx E.S256_Gy w r alpha beta rho gamma).s2
      hT heta hrho halpha hgamma he hh1 hh2
  · rw [checks_E]
    simp [closedForm, Env.G]

/-! ## C1: completeness -/

/-- C1 (counterexample). On secp256k1, for `eta = 2`, `r = 2`, the point
`2 * G = eta * G` and the ciphertext `w = (N + 1) ^ eta * r ^ N mod N ^ 2`, the
proof that `Initialization` builds for that point is rejected by `Verify` called
on the same point and the same `w`: the challenge check fails (`Initialization`
hashes `(cx, cy) = 2 * G`, `checkE` hashes the base point `G`). -/
theorem completeness_same_point_counterexample :
    Sample.G2 = (S256.env sampleHash).PointMul 2 (S256.env sampleHash).G ∧
    Sample.w = ((Sample.params.paillierPubKey.N + 1) ^ 2 * 2 ^ 35)
      % (Sample.params.paillierPubKey.N * Sample.params.paillierPubKey.N) ∧
    Int.gcd Sample.params.h1 Sample.params.nTilde = 1 ∧
    Int.gcd Sample.params.h2 Sample.params.nTilde = 1 ∧
    Int.gcd 2 Sample.params.paillierPubKey.N = 1 ∧
    ∃ zkp, Initialization (S256.env sampleHash) Sample.params 2 Sample.G2.1 Sample.G2.2
        Sample.w 2 3 4 5 6 = some zkp ∧
      VerifyReturns (S256.env sampleHash) zkp Sample.params Sample.G2.1 Sample.G2.2 Sample.w
        false ∧
      ¬ VerifyReturns (S256.env sampleHash) zkp Sample.params Sample.G2.1 Sample.G2.2 Sample.w
        true := by
  refine ⟨by decide!, by decide!, by decide!, by decide!, by decide!, ?_⟩
  have hinit : Initialization (S256.env sampleHash) Sample.params 2 Sample.G2.1 Sample.G2.2
      Sample.w 2 3 4 5 6 = some
        { z := 26
          u1 := (115780575977492633039504758427830329241728645270042306223540962614150928364886,
            78735063515800386211891312544505775871260717697865196436804966483607426560663)
          u2 := 44, u3 := 29, e := 37, s1 := 77, s2 := 8, s3 := 191 } := by decide!
  refine ⟨_, hinit, ?_⟩
  have hfalse : VerifyReturns (S256.env sampleHash)
      { z := 26
        u1 := (115780575977492633039504758427830329241728645270042306223540962614150928364886,
          78735063515800386211891312544505775871260717697865196436804966483607426560663)
        u2 := 44, u3 := 29, e := 37, s1 := 77, s2 := 8, s3 := 191 }
      Sample.params Sample.G2.1 Sample.G2.2 Sample.w false := by
    apply verifyReturns_false_of
    · intro i
      cases i
      · rfl
      · decide!
      · decide!
      · rfl
    · exact ⟨Chan.E, by decide!⟩
  exact ⟨hfalse, fun h => Bool.noConfusion (Returns.unique h hfalse)⟩

/-- C1 (amended). Completeness holds when the point is the base point: for public
parameters with `N > 0`, `nTilde ≠ 0` and `h1`, `h2` invertible modulo `nTilde`, a
witness `eta ≥ 0`, `r` invertible modulo `N`, the point `(cx, cy) = eta * G` and the
ciphertext `w = (N + 1) ^ eta * r ^ N mod N ^ 2`, and sampled values
`alpha, rho, gamma ≥ 0` (digests being non-empty), if the point `(cx, cy)` is the
base point `G` itself, then `Initialization` builds a proof for `(cx, cy)` and `w`,
and `Verify`, called with empty result channels on the same point and the same `w`,
returns true under every interleaving. The curve primitives are assumed to
implement a group (`CurveGroup`). -/
theorem completeness_base_point (E : Env) (A : Type) [AddCommGroup A] (cg : CurveGroup E A)
    (params : PublicParameters) (eta r alpha beta rho gamma w cx cy : Int)
    (hN : 0 < params.paillierPubKey.N) (hT : params.nTilde ≠ 0)
    (hh1 : Int.gcd params.h1 params.nTilde = 1) (hh2 : Int.gcd params.h2 params.nTilde = 1)
    (hr : Int.gcd r params.paillierPubKey.N = 1)
    (heta : 0 ≤ eta) (halpha : 0 ≤ alpha) (hrho : 0 ≤ rho) (hgamma : 0 ≤ gamma)
    (hdig : ∀ g y w z u1 u2 u3, (E.Sha256Hash g y w z u1 u2 u3).length ≠ 0)
    (hpt : (cx, cy) = E.PointMul eta E.G)
    (hw : w = ((params.paillierPubKey.N + 1) ^ eta.toNat * r ^ params.paillierPubKey.N.toNat)
      % (params.paillierPubKey.N * params.paillierPubKey.N))
    (hbase : (cx, cy) = E.G) :
    ∃ zkp, Initialization E params eta cx cy w r alpha beta rho gamma = some zkp ∧
      VerifyReturns E zkp params cx cy w true := by
  have hx : cx = E.S256_Gx := congrArg Prod.fst hbase
  have hy : cy = E.S256_Gy := congrArg Prod.snd hbase
  have := completeness_core E A cg params eta r alpha beta rho gamma w cx cy hN hT hh1 hh2 hr
    heta halpha hrho hgamma hdig hpt hw
  rw [← hx, ← hy] at this
  exact this

/-- C1 (amended), at a concrete input: the cyclic group of order seven, `eta = 1`. -/
theorem completeness_base_point_witness :
    ∃ zkp, Initialization (Toy.env sampleHash) Sample.params 1 1 0 648 2 3 4 5 6 = some zkp ∧
      VerifyReturns (Toy.env sampleHash) zkp Sample.params 1 0 648 true :=
  completeness_base_point (Toy.env sampleHash) (ZMod 7) (Toy.group sampleHash) Sample.params
    1 2 3 4 5 6 648 1 0 (by decide) (by decide) (by decide) (by decide) (by decide) (by decide)
    (by decide) (by decide) (by decide) sampleHash_length (by decide) (by decide) (by decide)

/-! ## C3: the challenge check -/

theorem ModPowInsecure_isSome_of_neg (b k k1 m v : Int) (hk : k < 0)
    (h : ModPowInsecure b k m = some v) : (ModPowInsecure b k1 m).isSome = true := by
  unfold ModPowInsecure at h ⊢
  have hk0 : ¬ (0 ≤ k) := by omega
  simp only [hk0, if_false] at h
  cases hi : ModInverse b m with
  | none => simp [hi] at h
  | some x => by_cases h1 : 0 ≤ k1 <;> simp [h1]

theorem ModPowInsecure_isSome_of_gcd (b k m : Int) (hm : m ≠ 0) (hg : Int.gcd b m = 1) :
    (ModPowInsecure b k m).isSome = true := by
  obtain ⟨x, hx⟩ := ModInverse_complete b m hm hg
  unfold ModPowInsecure
  by_cases h1 : 0 ≤ k <;> simp [h1, hx]

theorem recomputeU2_eq_some_iff (s1 s2 e g nSquared N w r : Int) :
    recomputeU2 s1 s2 e g nSquared N w = some r ↔
      ∃ x y z, ModPowInsecure g s1 nSquared = some x ∧ ModPowInsecure s2 N nSquared = some y ∧
        ModPowInsecure w (-e) nSquared = some z ∧ nSquared ≠ 0 ∧ (x * y * z) % nSquared = r := by
  simp only [recomputeU2, bigMod, Option.bind_eq_bind, Option.bind_eq_some]
  constructor
  · rintro ⟨x, hx, y, hy, z, hz, h⟩
    by_cases hn : nSquared = 0
    · simp [hn] at h
    · simp only [hn, if_false, Option.some.injEq] at h
      exact ⟨x, y, z, hx, hy, hz, hn, h⟩
  · rintro ⟨x, y, z, hx, hy, hz, hn, h⟩
    exact ⟨x, hx, y, hy, z, hz, by simp [hn, h]⟩

theorem recomputeU3_eq_some_iff (s1 s3 e z h1 nTilde h2 r : Int) :
    recomputeU3 s1 s3 e z h1 nTilde h2 = some r ↔
      ∃ x y zz, ModPowInsecure h1 s1 nTilde = some x ∧ ModPowInsecure h2 s3 nTilde = some y ∧
        ModPowInsecure z (-e) nTilde = some zz ∧ nTilde ≠ 0 ∧ (x * y * zz) % nTilde = r := by
  simp only [recomputeU3, bigMod, Option.bind_eq_bind, Option.bind_eq_some]
  constructor
  · rintro ⟨x, hx, y, hy, zz, hz, h⟩
    by_cases hn : nTilde = 0
    · simp [hn] at h
    · simp only [hn, if_false, Option.some.injEq] at h
      exact ⟨x, y, zz, hx, hy, hz, hn, h⟩
  · rintro ⟨x, y, zz, hx, hy, hz, hn, h⟩
    exact ⟨x, hx, y, hy, zz, hz, by simp [hn, h]⟩

/-- The inverse power in a check that did not panic survives a change of the
challenge, unless the challenge was zero and the base is not invertible. -/
theorem ModPowInsecure_change_e (b e e1 m v : Int) (he : 0 ≤ e) (hm : m ≠ 0)
    (h : ModPowInsecure b (-e) m = some v) (hg : e = 0 → Int.gcd b m = 1) :
    (ModPowInsecure b (-e1) m).isSome = true := by
  by_cases h0 : e = 0
  · exact ModPowInsecure_isSome_of_gcd b _ m hm (hg h0)
  · exact ModPowInsecure_isSome_of_neg b (-e) _ m v (by omega) h

theorem recomputeU2_change_e (s1 s2 e e1 g nSquared N w r : Int) (he : 0 ≤ e)
    (h : recomputeU2 s1 s2 e g nSquared N w = some r) (hg : e = 0 → Int.gcd w nSquared = 1) :
    (recomputeU2 s1 s2 e1 g nSquared N w).isSome = true := by
  obtain ⟨x, y, z, hx, hy, hz, hn, _⟩ := (recomputeU2_eq_some_iff _ _ _ _ _ _ _ _).1 h
  obtain ⟨z1, hz1⟩ := Option.isSome_iff_exists.1 (ModPowInsecure_change_e w e e1 nSquared z he hn hz hg)
  rw [Option.isSome_iff_exists]
  exact ⟨_, (recomputeU2_eq_some_iff _ _ _ _ _ _ _ _).2 ⟨x, y, z1, hx, hy, hz1, hn, rfl⟩⟩

theorem recomputeU3_change_e (s1 s3 e e1 z h1 nTilde h2 r : Int) (he : 0 ≤ e)
    (h : recomputeU3 s1 s3 e z h1 nTilde h2 = some r) (hg : e = 0 → Int.gcd z nTilde = 1) :
    (recomputeU3 s1 s3 e1 z h1 nTilde h2).isSome = true := by
  obtain ⟨x, y, zz, hx, hy, hz, hn, _⟩ := (recomputeU3_eq_some_iff _ _ _ _ _ _ _ _).1 h
  obtain ⟨z1, hz1⟩ := Option.isSome_iff_exists.1 (ModPowInsecure_change_e z e e1 nTilde zz he hn hz hg)
  rw [Option.isSome_iff_exists]
  exact ⟨_, (recomputeU3_eq_some_iff _ _ _ _ _ _ _ _).2 ⟨x, y, z1, hx, hy, hz1, hn, rfl⟩⟩

/-- On secp256k1 with `sampleHash`, `Verify` accepts `Sample.zkp` for the point
`2 * G` and the ciphertext `Sample.w`. -/
theorem Sample.accepted :
    VerifyReturns (S256.env sampleHash) Sample.zkp Sample.params Sample.G2.1 Sample.G2.2
      Sample.w true := by
  rw [verifyReturns_true_iff]
  intro i
  cases i <;> decide!

/-! ## C4: tampering with a commitment or with the challenge -/

/-- C4. For every proof `zkp` that `Verify` accepts for `(params, rx, ry, w)`, every
proof `zkp1` that differs from it in exactly one of the fields `u1`, `u2`, `u3`, `e`
(all other fields equal) is rejected for the same `(params, rx, ry, w)`: `Verify`
returns false under every interleaving. When the changed field is `e` and the
accepted challenge is `0`, `w` and `z` are taken invertible modulo `N ^ 2` and
`nTilde` (otherwise the inverse powers `w ^ (-e)`, `z ^ (-e)` of the changed proof
panic). -/
theorem tampered_commitment_or_challenge_rejected (E : Env) (zkp zkp1 : Zkp)
    (params : PublicParameters) (rx ry w : Int)
    (hacc : VerifyReturns E zkp params rx ry w true)
    (hz : zkp1.z = zkp.z) (hs1 : zkp1.s1 = zkp.s1) (hs2 : zkp1.s2 = zkp.s2)
    (hs3 : zkp1.s3 = zkp.s3)
    (hone : (zkp1.u1 ≠ zkp.u1 ∧ zkp1.u2 = zkp.u2 ∧ zkp1.u3 = zkp.u3 ∧ zkp1.e = zkp.e) ∨
      (zkp1.u1 = zkp.u1 ∧ zkp1.u2 ≠ zkp.u2 ∧ zkp1.u3 = zkp.u3 ∧ zkp1.e = zkp.e) ∨
      (zkp1.u1 = zkp.u1 ∧ zkp1.u2 = zkp.u2 ∧ zkp1.u3 ≠ zkp.u3 ∧ zkp1.e = zkp.e) ∨
      (zkp1.u1 = zkp.u1 ∧ zkp1.u2 = zkp.u2 ∧ zkp1.u3 = zkp.u3 ∧ zkp1.e ≠ zkp.e))
    (hinv : zkp1.e ≠ zkp.e → zkp.e = 0 →
      Int.gcd w (params.paillierPubKey.N * params.paillierPubKey.N) = 1 ∧
      Int.gcd zkp.z params.nTilde = 1) :
    VerifyReturns E zkp1 params rx ry w false := by
  obtain ⟨a1, a2, a3, a4⟩ := (accepted_iff E zkp params rx ry w).1 hacc
  have he : 0 ≤ zkp.e := by rw [a4]; exact SetBytes_nonneg _
  have r2 : (recomputeU2 zkp1.s1 zkp1.s2 zkp1.e (params.paillierPubKey.N + 1)
      (params.paillierPubKey.N * params.paillierPubKey.N) params.paillierPubKey.N w).isSome
      = true := by
    by_cases hne : zkp1.e = zkp.e
    · rw [hs1, hs2, hne, a2]; rfl
    · rw [hs1, hs2]
      exact recomputeU2_change_e _ _ _ _ _ _ _ _ _ he a2 (fun h0 => (hinv hne h0).1)
  have r3 : (recomputeU3 zkp1.s1 zkp1.s3 zkp1.e zkp1.z params.h1 params.nTilde
      params.h2).isSome = true := by
    by_cases hne : zkp1.e = zkp.e
    · rw [hs1, hs3, hne, hz, a3]; rfl
    · rw [hs1, hs3, hz]
      exact recomputeU3_change_e _ _ _ _ _ _ _ _ _ he a3 (fun h0 => (hinv hne h0).2)
  apply verifyReturns_false_of
  · intro i
    cases i
    · rw [checks_U1]; rfl
    · rw [checks_U2]; simpa using r2
    · rw [checks_U3]; simpa using r3
    · rw [checks_E]; rfl
  · rcases hone with ⟨h1, _, _, h4⟩ | ⟨_, h2, _, h4⟩ | ⟨_, _, h3, h4⟩ | ⟨h1, h2, h3, h4⟩
    · refine ⟨Chan.U1, ?_⟩
      rw [checks_U1, hs1, h4, ← a1]
      simp [h1]
    · refine ⟨Chan.U2, ?_⟩
      rw [checks_U2, hs1, hs2, h4, a2]
      simp [h2]
    · refine ⟨Chan.U3, ?_⟩
      rw [checks_U3, hs1, hs3, h4, hz, a3]
      simp [h3]
    · refine ⟨Chan.E, ?_⟩
      rw [checks_E, hz, h1, h2, h3, ← a4]
      simp [h4]

/-- C4, at a concrete input: on secp256k1 the accepted proof `Sample.zkp` with its
`e` changed from `166` to `167` is rejected. -/
theorem tampered_commitment_or_challenge_rejected_witness :
    VerifyReturns (S256.env sampleHash) { Sample.zkp with e := 167 } Sample.params
      Sample.G2.1 Sample.G2.2 Sample.w false :=
  tampered_commitment_or_challenge_rejected (S256.env sampleHash) Sample.zkp
    { Sample.zkp with e := 167 } Sample.params Sample.G2.1 Sample.G2.2 Sample.w
    Sample.accepted rfl rfl rfl rfl
    (Or.inr (Or.inr (Or.inr ⟨rfl, rfl, rfl, by decide⟩)))
    (fun _ h0 => absurd h0 (by decide))

/-! ## C5: changing `u2` only -/

/-- C5 (counterexample). On secp256k1, `Verify` accepts `Sample.zkp`; with `u2`
changed from `44` to `45` the challenge check `checkE` fails as well. -/
theorem tampered_u2_only_paillier_counterexample :
    VerifyReturns (S256.env sampleHash) Sample.zkp Sample.params Sample.G2.1 Sample.G2.2
      Sample.w true ∧
    ({ Sample.zkp with u2 := 45 } : Zkp).u2 ≠ Sample.zkp.u2 ∧
    Verify.checks (S256.env sampleHash) { Sample.zkp with u2 := 45 } Sample.params
      Sample.G2.1 Sample.G2.2 Sample.w Chan.E = some false :=
  ⟨Sample.accepted, by decide, by decide!⟩

/-- C5 (amended). For every proof accepted by `Verify`, replacing only `u2` by a
different value `x` makes the Paillier check `checkU2` fail, while `checkU1` and
`checkU3` still pass on the mutated proof; the challenge check `checkE` passes on
the mutated proof if and only if the hash over the mutated tuple equals the hash
over the original one, and fails otherwise. -/
theorem tampered_u2_checks (E : Env) (zkp : Zkp) (params : PublicParameters)
    (rx ry w x : Int) (hacc : VerifyReturns E zkp params rx ry w true) (hx : x ≠ zkp.u2) :
    Verify.checks E { zkp with u2 := x } params rx ry w Chan.U2 = some false ∧
    Verify.checks E { zkp with u2 := x } params rx ry w Chan.U1 = some true ∧
    Verify.checks E { zkp with u2 := x } params rx ry w Chan.U3 = some true ∧
    (Verify.checks E { zkp with u2 := x } params rx ry w Chan.E = some true ↔
      E.challenge (params.paillierPubKey.N + 1) E.G w zkp.z zkp.u1 x zkp.u3
        = E.challenge (params.paillierPubKey.N + 1) E.G w zkp.z zkp.u1 zkp.u2 zkp.u3) ∧
    (Verify.checks E { zkp with u2 := x } params rx ry w Chan.E = some false ↔
      E.challenge (params.paillierPubKey.N + 1) E.G w zkp.z zkp.u1 x zkp.u3
        ≠ E.challenge (params.paillierPubKey.N + 1) E.G w zkp.z zkp.u1 zkp.u2 zkp.u3) := by
  obtain ⟨a1, a2, a3, a4⟩ := (accepted_iff E zkp params rx ry w).1 hacc
  refine ⟨?_, ?_, ?_, ?_, ?_⟩
  · rw [checks_U2]; simp only; rw [a2]; simp [hx]
  · rw [checks_U1]; simp only; rw [← a1]; simp
  · rw [checks_U3]; simp only; rw [a3]; simp
  · rw [checks_E]; simp only; rw [← a4]
    simp only [Option.some.injEq, decide_eq_true_eq]
    exact eq_comm
  · rw [checks_E]; simp only; rw [← a4]
    simp only [Option.some.injEq, decide_eq_false_iff_not, ne_eq]
    exact not_congr eq_comm

/-- C5 (amended), at a concrete input: `Sample.zkp` with `u2` changed to `46`. -/
theorem tampered_u2_checks_witness :
    Verify.checks (S256.env sampleHash) { Sample.zkp with u2 := 46 } Sample.params
      Sample.G2.1 Sample.G2.2 Sample.w Chan.U2 = some false ∧
    Verify.checks (S256.env sampleHash) { Sample.zkp with u2 := 46 } Sample.params
      Sample.G2.1 Sample.G2.2 Sample.w Chan.U1 = some true :=
  have h := tampered_u2_checks (S256.env sampleHash) Sample.zkp Sample.params Sample.G2.1
    Sample.G2.2 Sample.w 46 Sample.accepted (by decide)
  ⟨h.1, h.2.1⟩

/-! ## C6: challenge binding -/

theorem SetBytes_append (l : List Nat) (b : Nat) :
    SetBytes (l ++ [b]) = SetBytes l * 256 + ((b % 256 : Nat) : Int) := by
  simp [SetBytes, List.foldl_append]

theorem SetBytes_natBytes (fuel : Nat) : ∀ n : Nat, n ≤ fuel →
    SetBytes (natBytes fuel n) = (n : Int) := by
  induction fuel with
  | zero => intro n hn; have : n = 0 := by omega
            subst this; simp [natBytes, SetBytes]
  | succ f ih =>
    intro n hn
    by_cases h0 : n = 0
    · subst h0; simp [natBytes, SetBytes]
    · simp only [natBytes, h0, if_false]
      rw [SetBytes_append, ih (n / 256) (by omega)]
      have := Nat.div_add_mod n 256
      push_cast
      omega

theorem intCode_injective : Function.Injective intCode := by
  intro a b h
  unfold intCode at h
  split at h <;> split at h <;> omega

/-- The digest function `pairHash` is collision-free. -/
theorem pairHash_collisionFree (E : Env) (hE : E.Sha256Hash = pairHash) : CollisionFree E := by
  intro g y w z u1 u2 u3 g1 y1 w1 z1 v1 v2 v3 h
  simp only [Env.challenge, hE, pairHash] at h
  rw [SetBytes_natBytes _ _ (le_refl _), SetBytes_natBytes _ _ (le_refl _)] at h
  have h1 : ∀ a b : Nat, ((a + 1 : Nat) : Int) = ((b + 1 : Nat) : Int) → a = b := by
    intro a b hab; omega
  have h2 := h1 _ _ h
  simp only [Nat.pair_eq_pair] at h2
  obtain ⟨a1, a2, a3, a4, a5, a6, a7, a8, a9⟩ := h2
  exact ⟨intCode_injective a1, Prod.ext (intCode_injective a2) (intCode_injective a3),
    intCode_injective a4, intCode_injective a5,
    Prod.ext (intCode_injective a6) (intCode_injective a7), intCode_injective a8,
    intCode_injective a9⟩

/-- No check panics for well-formed inputs: moduli `N > 0` and `nTilde ≠ 0`,
non-negative responses `s1`, `s3`, and `w`, `z` invertible. -/
theorem checks_report (E : Env) (zkp : Zkp) (params : PublicParameters) (rx ry w : Int)
    (hN : 0 < params.paillierPubKey.N) (hT : params.nTilde ≠ 0)
    (hs1 : 0 ≤ zkp.s1) (hs3 : 0 ≤ zkp.s3)
    (hw : Int.gcd w (params.paillierPubKey.N * params.paillierPubKey.N) = 1)
    (hz : Int.gcd zkp.z params.nTilde = 1) :
    ∀ i, (Verify.checks E zkp params rx ry w i).isSome = true := by
  have hM : params.paillierPubKey.N * params.paillierPubKey.N ≠ 0 := by positivity
  intro i
  cases i
  · rw [checks_U1]; rfl
  · rw [checks_U2]
    obtain ⟨v, hv⟩ := Option.isSome_iff_exists.1
      (ModPowInsecure_isSome_of_gcd w (-zkp.e) _ hM hw)
    have : recomputeU2 zkp.s1 zkp.s2 zkp.e (params.paillierPubKey.N + 1)
        (params.paillierPubKey.N * params.paillierPubKey.N) params.paillierPubKey.N w
        = some _ :=
      (recomputeU2_eq_some_iff _ _ _ _ _ _ _ _).2 ⟨_, _, v, ModPowInsecure_nonneg _ _ _ hs1,
        ModPowInsecure_nonneg _ _ _ hN.le, hv, hM, rfl⟩
    rw [this]; rfl
  · rw [checks_U3]
    obtain ⟨v, hv⟩ := Option.isSome_iff_exists.1
      (ModPowInsecure_isSome_of_gcd zkp.z (-zkp.e) _ hT hz)
    have : recomputeU3 zkp.s1 zkp.s3 zkp.e zkp.z params.h1 params.nTilde params.h2 = some _ :=
      (recomputeU3_eq_some_iff _ _ _ _ _ _ _ _).2 ⟨_, _, v, ModPowInsecure_nonneg _ _ _ hs1,
        ModPowInsecure_nonneg _ _ _ hs3, hv, hT, rfl⟩
    rw [this]; rfl
  · rw [checks_E]; rfl

/-- C6. Assume the hash over the canonical encodings collision-free (the challenge
is injective in its input tuple). For every proof `zkp` whose stored `e` passes the
challenge check, every proof `zkp1` with the same `z` and `e` but a different triple
`(u1, u2, u3)` has a recomputed challenge different from the stored `e`, and
`Verify` rejects it: it returns false under every interleaving, no check of `zkp1`
panicking. -/
theorem challenge_binding (E : Env) (hcf : CollisionFree E) (zkp zkp1 : Zkp)
    (params : PublicParameters) (rx ry w : Int)
    (hE : Verify.checks E zkp params rx ry w Chan.E = some true)
    (hz : zkp1.z = zkp.z) (he : zkp1.e = zkp.e)
    (hne : (zkp1.u1, zkp1.u2, zkp1.u3) ≠ (zkp.u1, zkp.u2, zkp.u3))
    (hrep : ∀ i, (Verify.checks E zkp1 params rx ry w i).isSome = true) :
    E.challenge (params.paillierPubKey.N + 1) E.G w zkp1.z zkp1.u1 zkp1.u2 zkp1.u3 ≠ zkp1.e ∧
    VerifyReturns E zkp1 params rx ry w false := by
  have h0 : zkp.e = E.challenge (params.paillierPubKey.N + 1) E.G w zkp1.z zkp.u1 zkp.u2
      zkp.u3 := by
    rw [checks_E] at hE; rw [hz]; simpa using hE
  have h1 : E.challenge (params.paillierPubKey.N + 1) E.G w zkp1.z zkp1.u1 zkp1.u2 zkp1.u3
      ≠ zkp1.e := by
    intro h
    rw [he, h0] at h
    obtain ⟨_, _, _, _, b1, b2, b3⟩ := hcf _ _ _ _ _ _ _ _ _ _ _ _ _ _ h
    exact hne (by rw [b1, b2, b3])
  refine ⟨h1, verifyReturns_false_of E zkp1 params rx ry w hrep ⟨Chan.E, ?_⟩⟩
  rw [checks_E]
  simp only [Option.some.injEq, decide_eq_false_iff_not]
  exact fun h => h1 h.symm

/-- C6, at a concrete input: on secp256k1 with the collision-free digest function
`pairHash`, the tuple `Sample.pairZkp` with `u2` changed from `44` to `45`. -/
theorem challenge_binding_witness :
    (S256.env pairHash).challenge (Sample.params.paillierPubKey.N + 1) (S256.env pairHash).G
        Sample.w ({ Sample.pairZkp with u2 := 45 } : Zkp).z
        ({ Sample.pairZkp with u2 := 45 } : Zkp).u1 ({ Sample.pairZkp with u2 := 45 } : Zkp).u2
        ({ Sample.pairZkp with u2 := 45 } : Zkp).u3
      ≠ ({ Sample.pairZkp with u2 := 45 } : Zkp).e ∧
    VerifyReturns (S256.env pairHash) { Sample.pairZkp with u2 := 45 } Sample.params
      Sample.G2.1 Sample.G2.2 Sample.w false :=
  challenge_binding (S256.env pairHash) (pairHash_collisionFree _ rfl) Sample.pairZkp
    { Sample.pairZkp with u2 := 45 } Sample.params Sample.G2.1 Sample.G2.2 Sample.w
    (by rw [checks_E]; exact congrArg some (decide_eq_true rfl)) rfl rfl
    (fun h => absurd (congrArg (fun t => t.2.1) h) (by decide))
    (checks_report _ _ _ _ _ _ (by decide) (by decide) (by decide) (by decide) (by decide)
      (by decide))

/-! ## C7: tampering with the response `s1` -/

theorem recomputeU2_change_s1 (s1 s1a s2 e g nSquared N w r : Int) (hs : 0 ≤ s1a)
    (h : recomputeU2 s1 s2 e g nSquared N w = some r) :
    (recomputeU2 s1a s2 e g nSquared N w).isSome = true := by
  obtain ⟨x, y, z, _, hy, hz, hn, _⟩ := (recomputeU2_eq_some_iff _ _ _ _ _ _ _ _).1 h
  rw [Option.isSome_iff_exists]
  exact ⟨_, (recomputeU2_eq_some_iff _ _ _ _ _ _ _ _).2
    ⟨_, y, z, ModPowInsecure_nonneg _ _ _ hs, hy, hz, hn, rfl⟩⟩

theorem recomputeU3_change_s1 (s1 s1a s3 e z h1 nTilde h2 r : Int) (hs : 0 ≤ s1a)
    (h : recomputeU3 s1 s3 e z h1 nTilde h2 = some r) :
    (recomputeU3 s1a s3 e z h1 nTilde h2).isSome = true := by
  obtain ⟨x, y, zz, _, hy, hz, hn, _⟩ := (recomputeU3_eq_some_iff _ _ _ _ _ _ _ _).1 h
  rw [Option.isSome_iff_exists]
  exact ⟨_, (recomputeU3_eq_some_iff _ _ _ _ _ _ _ _).2
    ⟨_, y, zz, ModPowInsecure_nonneg _ _ _ hs, hy, hz, hn, rfl⟩⟩

/-- In `Toy.env sampleHash`, `Verify` accepts `Sample.toyZkp` for the point `(2, 0)`
and the ciphertext `Sample.w`. -/
theorem Sample.toyAccepted :
    VerifyReturns (Toy.env sampleHash) Sample.toyZkp Sample.params 2 0 Sample.w true := by
  rw [verifyReturns_true_iff]
  intro i
  cases i <;> decide!

/-- C7. For every proof that `Verify` accepts for a point `(rx, ry)` of the curve
group, the proof that differs only by `s1` replaced with `s1 + 1` is rejected for
the same inputs: `Verify` returns false under every interleaving, the elliptic-curve
check failing because the recomputed point shifts by the base point `G`. The curve
primitives are assumed to implement a group (`CurveGroup`), and `s1 ≥ 0`, the range
in which `PointMul` is a scalar multiplication. -/
theorem tampered_s1_rejected (E : Env) (A : Type) [AddCommGroup A] (cg : CurveGroup E A)
    (zkp : Zkp) (params : PublicParameters) (rx ry w : Int)
    (hmem : cg.Mem (rx, ry)) (hacc : VerifyReturns E zkp params rx ry w true)
    (hs1 : 0 ≤ zkp.s1) :
    Verify.checks E { zkp with s1 := zkp.s1 + 1 } params rx ry w Chan.U1 = some false ∧
    VerifyReturns E { zkp with s1 := zkp.s1 + 1 } params rx ry w false := by
  obtain ⟨a1, a2, a3, _⟩ := (accepted_iff E zkp params rx ry w).1 hacc
  obtain ⟨y, hy⟩ := hmem
  have hs2 : 0 ≤ zkp.s1 + 1 := by omega
  have hU1 : Verify.checks E { zkp with s1 := zkp.s1 + 1 } params rx ry w Chan.U1
      = some false := by
    rw [checks_U1]
    simp only [Option.some.injEq, decide_eq_false_iff_not]
    intro h
    rw [a1, ← hy, ← cg.enc_gen, recomputeU1_group cg _ _ _ hs1,
      recomputeU1_group cg _ _ _ hs2] at h
    have h2 := cg.enc_injective h
    rw [add_smul, one_smul] at h2
    have h3 : cg.gen = 0 := by
      have : cg.gen = (zkp.s1 • cg.gen + cg.gen - zkp.e • y)
          - (zkp.s1 • cg.gen - zkp.e • y) := by abel
      rw [← h2, sub_self] at this
      exact this
    exact cg.gen_ne_zero h3
  refine ⟨hU1, verifyReturns_false_of _ _ _ _ _ _ ?_ ⟨Chan.U1, hU1⟩⟩
  intro i
  cases i
  · rw [checks_U1]; rfl
  · rw [checks_U2]
    simpa using recomputeU2_change_s1 _ (zkp.s1 + 1) _ _ _ _ _ _ _ hs2 a2
  · rw [checks_U3]
    simpa using recomputeU3_change_s1 _ (zkp.s1 + 1) _ _ _ _ _ _ _ hs2 a3
  · rw [checks_E]; rfl

/-- C7, at a concrete input: the accepted proof `Sample.toyZkp` in the cyclic group
of order seven, `s1` changed from `463` to `464`. -/
theorem tampered_s1_rejected_witness :
    Verify.checks (Toy.env sampleHash) { Sample.toyZkp with s1 := Sample.toyZkp.s1 + 1 }
      Sample.params 2 0 Sample.w Chan.U1 = some false ∧
    VerifyReturns (Toy.env sampleHash) { Sample.toyZkp with s1 := Sample.toyZkp.s1 + 1 }
      Sample.params 2 0 Sample.w false :=
  tampered_s1_rejected (Toy.env sampleHash) (ZMod 7) (Toy.group sampleHash) Sample.toyZkp
    Sample.params 2 0 Sample.w ⟨2, rfl⟩ Sample.toyAccepted (by decide)

/-! ## C8: the commitment `u1` -/

/-- The field `u1` of every proof that `Initialization` builds. -/
theorem Initialization_u1 (E : Env) (params : PublicParameters)
    (eta cx cy w r alpha beta rho gamma : Int) (zkp : Zkp)
    (h : Initialization E params eta cx cy w r alpha beta rho gamma = some zkp) :
    zkp.u1 = E.PointMul (if alpha < 0 then alpha + E.S256_P else alpha) (cx, cy) := by
  simp only [Initialization, Option.bind_eq_bind, Option.bind_eq_some] at h
  generalize (if alpha < 0 then alpha + E.S256_P else alpha) = a at h ⊢
  obtain ⟨_, _, _, _, z, _, _, _, _, _, u2, _, _, _, _, _, u3, _, h⟩ := h
  by_cases hd : (E.Sha256Hash (params.paillierPubKey.N + 1) (cx, cy) w z
      (E.PointMul a (cx, cy)) u2 u3).length = 0
  · simp [hd] at h
  · simp only [hd, if_false, Option.bind_eq_some] at h
    obtain ⟨_, _, _, _, h⟩ := h
    injection h with h
    rw [← h]

/-- C8 (counterexample). On secp256k1, for the target point `(cx, cy) = 2 * G` and
the sampled `alpha = 1`, `Initialization` sets `u1 = 2 * G`, which is not
`alpha * G = G`. -/
theorem u1_base_point_multiple_counterexample :
    ∃ zkp, Initialization (S256.env sampleHash) Sample.params 2 Sample.G2.1 Sample.G2.2
        Sample.w 2 1 4 5 6 = some zkp ∧
      zkp.u1 = Sample.G2 ∧
      zkp.u1 ≠ (S256.env sampleHash).PointMul 1 (S256.env sampleHash).G := by
  have hinit : Initialization (S256.env sampleHash) Sample.params 2 Sample.G2.1 Sample.G2.2
      Sample.w 2 1 4 5 6 = some
        { z := 26, u1 := Sample.G2, u2 := 639, u3 := 32, e := 74, s1 := 149, s2 := 16,
          s3 := 376 } := by decide!
  exact ⟨_, hinit, rfl, by decide!⟩

/-- C8 (amended). For every input of `Initialization` and every sampled `alpha`, the
field `u1` of the proof it builds is the scalar multiple of the point `(cx, cy)`
passed to it, by `alpha` (by `alpha + P` when the sampled `alpha` is negative); it
is the multiple `alpha * G` of the base point when `(cx, cy) = G` and `alpha ≥ 0`.
For well-formed inputs the proof is built. -/
theorem u1_multiple_of_argument_point (E : Env) (params : PublicParameters)
    (eta cx cy w r alpha beta rho gamma : Int) :
    (∀ zkp, Initialization E params eta cx cy w r alpha beta rho gamma = some zkp →
      zkp.u1 = E.PointMul (if alpha < 0 then alpha + E.S256_P else alpha) (cx, cy) ∧
      ((cx, cy) = E.G → 0 ≤ alpha → zkp.u1 = E.PointMul alpha E.G)) ∧
    (0 < params.paillierPubKey.N → params.nTilde ≠ 0 → 0 ≤ eta → 0 ≤ alpha → 0 ≤ rho →
      0 ≤ gamma → (∀ g y w z u1 u2 u3, (E.Sha256Hash g y w z u1 u2 u3).length ≠ 0) →
      ∃ zkp, Initialization E params eta cx cy w r alpha beta rho gamma = some zkp ∧
        zkp.u1 = E.PointMul alpha (cx, cy)) := by
  constructor
  · intro zkp h
    have h1 := Initialization_u1 E params eta cx cy w r alpha beta rho gamma zkp h
    refine ⟨h1, fun hG ha => ?_⟩
    have hna : ¬ alpha < 0 := by omega
    rw [h1, hG]; simp [hna]
  · intro hN hT heta halpha hrho hgamma hdig
    exact ⟨_, Initialization_eq E params eta cx cy w r alpha beta rho gamma hN hT heta halpha
      hrho hgamma hdig, rfl⟩

/-- C8 (amended), at a concrete input: secp256k1, the point `2 * G`, `alpha = 1`. -/
theorem u1_multiple_of_argument_point_witness :
    ∃ zkp, Initialization (S256.env sampleHash) Sample.params 2 Sample.G2.1 Sample.G2.2
        Sample.w 2 1 4 5 6 = some zkp ∧
      zkp.u1 = (S256.env sampleHash).PointMul 1 (Sample.G2.1, Sample.G2.2) :=
  (u1_multiple_of_argument_point (S256.env sampleHash) Sample.params 2 Sample.G2.1
    Sample.G2.2 Sample.w 2 1 4 5 6).2 (by decide) (by decide) (by decide) (by decide)
    (by decide) (by decide) sampleHash_length

/-! ## C9: the fields computed by `Initialization` -/

/-- C9. For every input with moduli `N > 0`, `nTilde ≠ 0`, a witness `eta ≥ 0` and
non-empty digests, and every sampled non-negative `alpha`, `rho`, `gamma` (any
`beta`), `Initialization` builds a proof with `z = h1 ^ eta * h2 ^ rho mod nTilde`,
`u2 = (N + 1) ^ alpha * beta ^ N mod N ^ 2`, `u3 = h1 ^ alpha * h2 ^ gamma mod
nTilde`, `s1 = e * eta + alpha` and `s3 = e * rho + gamma` as plain integers, and
`s2 = (r ^ e * beta) mod N`, where `e ≥ 0` is the proof's challenge
`Hash(N + 1, (cx, cy), w, z, u1, u2, u3)`. -/
theorem initialization_fields (E : Env) (params : PublicParameters)
    (eta cx cy w r alpha beta rho gamma : Int)
    (hN : 0 < params.paillierPubKey.N) (hT : params.nTilde ≠ 0) (heta : 0 ≤ eta)
    (halpha : 0 ≤ alpha) (hrho : 0 ≤ rho) (hgamma : 0 ≤ gamma)
    (hdig : ∀ g y w z u1 u2 u3, (E.Sha256Hash g y w z u1 u2 u3).length ≠ 0) :
    ∃ zkp, Initialization E params eta cx cy w r alpha beta rho gamma = some zkp ∧
      zkp.z = (params.h1 ^ eta.toNat * params.h2 ^ rho.toNat) % params.nTilde ∧
      zkp.u2 = ((params.paillierPubKey.N + 1) ^ alpha.toNat
          * beta ^ params.paillierPubKey.N.toNat)
        % (params.paillierPubKey.N * params.paillierPubKey.N) ∧
      zkp.u3 = (params.h1 ^ alpha.toNat * params.h2 ^ gamma.toNat) % params.nTilde ∧
      zkp.s1 = zkp.e * eta + alpha ∧
      zkp.s2 = (r ^ zkp.e.toNat * beta) % params.paillierPubKey.N ∧
      zkp.s3 = zkp.e * rho + gamma ∧
      zkp.e = E.challenge (params.paillierPubKey.N + 1) (cx, cy) w zkp.z zkp.u1 zkp.u2 zkp.u3 ∧
      0 ≤ zkp.e :=
  ⟨_, Initialization_eq E params eta cx cy w r alpha beta rho gamma hN hT heta halpha hrho
    hgamma hdig, rfl, rfl, rfl, rfl, rfl, rfl, rfl, SetBytes_nonneg _⟩

/-- C9, at a concrete input: secp256k1, `eta = 2`, `r = 2`, the base point, and the
sampled values `3, 4, 5, 6`. -/
theorem initialization_fields_witness :
    ∃ zkp, Initialization (S256.env sampleHash) Sample.params 2 (S256.env sampleHash).S256_Gx
        (S256.env sampleHash).S256_Gy Sample.w 2 3 4 5 6 = some zkp ∧
      zkp.s1 = zkp.e * 2 + 3 ∧ zkp.s3 = zkp.e * 5 + 6 :=
  have ⟨zkp, h, _, _, _, h4, _, h6, _⟩ := initialization_fields (S256.env sampleHash)
    Sample.params 2 (S256.env sampleHash).S256_Gx (S256.env sampleHash).S256_Gy Sample.w 2 3 4
    5 6 (by decide) (by decide) (by decide) (by decide) (by decide) (by decide)
    sampleHash_length
  ⟨zkp, h, h4, h6⟩

/-! ## C10: the elliptic-curve check -/

/-- C10. For every proof and every target point `(rx, ry)` of the curve group
(`(rx, ry) = enc y`), `checkU1` reports success if and only if
`u1 = s1 * G - e * (rx, ry)`, the subtraction being computed by multiplying
`(rx, ry)` with the scalar `(-e) mod q` and point-adding; that product is the
inverse `-(e • y)` of `e * (rx, ry)` in the group, and for `s1 ≥ 0` the recomputed
point is `s1 • G - e • y`. -/
theorem checkU1_iff_point_subtraction (E : Env) (A : Type) [AddCommGroup A]
    (cg : CurveGroup E A) (zkp : Zkp) (rx ry nTilde : Int) (y : A)
    (hy : cg.enc y = (rx, ry)) :
    (checkU1 E zkp E.S256_Gx E.S256_Gy rx ry nTilde = true ↔
      zkp.u1 = E.pointAdd (E.PointMul zkp.s1 E.G)
        (E.PointMul ((-zkp.e) % E.S256_N) (rx, ry))) ∧
    E.PointMul ((-zkp.e) % E.S256_N) (rx, ry) = cg.enc (-(zkp.e • y)) ∧
    (0 ≤ zkp.s1 →
      (checkU1 E zkp E.S256_Gx E.S256_Gy rx ry nTilde = true ↔
        zkp.u1 = cg.enc (zkp.s1 • cg.gen - zkp.e • y))) := by
  have hneg : zkp.e * (-1) = -zkp.e := by ring
  refine ⟨?_, ?_, ?_⟩
  · rw [checkU1_eq]
    simp only [recomputeU1, hneg, decide_eq_true_eq, Env.G]
  · rw [← hy, ← hneg]; exact cg.PointMul_neg _ _
  · intro hs1
    rw [checkU1_eq, ← hy]
    have : ((E.S256_Gx, E.S256_Gy) : Point) = cg.enc cg.gen := cg.enc_gen.symm
    rw [this, recomputeU1_group cg _ _ _ hs1]
    simp only [decide_eq_true_eq]

/-- C10, at a concrete input: the proof `Sample.toyZkp` and the point `(2, 0)` in the
cyclic group of order seven. -/
theorem checkU1_iff_point_subtraction_witness :
    (Toy.group sampleHash).enc 2 = (2, 0) ∧
    (checkU1 (Toy.env sampleHash) Sample.toyZkp (Toy.env sampleHash).S256_Gx
        (Toy.env sampleHash).S256_Gy 2 0 Sample.params.nTilde = true ↔
      Sample.toyZkp.u1 = (Toy.env sampleHash).pointAdd
        ((Toy.env sampleHash).PointMul Sample.toyZkp.s1 (Toy.env sampleHash).G)
        ((Toy.env sampleHash).PointMul ((-Sample.toyZkp.e) % (Toy.env sampleHash).S256_N)
          (2, 0))) :=
  ⟨rfl, (checkU1_iff_point_subtraction (Toy.env sampleHash) (ZMod 7) (Toy.group sampleHash)
    Sample.toyZkp 2 0 Sample.params.nTilde 2 rfl).1⟩

/-! ## C19: completeness under the calling convention of the code -/

/-- C19. For public parameters with `N > 0`, `nTilde ≠ 0` and `h1`, `h2` invertible
modulo `nTilde`, every `eta ≥ 0`, `r` invertible modulo `N` and every sampled
`alpha, rho, gamma ≥ 0` (any `beta`; digests being non-empty), the proof built by
`Initialization` with `(cx, cy)` the base point `G` and the ciphertext
`w = (N + 1) ^ eta * r ^ N mod N ^ 2` is accepted by `Verify` called with
`(rx, ry) = eta * G` and the same `w`: the call, made with empty result channels,
returns true under every interleaving. A negative exponent of `ModPowInsecure` is
the power of the modular inverse; the curve primitives are assumed to implement a
group (`CurveGroup`). -/
theorem completeness_calling_convention (E : Env) (A : Type) [AddCommGroup A]
    (cg : CurveGroup E A) (params : PublicParameters) (eta r alpha beta rho gamma w : Int)
    (hN : 0 < params.paillierPubKey.N) (hT : params.nTilde ≠ 0)
    (hh1 : Int.gcd params.h1 params.nTilde = 1) (hh2 : Int.gcd params.h2 params.nTilde = 1)
    (hr : Int.gcd r params.paillierPubKey.N = 1)
    (heta : 0 ≤ eta) (halpha : 0 ≤ alpha) (hrho : 0 ≤ rho) (hgamma : 0 ≤ gamma)
    (hdig : ∀ g y w z u1 u2 u3, (E.Sha256Hash g y w z u1 u2 u3).length ≠ 0)
    (hw : w = ((params.paillierPubKey.N + 1) ^ eta.toNat * r ^ params.paillierPubKey.N.toNat)
      % (params.paillierPubKey.N * params.paillierPubKey.N)) :
    ∃ zkp, Initialization E params eta E.S256_Gx E.S256_Gy w r alpha beta rho gamma = some zkp ∧
      VerifyReturns E zkp params (E.PointMul eta E.G).1 (E.PointMul eta E.G).2 w true :=
  completeness_core E A cg params eta r alpha beta rho gamma w _ _ hN hT hh1 hh2 hr heta halpha
    hrho hgamma hdig rfl hw

/-- C19, at a concrete input: the cyclic group of order seven, `eta = 2`, `r = 2`,
sampled values `3, 4, 5, 6`. -/
theorem completeness_calling_convention_witness :
    ∃ zkp, Initialization (Toy.env sampleHash) Sample.params 2 1 0 Sample.w 2 3 4 5 6
        = some zkp ∧
      VerifyReturns (Toy.env sampleHash) zkp Sample.params 2 0 Sample.w true :=
  completeness_calling_convention (Toy.env sampleHash) (ZMod 7) (Toy.group sampleHash)
    Sample.params 2 2 3 4 5 6 Sample.w (by decide) (by decide) (by decide) (by decide)
    (by decide) (by decide) (by decide) (by decide) (by decide) sampleHash_length (by decide)

/-! ## C11: the sign normalisation of `alpha` -/

/-- For well-formed inputs `Initialization` builds the tuple `closedForm` of the
normalised `alpha` (`alpha + P` when the sampled `alpha` is negative), provided the
normalised value is not negative. -/
theorem Initialization_eq_norm (E : Env) (params : PublicParameters)
    (eta cx cy w r alpha0 beta rho gamma : Int)
    (hN : 0 < params.paillierPubKey.N) (hT : params.nTilde ≠ 0) (heta : 0 ≤ eta)
    (halpha : 0 ≤ (if alpha0 < 0 then alpha0 + E.S256_P else alpha0)) (hrho : 0 ≤ rho)
    (hgamma : 0 ≤ gamma)
    (hdig : ∀ g y w z u1 u2 u3, (E.Sha256Hash g y w z u1 u2 u3).length ≠ 0) :
    Initialization E params eta cx cy w r alpha0 beta rho gamma =
      some (closedForm E params eta cx cy w r
        (if alpha0 < 0 then alpha0 + E.S256_P else alpha0) beta rho gamma) := by
  have hM : params.paillierPubKey.N * params.paillierPubKey.N ≠ 0 := by positivity
  have hN0 : params.paillierPubKey.N ≠ 0 := hN.ne'
  have hs2 : ∀ a b m : Int, a % m * b % m = a * b % m := fun a b m => by
    rw [Int.mul_emod, Int.emod_emod_of_dvd _ (dvd_refl _), ← Int.mul_emod]
  have hs3 : ∀ a b m : Int, a * (b % m) % m = a * b % m := fun a b m => by
    rw [Int.mul_emod, Int.emod_emod_of_dvd _ (dvd_refl _), ← Int.mul_emod]
  simp only [Initialization]
  generalize (if alpha0 < 0 then alpha0 + E.S256_P else alpha0) = a at halpha ⊢
  simp only [ModPowInsecure_nonneg _ _ _ heta, ModPowInsecure_nonneg _ _ _ hrho,
    ModPowInsecure_nonneg _ _ _ halpha, ModPowInsecure_nonneg _ _ _ hgamma,
    ModPowInsecure_nonneg _ _ _ hN.le, ModPowInsecure_nonneg _ _ _ (SetBytes_nonneg _),
    bigMod, hM, hT, hN0, hdig, if_false, Option.bind_eq_bind, Option.some_bind,
    Option.pure_def, Env.challenge, closedForm, hs2, hs3]

/-- C11 (counterexample). On secp256k1, for the sampled `alpha = -1` (and `eta = 2`,
the base point, the sample parameters), `Initialization` builds a proof whose `s1`
is `e * eta + (alpha + P)`, not `e * eta + alpha`: `s1` is computed from the
normalised value. -/
theorem sign_fixup_only_u1_counterexample :
    ∃ zkp, Initialization (S256.env sampleHash) Sample.params 2 (S256.env sampleHash).S256_Gx
        (S256.env sampleHash).S256_Gy Sample.w 2 (-1) 4 5 6 = some zkp ∧
      zkp.s1 ≠ zkp.e * 2 + (-1) ∧
      zkp.s1 = zkp.e * 2 + (-1 + (S256.env sampleHash).S256_P) := by
  have h := Initialization_eq_norm (S256.env sampleHash) Sample.params 2
    (S256.env sampleHash).S256_Gx (S256.env sampleHash).S256_Gy Sample.w 2 (-1) 4 5 6
    (by decide) (by decide) (by decide) (by decide) (by decide) (by decide) sampleHash_length
  refine ⟨_, h, ?_, ?_⟩
  · simp only [closedForm]
    have hP : (0 : Int) < (S256.env sampleHash).S256_P := by decide
    have hlt : ((-1 : Int) < 0) := by decide
    simp only [hlt, if_true]
    omega
  · simp only [closedForm]
    have hlt : ((-1 : Int) < 0) := by decide
    simp only [hlt, if_true]

/-- C11 (amended). When the sampled `alpha` is negative and not below `-P` (`P` the
field prime of the curve), `Initialization` replaces `alpha` by `alpha + P`, a value
of `[0, P)`, and every later use sees the replaced value: for well-formed inputs
the proof is built with `u1 = (alpha + P) * (cx, cy)`,
`u2 = (N + 1) ^ (alpha + P) * beta ^ N mod N ^ 2`,
`u3 = h1 ^ (alpha + P) * h2 ^ gamma mod nTilde` and `s1 = e * eta + (alpha + P)`. -/
theorem sign_fixup_in_place (E : Env) (params : PublicParameters)
    (eta cx cy w r alpha0 beta rho gamma : Int)
    (hN : 0 < params.paillierPubKey.N) (hT : params.nTilde ≠ 0) (heta : 0 ≤ eta)
    (hneg : alpha0 < 0) (hlow : -E.S256_P ≤ alpha0) (hrho : 0 ≤ rho) (hgamma : 0 ≤ gamma)
    (hdig : ∀ g y w z u1 u2 u3, (E.Sha256Hash g y w z u1 u2 u3).length ≠ 0) :
    0 ≤ alpha0 + E.S256_P ∧ alpha0 + E.S256_P < E.S256_P ∧
    ∃ zkp, Initialization E params eta cx cy w r alpha0 beta rho gamma = some zkp ∧
      zkp.u1 = E.PointMul (alpha0 + E.S256_P) (cx, cy) ∧
      zkp.u2 = ((params.paillierPubKey.N + 1) ^ (alpha0 + E.S256_P).toNat
          * beta ^ params.paillierPubKey.N.toNat)
        % (params.paillierPubKey.N * params.paillierPubKey.N) ∧
      zkp.u3 = (params.h1 ^ (alpha0 + E.S256_P).toNat * params.h2 ^ gamma.toNat)
        % params.nTilde ∧
      zkp.s1 = zkp.e * eta + (alpha0 + E.S256_P) := by
  have h0 : 0 ≤ alpha0 + E.S256_P := by omega
  have hif : (if alpha0 < 0 then alpha0 + E.S256_P else alpha0) = alpha0 + E.S256_P := by
    simp [hneg]
  have h := Initialization_eq_norm E params eta cx cy w r alpha0 beta rho gamma hN hT heta
    (by rw [hif]; exact h0) hrho hgamma hdig
  rw [hif] at h
  exact ⟨h0, by omega, _, h, rfl, rfl, rfl, rfl⟩

/-- C11 (amended), at a concrete input: secp256k1, the sampled `alpha = -1`. -/
theorem sign_fixup_in_place_witness :
    ∃ zkp, Initialization (S256.env sampleHash) Sample.params 2 (S256.env sampleHash).S256_Gx
        (S256.env sampleHash).S256_Gy Sample.w 2 (-1) 4 5 6 = some zkp ∧
      zkp.s1 = zkp.e * 2 + (-1 + (S256.env sampleHash).S256_P) :=
  have ⟨_, _, zkp, h, _, _, _, h4⟩ := sign_fixup_in_place (S256.env sampleHash) Sample.params 2
    (S256.env sampleHash).S256_Gx (S256.env sampleHash).S256_Gy Sample.w 2 (-1) 4 5 6
    (by decide) (by decide) (by decide) (by decide) (by decide) (by decide) (by decide)
    sampleHash_length
  ⟨zkp, h, h4⟩

/-! ## C12: malformed input -/

theorem ModInverse_add_mul (w k m : Int) : ModInverse (w + k * m) m = ModInverse w m := by
  unfold ModInverse
  rw [Int.add_mul_emod_self]

/-- The modular power sees its base only through the residue modulo the modulus. -/
theorem ModPowInsecure_add_mul (w k x m : Int) :
    ModPowInsecure (w + k * m) x m = ModPowInsecure w x m := by
  unfold ModPowInsecure
  by_cases hx : 0 ≤ x
  · simp only [hx, if_true, bigExp]
    congr 1
    have h : w + k * m ≡ w [ZMOD m] := by
      have : (w + k * m) % m = w % m := Int.add_mul_emod_self
      exact this
    exact h.pow _
  · simp only [hx, if_false, ModInverse_add_mul]

theorem recomputeU2_add_mul (s1 s2 e g nSquared N w k : Int) :
    recomputeU2 s1 s2 e g nSquared N (w + k * nSquared) = recomputeU2 s1 s2 e g nSquared N w := by
  simp only [recomputeU2, ModPowInsecure_add_mul]

/-- On secp256k1 with `sampleHash`, `Verify` accepts `Sample.zkpShifted` for the point
`2 * G` and the ciphertext `Sample.w + 35 * 35`. -/
theorem Sample.acceptedShifted :
    VerifyReturns (S256.env sampleHash) Sample.zkpShifted Sample.params Sample.G2.1
      Sample.G2.2 (Sample.w + 35 * 35) true := by
  rw [verifyReturns_true_iff]
  intro i
  cases i <;> decide!

/-- C12 (counterexample). On secp256k1 with parameters `N = 35`, `Verify` accepts
the proof `Sample.zkpShifted`, built by `Initialization` for the base point and the
ciphertext `w = Sample.w + N ^ 2 = 1278`, when called with that `w`, which lies
outside `[0, N ^ 2) = [0, 1225)`. -/
theorem malformed_ciphertext_rejected_counterexample :
    Initialization (S256.env sampleHash) Sample.params 2 (S256.env sampleHash).S256_Gx
      (S256.env sampleHash).S256_Gy (Sample.w + 35 * 35) 2 3 4 5 6 = some Sample.zkpShifted ∧
    ¬ (0 ≤ Sample.w + 35 * 35 ∧ Sample.w + 35 * 35
      < Sample.params.paillierPubKey.N * Sample.params.paillierPubKey.N) ∧
    VerifyReturns (S256.env sampleHash) Sample.zkpShifted Sample.params Sample.G2.1
      Sample.G2.2 (Sample.w + 35 * 35) true := by
  exact ⟨by decide!, by decide, Sample.acceptedShifted⟩

/-- C12 (amended). `Verify` does not validate its inputs: it accepts exactly when
its four checks pass, and neither the range of `w` nor the membership of `(rx, ry)`
in the curve enters them. The three algebraic checks see `w` only through its
residue modulo `N ^ 2` (`checkU2`) or not at all (`checkU1`, `checkU3`): they are
unchanged when `w` is replaced by `w + k * N ^ 2`. -/
theorem verify_without_input_validation (E : Env) (zkp : Zkp) (params : PublicParameters)
    (rx ry w k : Int) :
    (VerifyReturns E zkp params rx ry w true ↔
      zkp.u1 = recomputeU1 E zkp.s1 zkp.e E.G (rx, ry) ∧
      recomputeU2 zkp.s1 zkp.s2 zkp.e (params.paillierPubKey.N + 1)
          (params.paillierPubKey.N * params.paillierPubKey.N) params.paillierPubKey.N w
        = some zkp.u2 ∧
      recomputeU3 zkp.s1 zkp.s3 zkp.e zkp.z params.h1 params.nTilde params.h2 = some zkp.u3 ∧
      zkp.e = E.challenge (params.paillierPubKey.N + 1) E.G w zkp.z zkp.u1 zkp.u2 zkp.u3) ∧
    Verify.checks E zkp params rx ry
        (w + k * (params.paillierPubKey.N * params.paillierPubKey.N)) Chan.U1
      = Verify.checks E zkp params rx ry w Chan.U1 ∧
    Verify.checks E zkp params rx ry
        (w + k * (params.paillierPubKey.N * params.paillierPubKey.N)) Chan.U2
      = Verify.checks E zkp params rx ry w Chan.U2 ∧
    Verify.checks E zkp params rx ry
        (w + k * (params.paillierPubKey.N * params.paillierPubKey.N)) Chan.U3
      = Verify.checks E zkp params rx ry w Chan.U3 := by
  refine ⟨accepted_iff E zkp params rx ry w, ?_, ?_, ?_⟩
  · rw [checks_U1, checks_U1]
  · rw [checks_U2, checks_U2, recomputeU2_add_mul]
  · rw [checks_U3, checks_U3]

/-! ## C13: totality of `Verify` -/

theorem Verify_start_eq (E : Env) (zkp : Zkp) (params : PublicParameters) (rx ry w : Int)
    (chans : Chan → Option Bool) (c : Chan → Bool)
    (h : ∀ i, Verify.checks E zkp params rx ry w i = some (c i)) :
    Verify.start E zkp params rx ry w chans
      = ⟨chans, fun i => some (some (c i)), 4, none, false⟩ := by
  simp only [Verify.start, VState.mk.injEq, and_true, true_and]
  funext i; rw [h i]

/-- The checks of `Sample.zkp` with `s2` changed to `2`: only `checkU2` fails. -/
theorem Sample.checks_s2 (i : Chan) :
    Verify.checks (S256.env sampleHash) { Sample.zkp with s2 := 2 } Sample.params Sample.G2.1
      Sample.G2.2 Sample.w i = some (if i = Chan.U2 then false else true) := by
  cases i
  · have h := (verifyReturns_true_iff _ _ _ _ _ _).1 Sample.accepted Chan.U1
    rw [checks_U1] at h ⊢
    exact h
  · decide!
  · decide!
  · decide!

/-- The checks of `Sample.zkp` with `u2` changed to `45`: `checkU2` and `checkE` fail. -/
theorem Sample.checks_u2 (i : Chan) :
    Verify.checks (S256.env sampleHash) { Sample.zkp with u2 := 45 } Sample.params Sample.G2.1
      Sample.G2.2 Sample.w i
      = some (if i = Chan.U2 ∨ i = Chan.E then false else true) := by
  cases i
  · have h := (verifyReturns_true_iff _ _ _ _ _ _).1 Sample.accepted Chan.U1
    rw [checks_U1] at h ⊢
    exact h
  · decide!
  · decide!
  · decide!

/-- C15 (the code at the failing input). On secp256k1, a first call of `Verify` on
`Sample.zkp` with `s2` changed to `2` returns false after its four goroutines have
sent, leaving the values `true` of `checkU1`, `checkU3` and `checkE` in the shared
channels. A second call, on `Sample.zkp` with `u2` changed to `45` (its own
`checkU2` and `checkE` fail, and made first it returns false), started with the
channels as the first call left them, has a run that returns true. -/
theorem verify_after_rejected_call_differs :
    ∃ sched1 s1,
      Verify (S256.env sampleHash) { Sample.zkp with s2 := 2 } Sample.params Sample.G2.1
        Sample.G2.2 Sample.w emptyChans sched1 = some s1 ∧
      s1.ret = some false ∧ (∀ i, s1.gor i = none) ∧
      VerifyReturns (S256.env sampleHash) { Sample.zkp with u2 := 45 } Sample.params
        Sample.G2.1 Sample.G2.2 Sample.w false ∧
      ∃ sched2 s2,
        Verify (S256.env sampleHash) { Sample.zkp with u2 := 45 } Sample.params Sample.G2.1
          Sample.G2.2 Sample.w s1.chans sched2 = some s2 ∧
        s2.ret = some true := by
  refine ⟨[Event.run Chan.U1, Event.run Chan.U2, Event.run Chan.U3, Event.run Chan.E,
    Event.recv Chan.U2], ?_⟩
  simp only [Verify, Verify_start_eq _ _ _ _ _ _ _ _ Sample.checks_s2]
  refine ⟨_, rfl, rfl, ?_, ?_, ?_⟩
  · intro i; cases i <;> rfl
  · have := verifyReturns_of_checks _ _ _ _ _ _ _ Sample.checks_u2
    simpa using this
  · refine ⟨[Event.recv Chan.U1, Event.recv Chan.U3, Event.recv Chan.E, Event.run Chan.U1,
      Event.recv Chan.U1], ?_⟩
    simp only [Verify_start_eq _ _ _ _ _ _ _ _ Sample.checks_u2]
    exact ⟨_, rfl, rfl⟩

/-! ## C16: concurrent calls on valid proofs -/

theorem sum_map_set (f : Call → Nat) : ∀ (l : List Call) (k : Nat) (c c1 : Call),
    l[k]? = some c → ((l.set k c1).map f).sum + f c = (l.map f).sum + f c1 := by
  intro l
  induction l with
  | nil => intro k c c1 h; simp at h
  | cons a t ih =>
    intro k c c1 h
    cases k with
    | zero =>
      simp only [List.getElem?_cons_zero, Option.some.injEq] at h
      subst h
      simp only [List.set_cons_zero, List.map_cons, List.sum_cons]; omega
    | succ k =>
      simp only [List.getElem?_cons_succ] at h
      have := ih k c c1 h
      simp only [List.set_cons_succ, List.map_cons, List.sum_cons]; omega

theorem exists_pos_of_sum_pos (f : Call → Nat) : ∀ (l : List Call),
    0 < (l.map f).sum → ∃ c ∈ l, 0 < f c := by
  intro l
  induction l with
  | nil => intro h; simp at h
  | cons a t ih =>
    intro h
    simp only [List.map_cons, List.sum_cons] at h
    by_cases ha : 0 < f a
    · exact ⟨a, List.mem_cons_self _ _, ha⟩
    · obtain ⟨c, hc, hpos⟩ := ih (by omega)
      exact ⟨c, List.mem_cons_of_mem _ hc, hpos⟩

theorem le_sum_of_mem (f : Call → Nat) : ∀ (l : List Call) (c : Call), c ∈ l →
    f c ≤ (l.map f).sum := by
  intro l
  induction l with
  | nil => intro c h; simp at h
  | cons a t ih =>
    intro c h
    simp only [List.map_cons, List.sum_cons]
    rcases List.mem_cons.1 h with h1 | h1
    · subst h1; omega
    · have := ih c h1; omega

theorem pend_update (g : Chan → Option (Option Bool)) (i : Chan) (hg : g i ≠ none)
    (ck : Chan → Option Bool) (st : Bool) (v : Int) (r : Option Bool) :
    pend ⟨ck, st, Function.update g i none, v, r⟩ + 1 = pend ⟨ck, st, g, v, r⟩ := by
  cases i <;> simp [pend, Function.update_apply, hg] <;> omega

theorem buffered_put (ch : Chan → Option Bool) (i : Chan) (b : Bool) (hc : ch i = none) :
    buffered (Function.update ch i (some b)) = buffered ch + 1 := by
  cases i <;> simp [buffered, Function.update_apply, hc] <;> omega

theorem buffered_take (ch : Chan → Option Bool) (i : Chan) (hc : ch i ≠ none) :
    buffered (Function.update ch i none) + 1 = buffered ch := by
  cases i <;> simp [buffered, Function.update_apply, hc] <;> omega

theorem buffered_pos (ch : Chan → Option Bool) (h : 0 < buffered ch) : ∃ i, ch i ≠ none := by
  by_contra hn
  push_neg at hn
  simp [buffered, hn] at h

theorem pend_pos (c : Call) (h : 0 < pend c) : ∃ i, c.gor i ≠ none := by
  by_contra hn
  push_neg at hn
  simp [pend, hn] at h

/-- What a step `ev` of a call does to its own state and to the channels, when
only `true` is buffered and its unfinished goroutines all send `true`. -/
theorem step_valid (ch : Chan → Option Bool) (g : Chan → Option (Option Bool)) (v : Int)
    (r : Option Bool) (ev : Event) (s : VState)
    (hch : ∀ i, ch i = none ∨ ch i = some true)
    (hg : ∀ i, g i = none ∨ g i = some (some true))
    (h : step ⟨ch, g, v, r, false⟩ ev = some s) :
    (∃ i, ev = Event.run i ∧ g i = some (some true) ∧ ch i = none ∧
      s = ⟨Function.update ch i (some true), Function.update g i none, v, r, false⟩) ∨
    (∃ i, ev = Event.recv i ∧ r = none ∧ ch i = some true ∧
      s = ⟨Function.update ch i none, g, v - 1, if v - 1 = 0 then some true else none,
        false⟩) := by
  cases ev with
  | run i =>
    left
    simp only [step] at h
    rcases hg i with h1 | h1
    · simp [h1] at h
    · rcases hch i with h2 | h2
      · simp [h1, h2] at h
        exact ⟨i, rfl, h1, h2, h.symm⟩
      · simp [h1, h2] at h
  | recv i =>
    right
    simp only [step] at h
    cases r with
    | some b => simp at h
    | none =>
      rcases hch i with h2 | h2
      · simp [h2] at h
      · simp only [h2] at h
        by_cases hv : v - 1 = 0
        · simp [hv] at h
          exact ⟨i, rfl, rfl, h2, by simp [hv, ← h]⟩
        · simp [hv] at h
          exact ⟨i, rfl, rfl, h2, by simp [hv, ← h]⟩

theorem minv_step (s s1 : MState) (ev : MEvent) (hI : MInv s) (h : mstep s ev = some s1) :
    MInv s1 := by
  obtain ⟨ch, calls, cr⟩ := s
  obtain ⟨hcr, hch, hcalls, hsum⟩ := hI
  simp only at hcr hch hcalls hsum
  subst hcr
  cases ev with
  | call k =>
    simp only [mstep] at h
    cases hk : calls[k]? with
    | none => simp [hk] at h
    | some c =>
      simp only [hk] at h
      by_cases hst : c.started = true
      · simp [hst] at h
      · have hst0 : c.started = false := by simpa using hst
        simp [hst0] at h
        subst h
        have hc := hcalls c (List.getElem?_mem hk)
        obtain ⟨c1, c2, c3, c4⟩ := hc
        have hbeg : CallInv c.begin := by
          refine ⟨c1, ?_, ?_, ?_⟩
          · intro i; right; simp [Call.begin, c1 i]
          · intro hf; simp [Call.begin] at hf
          · intro _; left
            exact ⟨by simpa [Call.begin] using (c3 hst0).2, by simp [Call.begin]⟩
        refine ⟨rfl, hch, ?_, ?_⟩
        · intro c5 hc5
          rcases List.mem_or_eq_of_mem_set hc5 with h5 | h5
          · exact hcalls c5 h5
          · rw [h5]; exact hbeg
        · have e1 := sum_map_set pend calls k c c.begin hk
          have e2 := sum_map_set demand calls k c c.begin hk
          have p0 : pend c = 0 := by simp [pend, (c3 hst0).1]
          have p1 : pend c.begin = 4 := by simp [pend, Call.begin]
          have d0 : demand c = 0 := by simp [demand, hst0]
          have d1 : demand c.begin = 4 := by simp [demand, Call.begin]
          simp only
          omega
  | act k ev =>
    simp only [mstep] at h
    cases hk : calls[k]? with
    | none => simp [hk] at h
    | some c =>
      simp only [hk] at h
      by_cases hst : c.started = true
      · simp only [hst, if_true] at h
        cases hs : step ⟨ch, c.gor, c.valueCheckPassed, c.ret, false⟩ ev with
        | none => simp [hs] at h
        | some s2 =>
          simp only [hs, Option.some.injEq] at h
          subst h
          obtain ⟨c1, c2, c3, c4⟩ := hcalls c (List.getElem?_mem hk)
          have e1 := sum_map_set pend calls k c (c.after s2) hk
          have e2 := sum_map_set demand calls k c (c.after s2) hk
          rcases step_valid ch c.gor c.valueCheckPassed c.ret ev s2 hch c2 hs with
            ⟨i, _, hgi, hci, hs2⟩ | ⟨i, _, hr, hci, hs2⟩
          · subst hs2
            have haft : CallInv (c.after ⟨Function.update ch i (some true),
                Function.update c.gor i none, c.valueCheckPassed, c.ret, false⟩) := by
              refine ⟨c1, ?_, ?_, ?_⟩
              · intro j
                by_cases hj : j = i
                · subst hj; left; simp [Call.after]
                · simpa [Call.after, Function.update_apply, hj] using c2 j
              · intro hf; simp [Call.after, hst] at hf
              · intro _; simpa [Call.after] using c4 hst
            refine ⟨rfl, ?_, ?_, ?_⟩
            · intro j
              by_cases hj : j = i
              · subst hj; right; simp
              · simpa [Function.update_apply, hj] using hch j
            · intro c5 hc5
              rcases List.mem_or_eq_of_mem_set hc5 with h5 | h5
              · exact hcalls c5 h5
              · rw [h5]; exact haft
            · have p1 : pend (c.after ⟨Function.update ch i (some true),
                  Function.update c.gor i none, c.valueCheckPassed, c.ret, false⟩) + 1
                  = pend c :=
                pend_update c.gor i (by simp [hgi]) c.checks c.started c.valueCheckPassed c.ret
              have b1 := buffered_put ch i true hci
              have d1 : demand (c.after ⟨Function.update ch i (some true),
                  Function.update c.gor i none, c.valueCheckPassed, c.ret, false⟩)
                  = demand c := by simp [demand, Call.after]
              simp only
              omega
          · subst hs2
            rcases c4 hst with ⟨_, hpos⟩ | ⟨hrt, _⟩
            · have haft : CallInv (c.after ⟨Function.update ch i none, c.gor,
                  c.valueCheckPassed - 1,
                  if c.valueCheckPassed - 1 = 0 then some true else none, false⟩) := by
                refine ⟨c1, c2, ?_, ?_⟩
                · intro hf; simp [Call.after, hst] at hf
                · intro _
                  by_cases hv : c.valueCheckPassed - 1 = 0
                  · right; simp [Call.after, hv]
                  · left; simp only [Call.after, hv, if_false, true_and]; omega
              refine ⟨rfl, ?_, ?_, ?_⟩
              · intro j
                by_cases hj : j = i
                · subst hj; left; simp
                · simpa [Function.update_apply, hj] using hch j
              · intro c5 hc5
                rcases List.mem_or_eq_of_mem_set hc5 with h5 | h5
                · exact hcalls c5 h5
                · rw [h5]; exact haft
              · have b1 := buffered_take ch i (by simp [hci])
                have p1 : pend (c.after ⟨Function.update ch i none, c.gor,
                    c.valueCheckPassed - 1,
                    if c.valueCheckPassed - 1 = 0 then some true else none, false⟩)
                    = pend c := by simp [pend, Call.after]
                have d1 : demand (c.after ⟨Function.update ch i none, c.gor,
                    c.valueCheckPassed - 1,
                    if c.valueCheckPassed - 1 = 0 then some true else none, false⟩) + 1
                    = demand c := by
                  simp only [demand, Call.after, hst, if_true]; omega
                simp only
                omega
            · rw [hrt] at hr; simp at hr
      · simp [hst] at h

theorem minv_exec (sched : List MEvent) : ∀ (s0 s : MState), MInv s0 →
    mexec s0 sched = some s → MInv s := by
  induction sched with
  | nil => intro s0 s hI h; simp [mexec] at h; subst h; exact hI
  | cons ev rest ih =>
    intro s0 s hI h
    simp only [mexec] at h
    cases hs : mstep s0 ev with
    | none => simp [hs] at h
    | some s1 =>
      simp [hs] at h
      exact ih s1 s (minv_step s0 s1 ev hI hs) h

theorem work_eq (ch : Chan → Option Bool) (g : Chan → Option (Option Bool)) (v : Int)
    (r : Option Bool) (cr : Bool) (ck : Chan → Option Bool) (st : Bool) (v1 : Int)
    (r1 : Option Bool) :
    work ⟨ch, g, v, r, cr⟩ = 2 * pend ⟨ck, st, g, v1, r1⟩ + buffered ch := by
  simp only [work, pend, buffered]
  split_ifs <;> omega

/-- Every step of concurrent calls uses up one unit of work. -/
theorem mwork_step (s s1 : MState) (ev : MEvent) (h : mstep s ev = some s1) :
    buffered s1.chans + (s1.calls.map weight).sum + 1
      ≤ buffered s.chans + (s.calls.map weight).sum := by
  obtain ⟨ch, calls, cr⟩ := s
  cases ev with
  | call k =>
    simp only [mstep] at h
    cases hk : calls[k]? with
    | none => simp [hk] at h
    | some c =>
      simp only [hk] at h
      by_cases hc : (cr || c.started) = true
      · simp [hc] at h
      · have hst : c.started = false := by
          cases hs : c.started
          · rfl
          · simp [hs] at hc
        have hcr : cr = false := by
          cases hs : cr
          · rfl
          · simp [hs] at hc
        simp only [hst, hcr, Bool.or_self, Bool.false_eq_true, if_false,
          Option.some.injEq] at h
        subst h
        have e1 := sum_map_set weight calls k c c.begin hk
        have w0 : weight c = 9 := by simp [weight, hst]
        have w1 : weight c.begin = 8 := by simp [weight, pend, Call.begin]
        simp only
        omega
  | act k ev =>
    simp only [mstep] at h
    cases hk : calls[k]? with
    | none => simp [hk] at h
    | some c =>
      simp only [hk] at h
      by_cases hst : c.started = true
      · simp only [hst, if_true] at h
        cases hs : step ⟨ch, c.gor, c.valueCheckPassed, c.ret, cr⟩ ev with
        | none => simp [hs] at h
        | some s2 =>
          simp only [hs, Option.some.injEq] at h
          subst h
          obtain ⟨ch2, g2, v2, r2, cr2⟩ := s2
          have hw := work_step _ _ _ hs
          have e1 := sum_map_set weight calls k c (c.after ⟨ch2, g2, v2, r2, cr2⟩) hk
          have w0 : weight c = 2 * pend c := by simp [weight, hst]
          have w1 : weight (c.after ⟨ch2, g2, v2, r2, cr2⟩)
              = 2 * pend (c.after ⟨ch2, g2, v2, r2, cr2⟩) := by
            simp [weight, Call.after, hst]
          have q0 := work_eq ch c.gor c.valueCheckPassed c.ret cr c.checks c.started
            c.valueCheckPassed c.ret
          have q1 := work_eq ch2 g2 v2 r2 cr2 c.checks c.started v2 r2
          have q2 : pend (c.after ⟨ch2, g2, v2, r2, cr2⟩)
              = pend ⟨c.checks, c.started, g2, v2, r2⟩ := rfl
          have q3 : pend c
              = pend ⟨c.checks, c.started, c.gor, c.valueCheckPassed, c.ret⟩ := rfl
          simp only
          omega
      · simp [hst] at h

theorem mwork_exec (sched : List MEvent) : ∀ (s0 s : MState), mexec s0 sched = some s →
    buffered s.chans + (s.calls.map weight).sum + sched.length
      ≤ buffered s0.chans + (s0.calls.map weight).sum := by
  induction sched with
  | nil => intro s0 s h; simp [mexec] at h; subst h; simp
  | cons ev rest ih =>
    intro s0 s h
    simp only [mexec] at h
    cases hs : mstep s0 ev with
    | none => simp [hs] at h
    | some s1 =>
      simp [hs] at h
      have h1 := mwork_step s0 s1 ev hs
      have h2 := ih s1 s h
      simp only [List.length_cons]; omega

theorem minv_progress (s : MState) (hI : MInv s) (c : Call) (hc : c ∈ s.calls)
    (hr : c.ret ≠ some true) : ∃ ev, (mstep s ev).isSome = true := by
  obtain ⟨hcr, hch, hcalls, hsum⟩ := hI
  obtain ⟨k, hk⟩ := List.mem_iff_getElem?.1 hc
  obtain ⟨_, _, c3, c4⟩ := hcalls c hc
  by_cases hst : c.started = true
  · rcases c4 hst with ⟨hrn, hpos⟩ | ⟨hrt, _⟩
    · have hd : 0 < demand c := by simp only [demand, hst, if_true]; omega
      have hD := le_sum_of_mem demand s.calls c hc
      by_cases hb : 0 < buffered s.chans
      · obtain ⟨i, hi⟩ := buffered_pos s.chans hb
        have hi1 : s.chans i = some true := by
          rcases hch i with h1 | h1
          · exact absurd h1 hi
          · exact h1
        refine ⟨MEvent.act k (Event.recv i), ?_⟩
        simp only [mstep, hk, hst, if_true, step, hcr, hrn, hi1]
        by_cases hv : c.valueCheckPassed - 1 = 0 <;> simp [hv]
      · have hP : 0 < (s.calls.map pend).sum := by omega
        obtain ⟨c2, hc2, hp2⟩ := exists_pos_of_sum_pos pend s.calls hP
        obtain ⟨i, hi⟩ := pend_pos c2 hp2
        obtain ⟨k2, hk2⟩ := List.mem_iff_getElem?.1 hc2
        obtain ⟨_, d2, d3, _⟩ := hcalls c2 hc2
        have hst2 : c2.started = true := by
          cases hs : c2.started
          · exact absurd ((d3 hs).1 i) hi
          · rfl
        have hg : c2.gor i = some (some true) := by
          rcases d2 i with h1 | h1
          · exact absurd h1 hi
          · exact h1
        have hci : s.chans i = none := by
          by_contra hne
          have : 0 < buffered s.chans := by
            cases i <;> simp [buffered, hne]
          exact hb this
        refine ⟨MEvent.act k2 (Event.run i), ?_⟩
        simp [mstep, hk2, hst2, step, hcr, hg, hci]
    · exact absurd hrt hr
  · have hst0 : c.started = false := by simpa using hst
    refine ⟨MEvent.call k, ?_⟩
    simp [mstep, hk, hcr, hst0]

/-- C16. For every number of `Verify` calls issued concurrently on the shared result
channels (initially empty), each on a proof that `Verify` accepts for its own
inputs, all calls terminate and each returns true under every interleaving of the
calls and of their check goroutines: every run has at most nine steps per call, no
call ever returns false, and every reachable state either has all calls returned
true or can take a further step. -/
theorem concurrent_valid_calls_return_true (E : Env) (args : List VerifyArgs)
    (hvalid : ∀ a ∈ args, VerifyReturns E a.zkp a.params a.rx a.ry a.w true) :
    AllReturn (concurrentStart E args) true := by
  have hI0 : MInv (concurrentStart E args) := by
    refine ⟨rfl, fun i => Or.inl rfl, ?_, ?_⟩
    · intro c hc
      simp only [concurrentStart, List.mem_map] at hc
      obtain ⟨a, ha, rfl⟩ := hc
      refine ⟨(verifyReturns_true_iff E a.zkp a.params a.rx a.ry a.w).1 (hvalid a ha),
        fun i => Or.inl rfl, fun _ => ⟨fun i => rfl, rfl⟩, fun h => ?_⟩
      simp at h
    · simp only [concurrentStart, List.map_map]
      have h1 : ∀ l : List VerifyArgs, (l.map (pend ∘ fun a =>
          ({ checks := Verify.checks E a.zkp a.params a.rx a.ry a.w, started := false,
             gor := fun _ => none, valueCheckPassed := 0, ret := none } : Call))).sum = 0 := by
        intro l; induction l with
        | nil => rfl
        | cons a t ih => simp [pend, ih]
      have h2 : ∀ l : List VerifyArgs, (l.map (demand ∘ fun a =>
          ({ checks := Verify.checks E a.zkp a.params a.rx a.ry a.w, started := false,
             gor := fun _ => none, valueCheckPassed := 0, ret := none } : Call))).sum = 0 := by
        intro l; induction l with
        | nil => rfl
        | cons a t ih => simp [demand, ih]
      rw [h1, h2]; simp [buffered, emptyChans]
  have hW0 : buffered (concurrentStart E args).chans
      + ((concurrentStart E args).calls.map weight).sum
      = 9 * (concurrentStart E args).calls.length := by
    simp only [concurrentStart, List.map_map, List.length_map]
    have h3 : ∀ l : List VerifyArgs, (l.map (weight ∘ fun a =>
        ({ checks := Verify.checks E a.zkp a.params a.rx a.ry a.w, started := false,
           gor := fun _ => none, valueCheckPassed := 0, ret := none } : Call))).sum
        = 9 * l.length := by
      intro l; induction l with
      | nil => rfl
      | cons a t ih => simp [weight, ih]; omega
    rw [h3]; simp [buffered, emptyChans]
  intro sched s h
  have hI := minv_exec sched _ s hI0 h
  have hw := mwork_exec sched _ s h
  refine ⟨by omega, ?_, ?_⟩
  · intro c hc
    obtain ⟨_, _, c3, c4⟩ := hI.2.2.1 c hc
    cases hst : c.started
    · exact Or.inl (c3 hst).2
    · rcases c4 hst with ⟨h1, _⟩ | ⟨h1, _⟩
      · exact Or.inl h1
      · exact Or.inr h1
  · by_cases hall : ∀ c ∈ s.calls, c.ret = some true
    · exact Or.inl hall
    · push_neg at hall
      obtain ⟨c, hc, hr⟩ := hall
      exact Or.inr (minv_progress s hI c hc hr)

/-- C16, at a concrete input: two concurrent calls on secp256k1, on the accepted
proofs `Sample.zkp` and `Sample.zkpShifted`. -/
theorem concurrent_valid_calls_return_true_witness :
    AllReturn (concurrentStart (S256.env sampleHash)
      [{ zkp := Sample.zkp, params := Sample.params, rx := Sample.G2.1, ry := Sample.G2.2,
         w := Sample.w },
       { zkp := Sample.zkpShifted, params := Sample.params, rx := Sample.G2.1,
         ry := Sample.G2.2, w := Sample.w + 35 * 35 }]) true :=
  concurrent_valid_calls_return_true _ _ (fun a ha => by
    simp only [List.mem_cons, List.mem_singleton, List.not_mem_nil, or_false] at ha
    rcases ha with rfl | rfl
    · exact Sample.accepted
    · exact Sample.acceptedShifted)

/-! ## The prover record -/

/-- A setter call that respects the order preserves commit-then-reveal; one that does not
breaks it. -/
theorem commitThenReveal_call_iff (pi : ProverInfo) (c : SetterCall)
    (h : CommitThenReveal pi) : CommitThenReveal (pi.call c) ↔ c.Ordered pi := by
  obtain ⟨h1, h2, h3⟩ := h
  cases c
  case setOpenEncXiYi v => exact ⟨fun h => h.1, fun h => ⟨h, h2, h3⟩⟩
  case setCmtEncXiYi v => exact ⟨fun h => h.1, fun h => ⟨h, h2, h3⟩⟩
  case setOpenUiVi v => exact ⟨fun h => h.2.1, fun h => ⟨h1, h, h3⟩⟩
  case setCmtUiVi v => exact ⟨fun h => h.2.1, fun h => ⟨h1, h, h3⟩⟩
  case setOpenRiWi v => exact ⟨fun h => h.2.2, fun h => ⟨h1, h2, h⟩⟩
  case setCmtRiWi v => exact ⟨fun h => h.2.2, fun h => ⟨h1, h2, h⟩⟩
  all_goals exact ⟨fun _ => trivial, fun _ => ⟨h1, h2, h3⟩⟩

/-- C14 (counterexample). Nothing in the record orders the setters: `setOpenUiVi` called
on the empty record sets the opening of the round-1 phase while its commitment `cmtUiVi`
is `nil`; and `setCmtUiVi(nil)` after a commitment and an opening takes the commitment
away from under the opening. -/
theorem commit_then_reveal_invariant_counterexample :
    (ProverInfo.empty.calls [SetterCall.setOpenUiVi (some 7)]).openUiVi = some 7 ∧
    (ProverInfo.empty.calls [SetterCall.setOpenUiVi (some 7)]).cmtUiVi = none ∧
    ¬ CommitThenReveal (ProverInfo.empty.calls [SetterCall.setOpenUiVi (some 7)]) ∧
    ¬ CommitThenReveal (ProverInfo.empty.calls [SetterCall.setCmtUiVi (some 3),
        SetterCall.setOpenUiVi (some 7), SetterCall.setCmtUiVi none]) := by
  decide

/-- C14 (amended). The setters assign unconditionally, so the order is the caller's: the
empty record satisfies commit-then-reveal, and so does every record reached from it by a
sequence of setter calls each of which respects the order (an opening is set only when
the commitment of its phase is set, a commitment is not reset to `nil` under a set
opening). -/
theorem commit_then_reveal_of_ordered_calls (cs : List SetterCall)
    (hord : OrderedCalls ProverInfo.empty cs) :
    CommitThenReveal ProverInfo.empty ∧ CommitThenReveal (ProverInfo.empty.calls cs) := by
  have h0 : CommitThenReveal ProverInfo.empty := by decide
  refine ⟨h0, ?_⟩
  have key : ∀ (cs : List SetterCall) (pi : ProverInfo), CommitThenReveal pi →
      OrderedCalls pi cs → CommitThenReveal (pi.calls cs) := by
    intro cs
    induction cs with
    | nil => intro pi h _; exact h
    | cons c cs ih =>
      intro pi h ho
      exact ih (pi.call c) ((commitThenReveal_call_iff pi c h).2 ho.1) ho.2
  exact key cs _ h0 hord

/-- C14 (amended), at a concrete input: the round-1 commitment, then its opening. -/
theorem commit_then_reveal_of_ordered_calls_witness :
    OrderedCalls ProverInfo.empty [SetterCall.setCmtUiVi (some 3), SetterCall.setuI (some 5),
      SetterCall.setOpenUiVi (some 7)] ∧
    CommitThenReveal ProverInfo.empty ∧
    CommitThenReveal (ProverInfo.empty.calls [SetterCall.setCmtUiVi (some 3),
      SetterCall.setuI (some 5), SetterCall.setOpenUiVi (some 7)]) :=
  ⟨by simp [OrderedCalls, SetterCall.Ordered, ProverInfo.call, ProverInfo.setCmtUiVi,
      ProverInfo.setuI, ProverInfo.empty],
   commit_then_reveal_of_ordered_calls _ (by
    simp [OrderedCalls, SetterCall.Ordered, ProverInfo.call, ProverInfo.setCmtUiVi,
      ProverInfo.setuI, ProverInfo.empty])⟩

end kgcenter

/-! # Theorems on the contract events -/

namespace blockchain

/-- A list of logs each of which is skipped (already recorded in `txDone` with its block
number, or lacking fork confirmations) is passed over: nothing is appended and `txDone`
is left as it is. -/
theorem parseLoop_skip (X : Env) (cfg : config) (last : Int) :
    ∀ (logs : List Log) (txDone : Hash → Option Nat) (acc : List ContractStateChange),
      (∀ l ∈ logs, ∃ t ts, l.Topics = t :: ts ∧
        (txDone l.TxHash = some l.BlockNumber ∨
          delayed cfg last (X.topicToEventName t) l = true)) →
      parseLoop X cfg last logs txDone acc =
        some { stateChanges := acc, err := none, txDone := txDone } := by
  intro logs
  induction logs with
  | nil => intro txDone acc _; rfl
  | cons l logs ih =>
    intro txDone acc h
    obtain ⟨t, ts, ht, hl⟩ := h l (List.mem_cons_self _ _)
    have hrest := ih txDone acc (fun a ha => h a (List.mem_cons_of_mem _ ha))
    simp only [parseLoop, ht]
    by_cases hd : txDone l.TxHash = some l.BlockNumber
    · simp only [hd, if_true]
      exact hrest
    · rcases hl with hl | hl
      · exact absurd hl hd
      · simp only [hd, if_false, hl, if_true]
        exact hrest

/-- After a call of the loop that returns without error on a list in which each
transaction is seen in one block, every log of the list is recorded in `txDone` with its
block number or lacks fork confirmations; and an entry of `txDone` that agrees with the
logs of the list is kept. -/
theorem parseLoop_done (X : Env) (cfg : config) (last : Int) :
    ∀ (logs : List Log) (txDone : Hash → Option Nat) (acc : List ContractStateChange)
      (r : ParseResult),
      parseLoop X cfg last logs txDone acc = some r → r.err = none → OneBlockPerTx logs →
      (∀ l ∈ logs, ∃ t ts, l.Topics = t :: ts ∧
        (r.txDone l.TxHash = some l.BlockNumber ∨
          delayed cfg last (X.topicToEventName t) l = true)) ∧
      (∀ h bn, txDone h = some bn → (∀ l ∈ logs, l.TxHash = h → l.BlockNumber = bn) →
        r.txDone h = some bn) := by
  intro logs
  induction logs with
  | nil =>
    intro txDone acc r h _ _
    simp only [parseLoop, Option.some.injEq] at h
    subst h
    exact ⟨fun l hl => absurd hl (List.not_mem_nil l), fun h bn hh _ => hh⟩
  | cons l logs ih =>
    intro txDone acc r h herr hone
    have hone2 : OneBlockPerTx logs := fun a ha b hb =>
      hone a (List.mem_cons_of_mem _ ha) b (List.mem_cons_of_mem _ hb)
    have hsame : ∀ a ∈ logs, a.TxHash = l.TxHash → a.BlockNumber = l.BlockNumber :=
      fun a ha hh => hone a (List.mem_cons_of_mem _ ha) l (List.mem_cons_self _ _) hh
    cases ht : l.Topics with
    | nil => simp [parseLoop, ht] at h
    | cons t ts =>
      simp only [parseLoop, ht] at h
      by_cases hd : txDone l.TxHash = some l.BlockNumber
      · simp only [hd, if_true] at h
        obtain ⟨i1, i2⟩ := ih txDone acc r h herr hone2
        refine ⟨?_, ?_⟩
        · intro a ha
          rcases List.mem_cons.1 ha with rfl | ha
          · exact ⟨t, ts, ht, Or.inl (i2 _ _ hd hsame)⟩
          · exact i1 a ha
        · intro hh bn h1 h2
          exact i2 hh bn h1 (fun a ha => h2 a (List.mem_cons_of_mem _ ha))
      · simp only [hd, if_false] at h
        by_cases hdel : delayed cfg last (X.topicToEventName t) l = true
        · simp only [hdel, if_true] at h
          obtain ⟨i1, i2⟩ := ih txDone acc r h herr hone2
          refine ⟨?_, ?_⟩
          · intro a ha
            rcases List.mem_cons.1 ha with rfl | ha
            · exact ⟨t, ts, ht, Or.inr hdel⟩
            · exact i1 a ha
          · intro hh bn h1 h2
            exact i2 hh bn h1 (fun a ha => h2 a (List.mem_cons_of_mem _ ha))
        · have hdel2 : delayed cfg last (X.topicToEventName t) l = false := by
            simpa using hdel
          simp only [hdel2, Bool.false_eq_true, if_false] at h
          cases hdec : decodeLog X (X.topicToEventName t) l with
          | error e =>
            simp only [hdec, Option.some.injEq] at h
            subst h
            simp at herr
          | ok scs =>
            simp only [hdec] at h
            obtain ⟨i1, i2⟩ := ih _ _ r h herr hone2
            refine ⟨?_, ?_⟩
            · intro a ha
              rcases List.mem_cons.1 ha with rfl | ha
              · exact ⟨t, ts, ht, Or.inl (i2 _ _ (Function.update_same _ _ _) hsame)⟩
              · exact i1 a ha
            · intro hh bn h1 h2
              refine i2 hh bn ?_ (fun a ha => h2 a (List.mem_cons_of_mem _ ha))
              by_cases he : hh = l.TxHash
              · subst he
                rw [Function.update_same, h2 l (List.mem_cons_self _ _) rfl]
              · rw [Function.update_noteq he]
                exact h1

/-- C17. A failing input of `parseLogsToEvents`: two logs of one transaction (same
transaction hash, same block number), passed in one list to a receiver with an empty
`txDone` map and fork confirmation switched off. Both logs carry a known event name, are
not delayed and decode without error to one state change each (the second one, passed
alone, yields its state change); passed together, the second log is taken for a repetition
of the first and yields nothing: the result is the state change of the first log only,
without error. -/
theorem second_log_of_transaction_lost :
    Sample.unlockedLog.TxHash = Sample.closedLog.TxHash ∧
    Sample.unlockedLog.BlockNumber = Sample.closedLog.BlockNumber ∧
    (∀ h, Sample.events.txDone h = none) ∧
    Sample.env.topicToEventName 3 = some EventName.nameChannelClosed ∧
    Sample.env.topicToEventName 4 = some EventName.nameChannelUnlocked ∧
    delayed Sample.events.Config Sample.events.lastBlockNumber
      (some EventName.nameChannelClosed) Sample.closedLog = false ∧
    delayed Sample.events.Config Sample.events.lastBlockNumber
      (some EventName.nameChannelUnlocked) Sample.unlockedLog = false ∧
    (parseLogsToEvents Sample.env Sample.events [Sample.unlockedLog]).map
        (fun r => (r.stateChanges, r.err)) =
      some ([ContractStateChange.unlock
        { ChannelIdentifier := 11, Participant := 21, LockHash := 41,
          TransferAmount := some 5, BlockNumber := 90 }], none) ∧
    (parseLogsToEvents Sample.env Sample.events [Sample.closedLog, Sample.unlockedLog]).map
        (fun r => (r.stateChanges, r.err)) =
      some ([ContractStateChange.closed
        { ChannelIdentifier := 11, ClosingAddress := 21, LocksRoot := 31,
          TransferredAmount := some 5, ClosedBlock := 90 }], none) := by
  refine ⟨rfl, rfl, fun _ => rfl, rfl, rfl, ?_, ?_, ?_, ?_⟩ <;> decide

/-- C20 (counterexample). A list in which transaction 7 is seen in block 90 and in block
91: the first call (empty `txDone`, no error) processes both logs and leaves
`txDone[7] = 91`; the second call on the same list with that map processes both logs
again and returns their two state changes. -/
theorem dedup_idempotent_counterexample :
    ∃ r r2,
      parseLogsToEvents Sample.env Sample.events [Sample.closedLog, Sample.closedLogMoved] =
        some r ∧
      r.err = none ∧ r.txDone 7 = some 91 ∧
      parseLogsToEvents Sample.env (Sample.events.after r)
        [Sample.closedLog, Sample.closedLogMoved] = some r2 ∧
      r2.err = none ∧
      r2.stateChanges =
        [ContractStateChange.closed
          { ChannelIdentifier := 11, ClosingAddress := 21, LocksRoot := 31,
            TransferredAmount := some 5, ClosedBlock := 90 },
         ContractStateChange.closed
          { ChannelIdentifier := 11, ClosingAddress := 21, LocksRoot := 31,
            TransferredAmount := some 5, ClosedBlock := 91 }] :=
  ⟨_, _, rfl, rfl, by decide, rfl, rfl, by decide⟩

/-- C20 (amended). Deduplication is idempotent on a list in which each transaction is
seen in one block: if logs of the list with the same transaction hash carry the same
block number and `parseLogsToEvents` returns without error on the list, then the call on
the same list with the resulting `txDone` map (same configuration and `lastBlockNumber`)
returns no state change and no error and leaves `txDone` as it is. -/
theorem dedup_idempotent_of_one_block_per_tx (X : Env) (be : Events) (logs : List Log)
    (r : ParseResult) (hone : OneBlockPerTx logs)
    (h : parseLogsToEvents X be logs = some r) (herr : r.err = none) :
    parseLogsToEvents X (be.after r) logs =
      some { stateChanges := [], err := none, txDone := r.txDone } := by
  unfold parseLogsToEvents at h ⊢
  exact parseLoop_skip X _ _ logs r.txDone []
    (parseLoop_done X _ _ logs be.txDone [] r h herr hone).1

/-- C20 (amended), at a concrete input: the closing and the unlocking of one channel, in
two transactions. -/
theorem dedup_idempotent_of_one_block_per_tx_witness :
    OneBlockPerTx [Sample.closedLog, { Sample.unlockedLog with TxHash := 8 }] ∧
    ∃ r, parseLogsToEvents Sample.env Sample.events
        [Sample.closedLog, { Sample.unlockedLog with TxHash := 8 }] = some r ∧
      r.err = none ∧ r.stateChanges.length = 2 ∧
      parseLogsToEvents Sample.env (Sample.events.after r)
        [Sample.closedLog, { Sample.unlockedLog with TxHash := 8 }] =
        some { stateChanges := [], err := none, txDone := r.txDone } :=
  ⟨by unfold OneBlockPerTx; decide,
   _, rfl, rfl, by decide,
   dedup_idempotent_of_one_block_per_tx _ _ _ _ (by unfold OneBlockPerTx; decide) rfl rfl⟩

end blockchain

/-! # Further theorems on the contract events -/

namespace blockchain

/-- On byte strings of the same length, `bytes.Compare(a, b) < 0` is the order of the
big-endian values. -/
theorem bytesCompare_lt_iff : ∀ (a b : List Nat), a.length = b.length →
    (∀ x ∈ a, x < 256) → (∀ x ∈ b, x < 256) →
    (bytesCompare a b < 0 ↔ bigEndian a < bigEndian b) := by
  have hbound : ∀ (a : List Nat), (∀ x ∈ a, x < 256) → bigEndian a < 256 ^ a.length := by
    intro a
    induction a with
    | nil => intro _; simp [bigEndian]
    | cons x xs ih =>
      intro h
      have h1 := ih (fun y hy => h y (List.mem_cons_of_mem _ hy))
      have h2 : x < 256 := h x (List.mem_cons_self _ _)
      simp only [bigEndian, List.length_cons, pow_succ]
      nlinarith
  intro a
  induction a with
  | nil =>
    intro b hlen _ _
    cases b with
    | nil => simp [bytesCompare, bigEndian]
    | cons y ys => simp at hlen
  | cons x xs ih =>
    intro b hlen ha hb
    cases b with
    | nil => simp at hlen
    | cons y ys =>
      have hl : xs.length = ys.length := by simpa using hlen
      have hxs := hbound xs (fun z hz => ha z (List.mem_cons_of_mem _ hz))
      have hys := hbound ys (fun z hz => hb z (List.mem_cons_of_mem _ hz))
      have ih2 := ih ys hl (fun z hz => ha z (List.mem_cons_of_mem _ hz))
        (fun z hz => hb z (List.mem_cons_of_mem _ hz))
      simp only [bytesCompare, bigEndian]
      rw [hl] at hxs ⊢
      have hpos : 0 < 256 ^ ys.length := by positivity
      by_cases h1 : x < y
      · simp only [h1, if_true]
        constructor
        · intro _
          have : (x + 1) * 256 ^ ys.length ≤ y * 256 ^ ys.length :=
            Nat.mul_le_mul_right _ h1
          nlinarith
        · intro _; decide
      · by_cases h2 : y < x
        · simp only [h1, h2, if_false, if_true]
          constructor
          · intro h; exact absurd h (by decide)
          · intro h
            have : (y + 1) * 256 ^ ys.length ≤ x * 256 ^ ys.length :=
              Nat.mul_le_mul_right _ h2
            nlinarith
        · have hxy : x = y := by omega
          subst hxy
          simp only [h1, if_false]
          rw [ih2]
          omega

/-- Every state change that the loop returns was there before or comes from a log of the
list that is not delayed and that the `switch` decodes to it. -/
theorem parseLoop_mem (X : Env) (cfg : config) (last : Int) :
    ∀ (logs : List Log) (txDone : Hash → Option Nat) (acc : List ContractStateChange)
      (r : ParseResult),
      parseLoop X cfg last logs txDone acc = some r →
      ∀ sc ∈ r.stateChanges, sc ∈ acc ∨
        ∃ l ∈ logs, ∃ t ts scs, l.Topics = t :: ts ∧
          delayed cfg last (X.topicToEventName t) l = false ∧
          decodeLog X (X.topicToEventName t) l = Except.ok scs ∧ sc ∈ scs := by
  intro logs
  induction logs with
  | nil =>
    intro txDone acc r h sc hsc
    simp only [parseLoop, Option.some.injEq] at h
    subst h
    exact Or.inl hsc
  | cons l logs ih =>
    intro txDone acc r h sc hsc
    have lift : (∃ l2 ∈ logs, ∃ t ts scs, l2.Topics = t :: ts ∧
          delayed cfg last (X.topicToEventName t) l2 = false ∧
          decodeLog X (X.topicToEventName t) l2 = Except.ok scs ∧ sc ∈ scs) →
        ∃ l2 ∈ l :: logs, ∃ t ts scs, l2.Topics = t :: ts ∧
          delayed cfg last (X.topicToEventName t) l2 = false ∧
          decodeLog X (X.topicToEventName t) l2 = Except.ok scs ∧ sc ∈ scs := by
      rintro ⟨l2, hl2, rest⟩
      exact ⟨l2, List.mem_cons_of_mem _ hl2, rest⟩
    cases ht : l.Topics with
    | nil => simp [parseLoop, ht] at h
    | cons t ts =>
      simp only [parseLoop, ht] at h
      by_cases hd : txDone l.TxHash = some l.BlockNumber
      · simp only [hd, if_true] at h
        rcases ih txDone acc r h sc hsc with h1 | h1
        · exact Or.inl h1
        · exact Or.inr (lift h1)
      · simp only [hd, if_false] at h
        by_cases hdel : delayed cfg last (X.topicToEventName t) l = true
        · simp only [hdel, if_true] at h
          rcases ih txDone acc r h sc hsc with h1 | h1
          · exact Or.inl h1
          · exact Or.inr (lift h1)
        · have hdel2 : delayed cfg last (X.topicToEventName t) l = false := by
            simpa using hdel
          simp only [hdel2, Bool.false_eq_true, if_false] at h
          cases hdec : decodeLog X (X.topicToEventName t) l with
          | error e =>
            simp only [hdec, Option.some.injEq] at h
            subst h
            exact Or.inl hsc
          | ok scs =>
            simp only [hdec] at h
            rcases ih _ _ r h sc hsc with h1 | h1
            · rcases List.mem_append.1 h1 with h2 | h2
              · exact Or.inl h2
              · exact Or.inr ⟨l, List.mem_cons_self _ _, t, ts, scs, ht, hdel2, hdec, h2⟩
            · exact Or.inr (lift h1)

/-- The `switch` yields a secret-reveal state change only in the case
`nameSecretRevealed`, from the decoded event. -/
theorem decodeLog_secret (X : Env) (name : Option EventName) (l : Log)
    (scs : List ContractStateChange) (c : ContractSecretRevealOnChainStateChange)
    (h : decodeLog X name l = Except.ok scs)
    (hc : ContractStateChange.secretRevealOnChain c ∈ scs) :
    name = some EventName.nameSecretRevealed ∧
    ∃ e, X.newEventSecretRevealed l = Except.ok e ∧ c = eventSecretRevealed2StateChange X e := by
  cases name with
  | none =>
    simp only [decodeLog, Except.ok.injEq] at h
    subst h
    simp at hc
  | some n =>
    cases n <;> simp only [decodeLog] at h
    case nameChannelOpenedAndDeposit =>
      cases hx : X.newEventChannelOpenAndDeposit l <;> simp only [hx] at h <;> cases h
      simp at hc
    case nameChannelNewDeposit =>
      cases hx : X.newEventChannelNewDeposit l <;> simp only [hx] at h <;> cases h
      simp at hc
    case nameChannelClosed =>
      cases hx : X.newEventChannelClosed l <;> simp only [hx] at h <;> cases h
      simp at hc
    case nameChannelUnlocked =>
      cases hx : X.newEventChannelUnlocked l <;> simp only [hx] at h <;> cases h
      simp at hc
    case nameBalanceProofUpdated =>
      cases hx : X.newEventBalanceProofUpdated l <;> simp only [hx] at h <;> cases h
      simp at hc
    case nameChannelPunished =>
      cases hx : X.newEventChannelPunished l <;> simp only [hx] at h <;> cases h
      simp at hc
    case nameChannelSettled =>
      cases hx : X.newEventChannelSettled l <;> simp only [hx] at h <;> cases h
      simp at hc
    case nameChannelCooperativeSettled =>
      cases hx : X.newEventChannelCooperativeSettled l <;> simp only [hx] at h <;> cases h
      simp at hc
    case nameChannelWithdraw =>
      cases hx : X.newEventChannelWithdraw l <;> simp only [hx] at h <;> cases h
      simp at hc
    case nameSecretRevealed =>
      cases hx : X.newEventSecretRevealed l with
      | error err => simp [hx] at h
      | ok e =>
        simp only [hx, Except.ok.injEq] at h
        subst h
        simp only [List.mem_singleton, ContractStateChange.secretRevealOnChain.injEq] at hc
        exact ⟨rfl, e, rfl, hc⟩

/-- Within the range of block numbers below `2 ^ 63` the `int64` difference of the
confirmation test is the difference of the numbers. -/
theorem wrapInt64_sub (last : Int) (bn : Nat) (h0 : 0 ≤ last) (h1 : last < 2 ^ 63)
    (h2 : bn < 2 ^ 63) : wrapInt64 (last - toInt64 bn) = last - bn := by
  have hb : toInt64 bn = bn := by
    unfold toInt64 wrapInt64
    have : ((bn : Int)) < 2 ^ 63 := by exact_mod_cast h2
    omega
  rw [hb]
  unfold wrapInt64
  have : ((bn : Int)) < 2 ^ 63 := by exact_mod_cast h2
  omega

/-- A log that the fork-confirmation tests delay carries one of the ten event names. -/
theorem delayed_name (cfg : config) (last : Int) (name : Option EventName) (l : Log)
    (h : delayed cfg last name l = true) : name ≠ none := by
  rintro rfl
  simp [delayed, needConfirm] at h

/-- A log with one of the ten event names that decodes without error yields at least one
state change. -/
theorem decodeLog_ne_nil (X : Env) (name : Option EventName) (l : Log)
    (scs : List ContractStateChange) (hname : name ≠ none)
    (h : decodeLog X name l = Except.ok scs) : scs ≠ [] := by
  cases name with
  | none => exact absurd rfl hname
  | some n =>
    cases n <;> simp only [decodeLog] at h
    case nameChannelOpenedAndDeposit =>
      cases hx : X.newEventChannelOpenAndDeposit l <;> simp only [hx] at h <;> cases h
      simp
    case nameChannelNewDeposit =>
      cases hx : X.newEventChannelNewDeposit l <;> simp only [hx] at h <;> cases h
      simp
    case nameChannelClosed =>
      cases hx : X.newEventChannelClosed l <;> simp only [hx] at h <;> cases h
      simp
    case nameChannelUnlocked =>
      cases hx : X.newEventChannelUnlocked l <;> simp only [hx] at h <;> cases h
      simp
    case nameBalanceProofUpdated =>
      cases hx : X.newEventBalanceProofUpdated l <;> simp only [hx] at h <;> cases h
      simp
    case nameChannelPunished =>
      cases hx : X.newEventChannelPunished l <;> simp only [hx] at h <;> cases h
      simp
    case nameChannelSettled =>
      cases hx : X.newEventChannelSettled l <;> simp only [hx] at h <;> cases h
      simp
    case nameChannelCooperativeSettled =>
      cases hx : X.newEventChannelCooperativeSettled l <;> simp only [hx] at h <;> cases h
      simp
    case nameChannelWithdraw =>
      cases hx : X.newEventChannelWithdraw l <;> simp only [hx] at h <;> cases h
      simp
    case nameSecretRevealed =>
      cases hx : X.newEventSecretRevealed l <;> simp only [hx] at h <;> cases h
      simp

/-- The loop body on a log that is neither a repetition nor delayed: the log goes to the
`switch`; on an error the call returns what it has, otherwise the state changes are
appended, the log is recorded in `txDone` and the loop goes on. -/
theorem parseLoop_cons (X : Env) (cfg : config) (last : Int) (l : Log) (t : Hash)
    (ts : List Hash) (logs : List Log) (txDone : Hash → Option Nat)
    (acc : List ContractStateChange) (ht : l.Topics = t :: ts)
    (hnew : txDone l.TxHash ≠ some l.BlockNumber)
    (hdel : delayed cfg last (X.topicToEventName t) l = false) :
    parseLoop X cfg last (l :: logs) txDone acc =
      match decodeLog X (X.topicToEventName t) l with
      | Except.error err => some { stateChanges := acc, err := some err, txDone := txDone }
      | Except.ok scs =>
        parseLoop X cfg last logs (Function.update txDone l.TxHash (some l.BlockNumber))
          (acc ++ scs) := by
  simp only [parseLoop, ht, hnew, hdel, if_false, Bool.false_eq_true]

/-! ## C21: secret-reveal events wait for their confirmations -/

/-- C21. Every `ContractSecretRevealOnChainStateChange` in the result of
`parseLogsToEvents` comes from a log of the list (it is the state change of the event
decoded from that log) for which the confirmation test of the loop does not hold:
`ForkConfirmNumber ≤ lastBlockNumber - int64(l.BlockNumber)` in `int64` arithmetic,
whatever `EnableForkConfirm` is. For block numbers below `2 ^ 63` this is
`lastBlockNumber - l.BlockNumber ≥ ForkConfirmNumber` on the numbers. -/
theorem secret_reveal_confirmed (X : Env) (be : Events) (logs : List Log) (r : ParseResult)
    (c : ContractSecretRevealOnChainStateChange)
    (h : parseLogsToEvents X be logs = some r)
    (hc : ContractStateChange.secretRevealOnChain c ∈ r.stateChanges) :
    ∃ l ∈ logs,
      (∃ e, X.newEventSecretRevealed l = Except.ok e ∧
        c = eventSecretRevealed2StateChange X e) ∧
      be.Config.ForkConfirmNumber ≤ wrapInt64 (be.lastBlockNumber - toInt64 l.BlockNumber) ∧
      (0 ≤ be.lastBlockNumber → be.lastBlockNumber < 2 ^ 63 → l.BlockNumber < 2 ^ 63 →
        be.Config.ForkConfirmNumber ≤ be.lastBlockNumber - l.BlockNumber) := by
  rcases parseLoop_mem X _ _ logs be.txDone [] r h _ hc with h1 | h1
  · simp at h1
  · obtain ⟨l, hl, t, ts, scs, _, hdel, hdec, hmem⟩ := h1
    obtain ⟨hname, he⟩ := decodeLog_secret X _ l scs c hdec hmem
    have hconf : be.Config.ForkConfirmNumber ≤
        wrapInt64 (be.lastBlockNumber - toInt64 l.BlockNumber) := by
      rw [hname] at hdel
      simp only [delayed, lacksConfirmations, decide_True, Bool.true_and, Bool.or_eq_false_iff,
        decide_eq_false_iff_not, not_lt] at hdel
      exact hdel.2
    refine ⟨l, hl, he, hconf, ?_⟩
    intro h0 h1 h2
    rw [wrapInt64_sub _ _ h0 h1 h2] at hconf
    exact hconf

/-- C21, at a concrete input: with fork confirmation switched off, at block 100 with
seventeen confirmations required, of the secret-reveal logs of the blocks 90 and 80 only
the second one yields a state change. -/
theorem secret_reveal_confirmed_witness :
    Sample.events.Config.EnableForkConfirm = false ∧
    (parseLogsToEvents Sample.env Sample.events [Sample.lateSecretLog, Sample.secretLog]).map
        (fun r => r.stateChanges) =
      some [ContractStateChange.secretRevealOnChain
        { Secret := 55, LockSecretHash := 56, BlockNumber := 80 }] ∧
    ∃ l ∈ [Sample.lateSecretLog, Sample.secretLog],
      (∃ e, Sample.env.newEventSecretRevealed l = Except.ok e ∧
        ({ Secret := 55, LockSecretHash := 56, BlockNumber := 80 } :
          ContractSecretRevealOnChainStateChange) = eventSecretRevealed2StateChange Sample.env e) ∧
      Sample.events.Config.ForkConfirmNumber ≤
        wrapInt64 (Sample.events.lastBlockNumber - toInt64 l.BlockNumber) ∧
      (0 ≤ Sample.events.lastBlockNumber → Sample.events.lastBlockNumber < 2 ^ 63 →
        l.BlockNumber < 2 ^ 63 →
        Sample.events.Config.ForkConfirmNumber ≤ Sample.events.lastBlockNumber - l.BlockNumber) :=
  ⟨rfl, by decide,
    secret_reveal_confirmed Sample.env Sample.events [Sample.lateSecretLog, Sample.secretLog] _
      { Secret := 55, LockSecretHash := 56, BlockNumber := 80 } rfl (by decide)⟩

/-! ## C22: a delayed log is not recorded -/

/-- C22. A log that `parseLogsToEvents` skips for lack of fork confirmations (it is not
a repetition, and one of the two confirmation tests holds) is not recorded: the call on
this single log returns no state change and no error and leaves `txDone` as it is. A
later call with that `txDone`, made at a block number `later` at which the log has its
confirmations, processes the log: the log goes to its decoder; when it decodes, its
state changes (at least one) are returned and the log is recorded in `txDone`, and
otherwise the decoder's error is returned. -/
theorem delayed_log_not_recorded (X : Env) (be : Events) (l : Log) (t : Hash)
    (ts : List Hash) (later : Int) (ht : l.Topics = t :: ts)
    (hnew : be.txDone l.TxHash ≠ some l.BlockNumber)
    (hdel : delayed be.Config be.lastBlockNumber (X.topicToEventName t) l = true)
    (hconf : lacksConfirmations be.Config later l = false) :
    parseLogsToEvents X be [l] =
      some { stateChanges := [], err := none, txDone := be.txDone } ∧
    (∀ scs, decodeLog X (X.topicToEventName t) l = Except.ok scs →
      scs ≠ [] ∧
      parseLogsToEvents X { be with lastBlockNumber := later } [l] =
        some { stateChanges := scs, err := none,
               txDone := Function.update be.txDone l.TxHash (some l.BlockNumber) }) ∧
    (∀ err, decodeLog X (X.topicToEventName t) l = Except.error err →
      parseLogsToEvents X { be with lastBlockNumber := later } [l] =
        some { stateChanges := [], err := some err, txDone := be.txDone }) := by
  have hd2 : delayed be.Config later (X.topicToEventName t) l = false := by
    simp [delayed, hconf]
  refine ⟨?_, ?_, ?_⟩
  · exact parseLoop_skip X _ _ [l] be.txDone [] (fun a ha => by
      rw [List.mem_singleton] at ha
      subst ha
      exact ⟨t, ts, ht, Or.inr hdel⟩)
  · intro scs hdec
    refine ⟨decodeLog_ne_nil X _ l scs (delayed_name _ _ _ l hdel) hdec, ?_⟩
    unfold parseLogsToEvents
    rw [parseLoop_cons X _ _ l t ts [] be.txDone [] ht hnew hd2, hdec]
    simp [parseLoop]
  · intro err hdec
    unfold parseLogsToEvents
    rw [parseLoop_cons X _ _ l t ts [] be.txDone [] ht hnew hd2, hdec]

/-- C22, at a concrete input: the secret-reveal log of block 90 is skipped at block 100
and yields its state change at block 107. -/
theorem delayed_log_not_recorded_witness :
    (parseLogsToEvents Sample.env Sample.events [Sample.lateSecretLog]).map
        (fun r => (r.stateChanges, r.err)) = some ([], none) ∧
    (parseLogsToEvents Sample.env { Sample.events with lastBlockNumber := 107 }
        [Sample.lateSecretLog]).map (fun r => (r.stateChanges, r.err, r.txDone 12)) =
      some ([ContractStateChange.secretRevealOnChain
        { Secret := 66, LockSecretHash := 67, BlockNumber := 90 }], none, some 90) :=
  have h := delayed_log_not_recorded Sample.env Sample.events Sample.lateSecretLog 10 [] 107
    rfl (by decide) (by decide) (by decide)
  ⟨by rw [h.1]; rfl,
   by rw [(h.2.1 _ rfl).2]; decide⟩

/-! ## C23: the channel identifier -/

/-- C23. The function `calcChannelID` is symmetric in the two participants, and its
result is the hash of the smaller address, the larger address and the token (addresses
compared as by `bytes.Compare`, that is by their big-endian values). -/
theorem calcChannelID_symmetric (X : Env) (token p1 p2 : Address) :
    calcChannelID X token p1 p2 = calcChannelID X token p2 p1 ∧
    calcChannelID X token p1 p2 = X.Sha3 (min p1 p2) (max p1 p2) token := by
  unfold calcChannelID
  rcases lt_trichotomy p1 p2 with h | h | h
  · have h2 : ¬ p2 < p1 := lt_asymm h
    simp [h, h2, min_eq_left h.le, max_eq_right h.le]
  · subst h
    simp
  · have h2 : ¬ p1 < p2 := lt_asymm h
    simp [h, h2, min_eq_right h.le, max_eq_left h.le]

/-! ## C24: the two state changes of an opened channel -/

/-- C24. For every `ChannelOpenedAndDeposit` event the two state changes of
`eventChannelOpenAndDeposit2StateChange` carry the channel identifier
`calcChannelID(token, participant, partner)` and the block number of the event's log; the
balance state change credits the event's `Participant1Deposit` to the event's
`Participant`. In `parseLogsToEvents`, a log with that event name that is neither a
repetition nor delayed and that decodes to the event appends the new-channel state change
and then the balance state change to the state changes collected so far, is recorded in
`txDone`, and the loop goes on with the remaining logs. -/
theorem open_and_deposit_state_changes (X : Env) (ev : TokenNetworkChannelOpenedAndDeposit) :
    (eventChannelOpenAndDeposit2StateChange X ev).1.ChannelIdentifier.ChannelIdentifier =
      calcChannelID X ev.Token ev.Participant ev.Partner ∧
    (eventChannelOpenAndDeposit2StateChange X ev).2.ChannelIdentifier =
      calcChannelID X ev.Token ev.Participant ev.Partner ∧
    (eventChannelOpenAndDeposit2StateChange X ev).1.BlockNumber = toInt64 ev.Raw.BlockNumber ∧
    (eventChannelOpenAndDeposit2StateChange X ev).2.BlockNumber = toInt64 ev.Raw.BlockNumber ∧
    (eventChannelOpenAndDeposit2StateChange X ev).2.Balance = ev.Participant1Deposit ∧
    (eventChannelOpenAndDeposit2StateChange X ev).2.ParticipantAddress = ev.Participant ∧
    ∀ (cfg : config) (last : Int) (l : Log) (t : Hash) (ts : List Hash) (logs : List Log)
      (txDone : Hash → Option Nat) (acc : List ContractStateChange),
      l.Topics = t :: ts →
      X.topicToEventName t = some EventName.nameChannelOpenedAndDeposit →
      txDone l.TxHash ≠ some l.BlockNumber →
      delayed cfg last (some EventName.nameChannelOpenedAndDeposit) l = false →
      X.newEventChannelOpenAndDeposit l = Except.ok ev →
      parseLoop X cfg last (l :: logs) txDone acc =
        parseLoop X cfg last logs (Function.update txDone l.TxHash (some l.BlockNumber))
          (acc ++ [ContractStateChange.newChannel (eventChannelOpenAndDeposit2StateChange X ev).1,
            ContractStateChange.balance (eventChannelOpenAndDeposit2StateChange X ev).2]) := by
  refine ⟨rfl, rfl, rfl, rfl, rfl, rfl, ?_⟩
  intro cfg last l t ts logs txDone acc ht hname hnew hdel hdec
  rw [← hname] at hdel
  rw [parseLoop_cons X cfg last l t ts logs txDone acc ht hnew hdel, hname]
  simp only [decodeLog, hdec]

/-- C24, at a concrete input: the opening of a channel of token 1 between the
participants 3 and 2 in block 95, as the only log of a call. -/
theorem open_and_deposit_state_changes_witness :
    (parseLogsToEvents Sample.env Sample.events [Sample.openedLog]).map
        (fun r => (r.stateChanges, r.err, r.txDone 13)) =
      some ([ContractStateChange.newChannel
          { ChannelIdentifier := { ChannelIdentifier := 2 ^ 2 * 3 ^ 3 * 5 ^ 1,
                                   OpenBlockNumber := 95 },
            TokenAddress := 1, Participant1 := 3, Participant2 := 2, SettleTimeout := 40,
            BlockNumber := 95 },
        ContractStateChange.balance
          { ChannelIdentifier := 2 ^ 2 * 3 ^ 3 * 5 ^ 1, ParticipantAddress := 3,
            Balance := some 500, BlockNumber := 95 }], none, some 95) := by
  have h := (open_and_deposit_state_changes Sample.env
    { Token := 1, Participant := 3, Partner := 2, SettleTimeout := 40,
      Participant1Deposit := some 500, Raw := Sample.openedLog }).2.2.2.2.2.2
    Sample.events.Config Sample.events.lastBlockNumber Sample.openedLog 1 [] []
    Sample.events.txDone [] rfl rfl (by decide) (by decide) rfl
  unfold parseLogsToEvents
  rw [h]
  decide

end blockchain

/-! # Further theorems on the zero-knowledge proof -/

namespace kgcenter

/-! ## C25: the range of a generated proof -/

/-- The value of a byte string is below `256 ^ length`. -/
theorem SetBytes_lt (digest : List Nat) : SetBytes digest < 256 ^ digest.length := by
  have key : ∀ (l : List Nat) (acc : Nat),
      l.foldl (fun acc b => acc * 256 + b % 256) acc < (acc + 1) * 256 ^ l.length := by
    intro l
    induction l with
    | nil => intro acc; simp
    | cons b bs ih =>
      intro acc
      have h1 := ih (acc * 256 + b % 256)
      have h2 : b % 256 < 256 := Nat.mod_lt _ (by decide)
      have h3 : (acc * 256 + b % 256 + 1) * 256 ^ bs.length ≤
          ((acc + 1) * 256) * 256 ^ bs.length := Nat.mul_le_mul_right _ (by omega)
      simp only [List.foldl_cons, List.length_cons, pow_succ]
      calc List.foldl (fun acc b => acc * 256 + b % 256) (acc * 256 + b % 256) bs
          < (acc * 256 + b % 256 + 1) * 256 ^ bs.length := h1
        _ ≤ ((acc + 1) * 256) * 256 ^ bs.length := h3
        _ = (acc + 1) * (256 ^ bs.length * 256) := by ring
  have h := key digest 0
  unfold SetBytes
  have h2 : List.foldl (fun acc b => acc * 256 + b % 256) 0 digest < 256 ^ digest.length := by
    simpa using h
  exact_mod_cast h2

/-- C25. For moduli `N > 0` and `nTilde > 0`, every `eta ≥ 0` and non-negative sampled
`alpha`, `rho`, `gamma` (any `beta`, `r`, point and `w`; digests of 32 bytes),
`Initialization` builds a proof, and the proof satisfies `0 ≤ z < nTilde`,
`0 ≤ u3 < nTilde`, `0 ≤ u2 < N ^ 2`, `0 ≤ s2 < N`, `0 ≤ e < 2 ^ 256`, `s1 ≥ alpha` and
`s3 ≥ gamma`. -/
theorem initialization_ranges (E : Env) (params : PublicParameters)
    (eta cx cy w r alpha beta rho gamma : Int)
    (hN : 0 < params.paillierPubKey.N) (hT : 0 < params.nTilde) (heta : 0 ≤ eta)
    (halpha : 0 ≤ alpha) (hrho : 0 ≤ rho) (hgamma : 0 ≤ gamma)
    (hdig : ∀ g y w z u1 u2 u3, (E.Sha256Hash g y w z u1 u2 u3).length = 32) :
    ∃ zkp, Initialization E params eta cx cy w r alpha beta rho gamma = some zkp ∧
      0 ≤ zkp.z ∧ zkp.z < params.nTilde ∧
      0 ≤ zkp.u3 ∧ zkp.u3 < params.nTilde ∧
      0 ≤ zkp.u2 ∧ zkp.u2 < params.paillierPubKey.N ^ 2 ∧
      0 ≤ zkp.s2 ∧ zkp.s2 < params.paillierPubKey.N ∧
      0 ≤ zkp.e ∧ zkp.e < 2 ^ 256 ∧
      alpha ≤ zkp.s1 ∧ gamma ≤ zkp.s3 := by
  have hdig0 : ∀ g y w z u1 u2 u3, (E.Sha256Hash g y w z u1 u2 u3).length ≠ 0 := by
    intro g y w z u1 u2 u3
    rw [hdig]
    decide
  have hNN : 0 < params.paillierPubKey.N * params.paillierPubKey.N := Int.mul_pos hN hN
  have he0 : 0 ≤ (closedForm E params eta cx cy w r alpha beta rho gamma).e :=
    closedForm_e_nonneg E params eta cx cy w r alpha beta rho gamma
  have he1 : (closedForm E params eta cx cy w r alpha beta rho gamma).e < 2 ^ 256 := by
    have h := SetBytes_lt (E.Sha256Hash (params.paillierPubKey.N + 1) (cx, cy) w
      (closedForm E params eta cx cy w r alpha beta rho gamma).z
      (closedForm E params eta cx cy w r alpha beta rho gamma).u1
      (closedForm E params eta cx cy w r alpha beta rho gamma).u2
      (closedForm E params eta cx cy w r alpha beta rho gamma).u3)
    rw [hdig] at h
    have h256 : (256 : Int) ^ 32 = 2 ^ 256 := by norm_num
    rw [h256] at h
    exact h
  refine ⟨_, Initialization_eq E params eta cx cy w r alpha beta rho gamma hN hT.ne' heta
    halpha hrho hgamma hdig0, ?_, ?_, ?_, ?_, ?_, ?_, ?_, ?_, he0, he1, ?_, ?_⟩
  · exact Int.emod_nonneg _ hT.ne'
  · exact Int.emod_lt_of_pos _ hT
  · exact Int.emod_nonneg _ hT.ne'
  · exact Int.emod_lt_of_pos _ hT
  · exact Int.emod_nonneg _ hNN.ne'
  · rw [pow_two]
    exact Int.emod_lt_of_pos _ hNN
  · exact Int.emod_nonneg _ hN.ne'
  · exact Int.emod_lt_of_pos _ hN
  · have : 0 ≤ (closedForm E params eta cx cy w r alpha beta rho gamma).e * eta :=
      mul_nonneg he0 heta
    show alpha ≤ (closedForm E params eta cx cy w r alpha beta rho gamma).e * eta + alpha
    omega
  · have : 0 ≤ (closedForm E params eta cx cy w r alpha beta rho gamma).e * rho :=
      mul_nonneg he0 hrho
    show gamma ≤ (closedForm E params eta cx cy w r alpha beta rho gamma).e * rho + gamma
    omega

/-- C25, at a concrete input: secp256k1 with the sample parameters `N = 35`,
`nTilde = 33`, `eta = 2` and the sampled values `3, 4, 5, 6`. -/
theorem initialization_ranges_witness :
    ∃ zkp, Initialization (S256.env sampleHash) Sample.params 2 (S256.env sampleHash).S256_Gx
        (S256.env sampleHash).S256_Gy Sample.w 2 3 4 5 6 = some zkp ∧
      0 ≤ zkp.z ∧ zkp.z < 33 ∧ 0 ≤ zkp.u3 ∧ zkp.u3 < 33 ∧ 0 ≤ zkp.u2 ∧ zkp.u2 < 35 ^ 2 ∧
      0 ≤ zkp.s2 ∧ zkp.s2 < 35 ∧ 0 ≤ zkp.e ∧ zkp.e < 2 ^ 256 ∧ 3 ≤ zkp.s1 ∧ 6 ≤ zkp.s3 :=
  initialization_ranges (S256.env sampleHash) Sample.params 2 (S256.env sampleHash).S256_Gx
    (S256.env sampleHash).S256_Gy Sample.w 2 3 4 5 6 (by decide) (by decide) (by decide)
    (by decide) (by decide) (by decide) (fun _ _ _ _ _ _ _ => by simp [S256.env, sampleHash])

end kgcenter
